import Mathlib

/-!
# knode: force-directed node map (`src/nodemap/nodemap.js`)

A shallow embedding of the physics and stabilisation engine of the node map.

* JavaScript numbers are idealised as elements of a linearly ordered field
  (rounding of doubles is not modelled); the definitions are generic in the
  field and computable.
* The browser builtins the code calls (`Math.sqrt`, `Math.cos`, `Math.sin`,
  `Math.atan`, `Math.PI`, `parseInt`) are a parameter `Builtins`; the
  theorems about magnitudes and directions instantiate it with the real
  functions (`realBuiltins`).
* Objects are references in JavaScript: a node is its index in `$map.nodes`
  (the list in which `addNode` stores every node), `$parent` is an optional
  index and `children` a list of indices.
* Recursive methods take a fuel argument and return `none` when the fuel runs
  out or when the code would dereference a null `$parent`.
* A division by zero has the value 0 of the field, where JavaScript yields
  `Infinity` or `NaN`; the divisors that the repulsion function meets are
  listed by `repulsionDivisors`.
-/

set_option linter.unusedSectionVars false

namespace Knode

/-! ## Builtins and constants -/

/-- The browser builtins used by the code, as a parameter. -/
structure Builtins (α : Type) where
  sqrt : α → α
  cos : α → α
  sin : α → α
  atan : α → α
  PI : α
  parseInt : α → α

/-- The idealised builtins over the real numbers. `parseInt` truncates towards zero. -/
noncomputable def realBuiltins : Builtins ℝ where
  sqrt := Real.sqrt
  cos := Real.cos
  sin := Real.sin
  atan := Real.arctan
  PI := Real.pi
  parseInt := fun v => if 0 ≤ v then (⌊v⌋ : ℝ) else (⌈v⌉ : ℝ)

section Model

variable {α : Type} [LinearOrderedField α]

/-- Source line 32: `var MOVEMENT_TIMEOUT = 4`. -/
def MOVEMENT_TIMEOUT : Nat := 4

/-- Source line 33: `var CHILD_PARENT_INIT_DISTANCE = 50`. -/
def CHILD_PARENT_INIT_DISTANCE : α := 50

/-- Source line 34: `var NODES_REPULSIVE_FACTOR = 460`. -/
def NODES_REPULSIVE_FACTOR : α := 460

/-- Source line 35: `var LINES_RESTORING_FACTOR = 8000`. -/
def LINES_RESTORING_FACTOR : α := 8000

/-! ## Force model -/

/-- A point `{x, y}`: what the force functions read of `this` and `otherNode`. -/
structure Point (α : Type) where
  x : α
  y : α

/-- The object `{dx, dy}` returned by the force functions. -/
structure ForceVector (α : Type) where
  dx : α
  dy : α

/-- The idiom `factor || 1` on an optional numeric argument: an absent
(`undefined`) or zero argument is falsy and is replaced by `1`. -/
def orOne (factor : Option α) : α :=
  match factor with
  | none => 1
  | some v => if v = 0 then 1 else v

/-- Source lines 334-361: Coulomb repulsion of `self` from `otherNode`. -/
def calculateSingleRepulsionForceFromNode (M : Builtins α) (self otherNode : Point α)
    (dampFactor : Option α) : ForceVector α :=
  let x := otherNode.x - self.x
  let y := otherNode.y - self.y
  let distance := M.sqrt ((x * x) + (y * y))
  if |distance| < 400 then
    let theta := if x = 0 then M.PI / 2 else M.atan (y / x)
    let xsign := if x = 0 then 1 else x / |x|
    let dampFactor := orOne dampFactor
    let f := NODES_REPULSIVE_FACTOR / (distance * distance * (dampFactor * dampFactor))
    { dx := -f * M.cos theta * xsign, dy := -f * M.sin theta * xsign }
  else
    { dx := 0, dy := 0 }

/-- Source lines 364-388: Hooke attraction of `self` towards `otherNode`. -/
def calculateSingleAttractiveForceTowardsNode (M : Builtins α) (self otherNode : Point α)
    (ampFactor : Option α) : ForceVector α :=
  let x := otherNode.x - self.x
  let y := otherNode.y - self.y
  let distance := M.sqrt ((x * x) + (y * y))
  if |distance| > 0 then
    let theta := if x = 0 then M.PI / 2 else M.atan (y / x)
    let xsign := if x = 0 then 1 else x / |x|
    let ampFactor := orOne ampFactor
    let f := (15 * distance * 0.01 * ampFactor) / LINES_RESTORING_FACTOR
    { dx := f * M.cos theta * xsign, dy := f * M.sin theta * xsign }
  else
    { dx := 0, dy := 0 }

/-- The sum of two force vectors (`fx += f.dx; fy += f.dy`). -/
def ForceVector.add (a b : ForceVector α) : ForceVector α :=
  { dx := a.dx + b.dx, dy := a.dy + b.dy }

/-! ## Data model -/

/-- A `Node` object (source lines 40-64). References to other nodes are indices
into `$map.nodes`. Of the DOM element only what the simulation reads or writes is
kept: the `ui-draggable-dragging` class, the CSS `left`/`top` and jQuery's
`width()`/`height()`. -/
structure Node (α : Type) where
  parent : Option Nat
  children : List Nat
  hasPosition : Bool
  dx : α
  dy : α
  isStable : Bool
  depthLevel : α
  stabilityTimeout : Nat
  stopSubtreeMoving : Bool
  elementWidth : α
  elementHeight : α
  x : α
  y : α
  adjustedX : α
  adjustedY : α
  dragging : Bool
  cssLeft : α
  cssTop : α
  width : α
  height : α

instance : Inhabited (Node α) :=
  ⟨{ parent := none, children := [], hasPosition := false, dx := 0, dy := 0,
     isStable := false, depthLevel := 0, stabilityTimeout := 0, stopSubtreeMoving := false,
     elementWidth := 0, elementHeight := 0, x := 0, y := 0, adjustedX := 0, adjustedY := 0,
     dragging := false, cssLeft := 0, cssTop := 0, width := 0, height := 0 }⟩

/-- A `Line` object (source lines 461-466): a connection between two nodes. -/
structure Line where
  startNode : Nat
  endNode : Nat

/-- The `$map` object with its options (source lines 492-517). -/
structure NodeMap (α : Type) where
  nodes : List (Node α)
  lines : List Line
  selectedNode : Option Nat
  rootNode : Option Nat
  linesCanBeShown : Bool
  dragActiveOnMap : Bool
  minimumForceThreshold : α
  mapAreaWidth : α
  mapAreaHeight : α
  canvasWidth : α
  canvasHeight : α

/-- The node object behind a reference. -/
def NodeMap.node (s : NodeMap α) (n : Nat) : Node α :=
  s.nodes.getD n default

/-- Store a node object behind a reference. -/
def NodeMap.setNode (s : NodeMap α) (n : Nat) (nd : Node α) : NodeMap α :=
  { s with nodes := s.nodes.set n nd }

/-- The position `{x, y}` of a node. -/
def Node.point (nd : Node α) : Point α :=
  { x := nd.x, y := nd.y }

/-! ## Node: force aggregation, stability, position -/

/-- Source lines 401-418: repulsion from every sibling and from the parent. -/
def repulsionPart (M : Builtins α) (s : NodeMap α) (n : Nat) : ForceVector α :=
  match (s.node n).parent with
  | none => { dx := 0, dy := 0 }
  | some p =>
    let fromSiblings : ForceVector α := (s.node p).children.foldl
      (fun (acc : ForceVector α) sib =>
        if sib = n then acc
        else acc.add (calculateSingleRepulsionForceFromNode M (s.node n).point
          (s.node sib).point none))
      { dx := 0, dy := 0 }
    fromSiblings.add
      (calculateSingleRepulsionForceFromNode M (s.node n).point (s.node p).point none)

/-- Source lines 424-442: attraction along every line the node is a part of,
except the lines to its own children. -/
def attractionPart (M : Builtins α) (s : NodeMap α) (n : Nat)
    (start : ForceVector α) : ForceVector α :=
  s.lines.foldl
    (fun (acc : ForceVector α) line =>
      if line.startNode = n ∨ line.endNode = n then
        let otherEnd := if line.startNode = n then line.endNode else line.startNode
        if otherEnd ∈ (s.node n).children then acc
        else acc.add (calculateSingleAttractiveForceTowardsNode M (s.node n).point
          (s.node otherEnd).point (some ((s.node n).depthLevel ^ 4)))
      else acc)
    start

/-- Source lines 396-457: the resulting force vector of a node. -/
def calculateForceVector (M : Builtins α) (s : NodeMap α) (n : Nat) : ForceVector α :=
  let f := attractionPart M s n (repulsionPart M s n)
  if s.selectedNode = some n then
    f.add (calculateSingleAttractiveForceTowardsNode M (s.node n).point
      { x := s.mapAreaWidth / 2, y := s.mapAreaHeight / 2 } (some 10))
  else f

/-- Source lines 126-147: compute the force vector, store it scaled by 10 and
thresholded in `dx`, `dy`, and report whether both components became zero. -/
def stabilityReached (M : Builtins α) (s : NodeMap α) (n : Nat) : NodeMap α × Bool :=
  let forceVector := calculateForceVector M s n
  let dx := forceVector.dx * 10
  let dy := forceVector.dy * 10
  let dx := if |dx| < s.minimumForceThreshold then 0 else dx
  let dy := if |dy| < s.minimumForceThreshold then 0 else dy
  if |dx| + |dy| = 0 then
    (s.setNode n { s.node n with dx := 0, dy := 0 }, true)
  else
    (s.setNode n { s.node n with dx := dx, dy := dy }, false)

/-- Source lines 151-162: apply the stored force components to the position and
place the element. -/
def takePosition (s : NodeMap α) (n : Nat) : NodeMap α :=
  let nd := s.node n
  let x := if nd.dx ≠ 0 then nd.x + nd.dx * 10 else nd.x
  let y := if nd.dy ≠ 0 then nd.y + nd.dy * 10 else nd.y
  let adjustedX := x - nd.elementWidth / 2
  let adjustedY := y - nd.elementHeight / 2
  s.setNode n { nd with x := x, y := y, adjustedX := adjustedX, adjustedY := adjustedY,
                        cssLeft := adjustedX, cssTop := adjustedY }

/-- The loop `$.each (list, function (index) {...})` over node references, for a body
that can fail: `body index element state`. -/
def eachIndexed {σ : Type} (body : Nat → Nat → σ → Option σ) :
    List Nat → Nat → σ → Option σ
  | [], _, s => some s
  | c :: cs, i, s => (body i c s).bind (eachIndexed body cs (i + 1))

/-- Source lines 167-170 of `layNodeAroundParent`, for a node `n` whose `$parent` is
the node `p`: the radial position of index `index` around the parent. -/
def placeRadially (M : Builtins α) (s : NodeMap α) (n index p : Nat) : NodeMap α :=
  let stepAngle := M.PI * 2 / ((s.node p).children.length : α)
  let angle := (index : α) * stepAngle
  s.setNode n { s.node n with
    x := (CHILD_PARENT_INIT_DISTANCE * M.cos angle) + (s.node p).x,
    y := (CHILD_PARENT_INIT_DISTANCE * M.sin angle) + (s.node p).y }

/-- Source lines 166-175: lay the node radially around its parent, then its children
around it, then place it. `none`: out of fuel, or `$parent` is null. -/
def layNodeAroundParent (M : Builtins α) : Nat → Nat → Nat → NodeMap α → Option (NodeMap α)
  | 0, _, _, _ => none
  | fuel + 1, n, index, s =>
    match (s.node n).parent with
    | none => none
    | some p =>
      let s1 := placeRadially M s n index p
      (eachIndexed (fun childIndex c st => layNodeAroundParent M fuel c childIndex st)
        (s1.node n).children 0 s1).bind
        fun s2 => some (takePosition s2 n)

/-! ## Subtree equilibrium search -/

/-- Source lines 205-215, the first step of `subtreeSeekEquilibrium`: a node without a
position is centred if it is the root, its children lose their position, and the
subtree counts as not stable. Returns the state and `isSubtreeStable` so far. -/
def positionSelf (s : NodeMap α) (n : Nat) : NodeMap α × Bool :=
  if (s.node n).hasPosition = false then
    let s1 :=
      if (s.node n).parent = none then
        s.setNode n { s.node n with
          x := s.mapAreaWidth / 2, y := s.mapAreaHeight / 2, hasPosition := true }
      else s
    let s2 := (s1.node n).children.foldl
      (fun (st : NodeMap α) c => st.setNode c { st.node c with hasPosition := false }) s1
    (s2, false)
  else (s, true)

/-- Source lines 218-224, the second step: every child without a position is laid
around its parent and gets `hasPosition = true` only if its parent `isStable`. -/
def layChildren (M : Builtins α) (fuel : Nat) (s : NodeMap α) (n : Nat) :
    Option (NodeMap α) :=
  eachIndexed
    (fun index c st =>
      if (st.node c).hasPosition = false then
        (layNodeAroundParent M fuel c index st).bind fun st1 =>
          match (st1.node c).parent with
          | none => none
          | some p =>
            if (st1.node p).isStable = true then
              some (st1.setNode c { st1.node c with hasPosition := true })
            else some st1
      else some st)
    (s.node n).children 0 s

/-- Source lines 228-239, the third and fourth step: a dragged node takes the drag
position and is not stable; any other node asks `stabilityReached`, stores the answer
in `isStable` and moves if the subtree is not stable so far. -/
def settleSelf (M : Builtins α) (s : NodeMap α) (n : Nat) (isSubtreeStable : Bool) :
    NodeMap α × Bool :=
  if (s.node n).dragging = true then
    (s.setNode n { s.node n with
        x := M.parseInt (s.node n).cssLeft + (s.node n).width / 2,
        y := M.parseInt (s.node n).cssTop + (s.node n).height / 2 }, false)
  else
    let r := stabilityReached M s n
    let s1 := r.1.setNode n { r.1.node n with isStable := r.2 }
    let isSubtreeStable := r.2 && isSubtreeStable
    if isSubtreeStable = false then (takePosition s1 n, isSubtreeStable)
    else (s1, isSubtreeStable)

/-- Source lines 242-244, the last step: `isSubtreeStable = child.subtreeSeekEquilibrium()
&& isSubtreeStable` for every child in turn (every child is visited). -/
def seekChildren (seek : Nat → NodeMap α → Option (NodeMap α × Bool)) :
    List Nat → NodeMap α → Bool → Option (NodeMap α × Bool)
  | [], s, b => some (s, b)
  | c :: cs, s, b => (seek c s).bind fun r => seekChildren seek cs r.1 (r.2 && b)

/-- Source lines 199-247: one pass of the equilibrium search over the subtree of `n`.
`none`: out of fuel, or a null `$parent` was dereferenced. -/
def subtreeSeekEquilibrium (M : Builtins α) :
    Nat → Nat → NodeMap α → Option (NodeMap α × Bool)
  | 0, _, _ => none
  | fuel + 1, n, s =>
    let r1 := positionSelf s n
    (layChildren M fuel r1.1 n).bind fun s2 =>
      let r3 := settleSelf M s2 n r1.2
      seekChildren (fun c st => subtreeSeekEquilibrium M fuel c st)
        (r3.1.node n).children r3.1 r3.2

/-! ## Bounding box and animation loop -/

/-- Source lines 304-314: one step of the scan over `$map.nodes`, updating one gap
(`Xgap` with `x`, `elementWidth` and `boundingBox.x`, or `Ygap` likewise). -/
def gapStep (bound gap pos size : α) : α :=
  if pos - size / 2 < 0 ∧ |pos| > gap then |pos|
  else if pos + size / 2 > bound ∧ |pos| > gap then |pos|
  else gap

/-- Source lines 301-323: the bounding box recalculation of a tick. The one scan of
`$map.nodes` updates `Xgap` and `Ygap` independently of each other; it is written as
one fold for each. -/
def recalculateBoundingBox (s : NodeMap α) : NodeMap α :=
  let boundingBoxX := s.mapAreaWidth
  let boundingBoxY := s.mapAreaHeight
  let Xgap := s.nodes.foldl (fun gap nd => gapStep boundingBoxX gap nd.x nd.elementWidth) 0
  let Ygap := s.nodes.foldl (fun gap nd => gapStep boundingBoxY gap nd.y nd.elementHeight) 0
  if Xgap ≠ 0 ∨ Ygap ≠ 0 then
    { s with mapAreaWidth := s.mapAreaWidth + Xgap, mapAreaHeight := s.mapAreaHeight + Ygap,
             canvasWidth := s.mapAreaWidth + Xgap, canvasHeight := s.mapAreaHeight + Ygap }
  else s

/-- What a pending timer will run: the stability timeout of a node (source lines
187-192) or the next tick of its animation loop (source lines 327-329). -/
inductive Callback where
  | stabilityExpired (n : Nat)
  | nextTick (n : Nat)
  deriving DecidableEq

/-- A pending `setTimeout`: its handle, the time it is due (ms) and its callback. -/
structure Timer where
  id : Nat
  due : Nat
  callback : Callback
  deriving DecidableEq

/-- The map together with the browser's timer queue, the clock (ms) and the number of
`finalizeConnectors` calls so far. -/
structure Runtime (α : Type) where
  map : NodeMap α
  timers : List Timer
  nextTimerId : Nat
  now : Nat
  connectorsFinalized : Nat

/-- Browser `setTimeout`: queue the callback and return the new handle. -/
def setTimeout (rt : Runtime α) (callback : Callback) (delay : Nat) : Runtime α × Nat :=
  ({ rt with timers := rt.timers ++ [{ id := rt.nextTimerId, due := rt.now + delay,
                                       callback := callback }],
             nextTimerId := rt.nextTimerId + 1 }, rt.nextTimerId)

/-- Browser `clearTimeout`: drop the timer with this handle, if it is pending. -/
def clearTimeout (rt : Runtime α) (id : Nat) : Runtime α :=
  { rt with timers := rt.timers.filter fun t => t.id ≠ id }

/-- Source lines 251-255: `finalizeConnectors` animates the opacity of the `path` of
every line; the call is counted. The `path` of a line is not part of the state here. In
the source it is `null` until the line was drawn (`draw ()`, which the animation loop
runs only while `linesCanBeShown` is true), and `this.path.animate` throws on a line that
was never drawn: this function stands for the call on a map whose lines are all drawn. -/
def finalizeConnectors (rt : Runtime α) : Runtime α :=
  { rt with connectorsFinalized := rt.connectorsFinalized + 1 }

/-- Source lines 259-330: one tick of the animation loop of node `n`. The redrawing of
the lines (264-271) changes no state of the simulation and is left out. -/
def animationLoop (M : Builtins α) (fuel : Nat) (rt : Runtime α) (n : Nat) :
    Option (Runtime α) :=
  (subtreeSeekEquilibrium M fuel n rt.map).bind fun r =>
    let isMySubtreeStable := r.2
    let m1 :=
      if isMySubtreeStable = true ∧ (r.1.node n).parent = none ∧ r.1.dragActiveOnMap = true then
        { r.1 with dragActiveOnMap := false }
      else r.1
    if isMySubtreeStable = true ∨ (m1.node n).stopSubtreeMoving = true then
      if (m1.node n).parent = none then some (finalizeConnectors { rt with map := m1 })
      else some { rt with map := m1 }
    else
      let m2 := if m1.dragActiveOnMap = false then recalculateBoundingBox m1 else m1
      some (setTimeout { rt with map := m2 } (Callback.nextTick n) 10).1

/-- Source lines 179-195: restart the stability timeout of node `n` and run a first
tick of its animation loop. -/
def animateToStaticPosition (M : Builtins α) (fuel : Nat) (rt : Runtime α) (n : Nat) :
    Option (Runtime α) :=
  let rt1 := clearTimeout rt (rt.map.node n).stabilityTimeout
  let m2 := rt1.map.setNode n { rt1.map.node n with stopSubtreeMoving := false }
  let rt2 := { rt1 with map := m2 }
  let r3 := setTimeout rt2 (Callback.stabilityExpired n) (MOVEMENT_TIMEOUT * 1000)
  let m4 := r3.1.map.setNode n { r3.1.map.node n with stabilityTimeout := r3.2 }
  let rt4 := { r3.1 with map := m4 }
  animationLoop M fuel rt4 n

/-- Source lines 187-192: the callback of the stability timeout armed by
`animateToStaticPosition` on `thisNode`; it sets the flag of `$map.rootNode`. -/
def stabilityTimeoutCallback (rt : Runtime α) (_thisNode : Nat) : Option (Runtime α) :=
  match rt.map.rootNode with
  | none => none
  | some root =>
    let m := rt.map.setNode root { rt.map.node root with stopSubtreeMoving := true }
    some (finalizeConnectors { rt with map := m })

/-! ## Notions used to state the properties -/

/-- The fields of a node that one pass of the equilibrium search never writes. -/
def Node.core (nd : Node α) :
    Option Nat × List Nat × Bool × Bool × Nat × α × α × α × α × α :=
  (nd.parent, nd.children, nd.dragging, nd.stopSubtreeMoving, nd.stabilityTimeout,
    nd.depthLevel, nd.elementWidth, nd.elementHeight, nd.width, nd.height)

/-- The stability flag and the stored force vector of a node. -/
def Node.forceState (nd : Node α) : Bool × α × α :=
  (nd.isStable, nd.dx, nd.dy)

/-- Everything of the map but the node objects. -/
def NodeMap.withoutNodes (s : NodeMap α) : NodeMap α :=
  { s with nodes := [] }

/-- The state `t` differs from `s` at most in fields of nodes outside `Node.core`. -/
structure CoreKept (s t : NodeMap α) : Prop where
  globals : t.withoutNodes = s.withoutNodes
  length : t.nodes.length = s.nodes.length
  core : ∀ m, (t.node m).core = (s.node m).core

/-- The state `t` differs from `s` at most in the position fields of nodes (`x`, `y`,
`adjustedX`, `adjustedY`, CSS `left`/`top`, `hasPosition`). -/
structure ForceKept (s t : NodeMap α) : Prop where
  coreKept : CoreKept s t
  force : ∀ m, (t.node m).forceState = (s.node m).forceState

/-- The state `t` is `s` after position updates of nodes created after `n` only. -/
def LaidBehind (n : Nat) (s t : NodeMap α) : Prop :=
  ForceKept s t ∧ ∀ m, m ≤ n → t.node m = s.node m

/-- The references form a tree as `addNode` builds it: every child is a node of the
map, was created after its parent and points back to it. -/
def WellFormed (s : NodeMap α) : Prop :=
  ∀ m, m < s.nodes.length → ∀ c, c ∈ (s.node m).children →
    m < c ∧ c < s.nodes.length ∧ (s.node c).parent = some m

/-- What a node reports when `subtreeSeekEquilibrium` visits it: whether it had a
position when the visit began, whether it is being dragged, and what its
`stabilityReached` call returned (`none`: not called, the node is dragged). -/
structure VisitReport where
  node : Nat
  hadPosition : Bool
  dragged : Bool
  reached : Option Bool

/-- The node reports stable: it had a position, is not dragged and `stabilityReached`
returned true. -/
def VisitReport.stable (r : VisitReport) : Prop :=
  r.hadPosition = true ∧ r.dragged = false ∧ r.reached = some true

/-- The loop of `seekChildren`, also collecting the reports of the visits. -/
def seekChildrenTrace (seek : Nat → NodeMap α → Option (NodeMap α × Bool × List VisitReport)) :
    List Nat → NodeMap α → Bool → Option (NodeMap α × Bool × List VisitReport)
  | [], s, b => some (s, b, [])
  | c :: cs, s, b =>
    (seek c s).bind fun r =>
      (seekChildrenTrace seek cs r.1 (r.2.1 && b)).map fun q => (q.1, q.2.1, r.2.2 ++ q.2.2)

/-- The pass `subtreeSeekEquilibrium`, also returning the report of every visit of the
pass, in the order of the visits. -/
def subtreeSeekEquilibriumTrace (M : Builtins α) :
    Nat → Nat → NodeMap α → Option (NodeMap α × Bool × List VisitReport)
  | 0, _, _ => none
  | fuel + 1, n, s =>
    let r1 := positionSelf s n
    (layChildren M fuel r1.1 n).bind fun s2 =>
      let r3 := settleSelf M s2 n r1.2
      let report : VisitReport :=
        { node := n, hadPosition := (s.node n).hasPosition, dragged := (s2.node n).dragging,
          reached := if (s2.node n).dragging = true then none
                     else some (stabilityReached M s2 n).2 }
      (seekChildrenTrace (fun c st => subtreeSeekEquilibriumTrace M fuel c st)
        (r3.1.node n).children r3.1 r3.2).map fun q => (q.1, q.2.1, report :: q.2.2)

/-- The node is marked stable: `isStable` is true and the stored force vector is
`(0, 0)`. -/
def Marked (s : NodeMap α) (m : Nat) : Prop :=
  (s.node m).isStable = true ∧ (s.node m).dx = 0 ∧ (s.node m).dy = 0

/-- The state `t` is `s` after visits that all reported stable: nothing outside the
position fields changed but for nodes that are now marked stable. -/
def MarksKept (s t : NodeMap α) : Prop :=
  CoreKept s t ∧ ∀ m, Marked s m → Marked t m

/-- The root `R` (node 0) of a 200 x 100 map with a child `N` (node 1) that has itself
a child `C` (node 2), which the user is dragging. -/
def draggedGrandchildMap : NodeMap α :=
  { nodes := [
      { (default : Node α) with children := [1], hasPosition := true, x := 100, y := 50 },
      { (default : Node α) with parent := some 0, children := [2], depthLevel := 1,
                                hasPosition := true, x := 150, y := 50 },
      { (default : Node α) with parent := some 1, depthLevel := 2, hasPosition := true,
                                dragging := true, x := 150, y := 90,
                                cssLeft := 150, cssTop := 90 }],
    lines := [{ startNode := 1, endNode := 0 }, { startNode := 2, endNode := 1 }],
    selectedNode := some 0, rootNode := some 0, linesCanBeShown := true,
    dragActiveOnMap := true, minimumForceThreshold := 0.05,
    mapAreaWidth := 200, mapAreaHeight := 100, canvasWidth := 200, canvasHeight := 100 }

/-- A settled family in a 1000 x 1000 map: the selected root `R` (node 0) at the centre
`(500, 500)` and its children `A` (node 1) at `(800, 500)` and `B` (node 2) at
`(200, 500)`, all positioned, marked stable and storing the force `(0, 0)`. At distance
300 the repulsion from the parent and the pull of the line nearly cancel. -/
def settledFamily : NodeMap α :=
  { nodes := [
      { (default : Node α) with children := [1, 2], hasPosition := true, isStable := true,
                                x := 500, y := 500 },
      { (default : Node α) with parent := some 0, depthLevel := 1, hasPosition := true,
                                isStable := true, x := 800, y := 500 },
      { (default : Node α) with parent := some 0, depthLevel := 1, hasPosition := true,
                                isStable := true, x := 200, y := 500 }],
    lines := [{ startNode := 1, endNode := 0 }, { startNode := 2, endNode := 0 }],
    selectedNode := some 0, rootNode := some 0, linesCanBeShown := true,
    dragActiveOnMap := false, minimumForceThreshold := 0.05,
    mapAreaWidth := 1000, mapAreaHeight := 1000, canvasWidth := 1000, canvasHeight := 1000 }

/-- The state `t` has the tree of `s`: the same number of nodes, the same root and,
at every node, the same parent, children and dragging flag. -/
def SameTree (s t : NodeMap α) : Prop :=
  t.nodes.length = s.nodes.length ∧ t.rootNode = s.rootNode ∧
  ∀ m, (t.node m).parent = (s.node m).parent ∧ (t.node m).children = (s.node m).children ∧
    (t.node m).dragging = (s.node m).dragging

/-- The animation loop of node `n` ticks `k` times in a row. -/
def ticks (M : Builtins α) (fuel n : Nat) : Nat → Runtime α → Option (Runtime α)
  | 0, rt => some rt
  | k + 1, rt => (animationLoop M fuel rt n).bind (ticks M fuel n k)

/-- The map `draggedGrandchildMap` at time 0, no timer pending. -/
def draggedRuntime : Runtime α :=
  { map := draggedGrandchildMap, timers := [], nextTimerId := 1, now := 0,
    connectorsFinalized := 0 }

/-- Successive bounding box recalculations: before each one the nodes have the
positions and sizes of the next entry of `frames`. -/
def successiveRecalculations (s : NodeMap α) : List (List (Node α)) → NodeMap α
  | [] => s
  | nodes :: frames =>
    successiveRecalculations (recalculateBoundingBox { s with nodes := nodes }) frames

/-- A map with a single node, the selected root, at `(0, 50)` in a map area of
200 x 100, with the default threshold 0.05. -/
def offCentreRoot : NodeMap α :=
  { nodes := [{ (default : Node α) with hasPosition := true, x := 0, y := 50 }],
    lines := [], selectedNode := some 0, rootNode := some 0, linesCanBeShown := true,
    dragActiveOnMap := false, minimumForceThreshold := 0.05,
    mapAreaWidth := 200, mapAreaHeight := 100, canvasWidth := 200, canvasHeight := 100 }

/-- A map with a single node, the selected root, at `(110, 50)`, close to the centre
of a map area of 200 x 100, with the default threshold 0.05. -/
def nearCentreRoot : NodeMap α :=
  { nodes := [{ (default : Node α) with hasPosition := true, x := 110, y := 50 }],
    lines := [], selectedNode := some 0, rootNode := some 0, linesCanBeShown := true,
    dragActiveOnMap := false, minimumForceThreshold := 0.05,
    mapAreaWidth := 200, mapAreaHeight := 100, canvasWidth := 200, canvasHeight := 100 }

/-- The root `R` (node 0) at the centre `(100, 50)` of a 200 x 100 map with two
children: `A` (node 1) was attached first, laid out and moved by one tick, which left
it the stored force `dx = 2929/1600` (repulsion from `R` at distance 50 minus the
pull of its line, scaled by 10); then `B` (node 2) was attached, so that both children
are to be laid out again. -/
def twoChildrenMap : NodeMap α :=
  { nodes := [
      { (default : Node α) with children := [1, 2], hasPosition := true, isStable := true,
                                x := 100, y := 50 },
      { (default : Node α) with parent := some 0, depthLevel := 1, dx := 2929 / 1600,
                                x := 100 + 50 + 2929 / 160, y := 50 },
      { (default : Node α) with parent := some 0, depthLevel := 1, x := 100, y := 50 }],
    lines := [{ startNode := 1, endNode := 0 }, { startNode := 2, endNode := 0 }],
    selectedNode := some 0, rootNode := some 0, linesCanBeShown := false,
    dragActiveOnMap := false, minimumForceThreshold := 0.05,
    mapAreaWidth := 200, mapAreaHeight := 100, canvasWidth := 200, canvasHeight := 100 }

instance (s : NodeMap α) : Decidable (WellFormed s) := by
  unfold WellFormed
  infer_instance

/-- The node `m` belongs to the subtree of `n`: `n` itself and all its descendants. -/
inductive InSubtree (s : NodeMap α) : Nat → Nat → Prop where
  | self (n : Nat) : InSubtree s n n
  | child {n c m : Nat} : c ∈ (s.node n).children → InSubtree s c m → InSubtree s n m

/-- The subtree of `n` is fully stable: every node of it has a position, is marked
stable, is not being dragged, and its current force vector thresholds to zero
(`stabilityReached` answers true). -/
def FullyStable (M : Builtins α) (s : NodeMap α) (n : Nat) : Prop :=
  ∀ m, InSubtree s n m →
    (s.node m).hasPosition = true ∧ (s.node m).isStable = true ∧
    (s.node m).dx = 0 ∧ (s.node m).dy = 0 ∧ (s.node m).dragging = false ∧
    (stabilityReached M s m).2 = true


/-! ## Notions used for the bounding box, the divisions and the depth factor -/

/-- The node's extent on one axis, `pos - size/2 .. pos + size/2`, lies partly outside
`[0, bound]`: the two tests of source lines 306-313. -/
def protrudes (bound pos size : α) : Prop :=
  pos - size / 2 < 0 ∨ pos + size / 2 > bound

instance (bound pos size : α) : Decidable (protrudes bound pos size) := by
  unfold protrudes
  infer_instance

/-- The protrusion magnitude in the words of the specification: how far the extent
`pos - size/2 .. pos + size/2` lies outside `[0, bound]` (0 when it lies inside). -/
def protrusionMagnitude (bound pos size : α) : α :=
  max (max (0 - (pos - size / 2)) (pos + size / 2 - bound)) 0

/-- The amount `Xgap` that the scan of source lines 303-314 records for the x axis. -/
def recordedXgap (s : NodeMap α) : α :=
  s.nodes.foldl (fun gap nd => gapStep s.mapAreaWidth gap nd.x nd.elementWidth) 0

/-- The amount `Ygap` that the scan of source lines 303-314 records for the y axis. -/
def recordedYgap (s : NodeMap α) : α :=
  s.nodes.foldl (fun gap nd => gapStep s.mapAreaHeight gap nd.y nd.elementHeight) 0

/-- A 200 x 100 map with one node of size 0 x 0 at `(210, 50)`: it lies 10 beyond the
right edge and inside the map vertically. -/
def offscreenMap : NodeMap α :=
  { nodes := [{ (default : Node α) with hasPosition := true, x := 210, y := 50 }],
    lines := [], selectedNode := some 0, rootNode := some 0, linesCanBeShown := true,
    dragActiveOnMap := false, minimumForceThreshold := 0.05,
    mapAreaWidth := 200, mapAreaHeight := 100, canvasWidth := 200, canvasHeight := 100 }

/-- The divisors of the divisions that `calculateSingleRepulsionForceFromNode`
evaluates (source lines 341-357), in the order of evaluation: `Math.PI / 2` when
`x === 0`, else `y / x` and `x / Math.abs (x)`; then
`NODES_REPULSIVE_FACTOR / (distance * distance * (dampFactor * dampFactor))`. Beyond
the cutoff no division is evaluated. -/
def repulsionDivisors (M : Builtins α) (self otherNode : Point α)
    (dampFactor : Option α) : List α :=
  let x := otherNode.x - self.x
  let y := otherNode.y - self.y
  let distance := M.sqrt ((x * x) + (y * y))
  if |distance| < 400 then
    let angleDivisors := if x = 0 then [2] else [x, |x|]
    let dampFactor := orOne dampFactor
    angleDivisors ++ [distance * distance * (dampFactor * dampFactor)]
  else []

/-- A node of depth level `depthLevel` (node 1) at `(500, 50)`, 400 away from its parent
(node 0) at `(100, 50)`: beyond the cutoff of the repulsion, so that the line to the
parent is the only force on it. -/
def farChildMap (depthLevel : α) : NodeMap α :=
  { nodes := [
      { (default : Node α) with children := [1], hasPosition := true, x := 100, y := 50 },
      { (default : Node α) with parent := some 0, depthLevel := depthLevel,
                                hasPosition := true, x := 500, y := 50 }],
    lines := [{ startNode := 1, endNode := 0 }],
    selectedNode := some 0, rootNode := some 0, linesCanBeShown := true,
    dragActiveOnMap := false, minimumForceThreshold := 0.05,
    mapAreaWidth := 200, mapAreaHeight := 100, canvasWidth := 200, canvasHeight := 100 }


/-! ## Notions used for the placement step -/

/-- Source lines 219-223: the body of the loop of `layChildren` for the child `c` at
index `index`. -/
def layChild (M : Builtins α) (fuel index c : Nat) (st : NodeMap α) : Option (NodeMap α) :=
  if (st.node c).hasPosition = false then
    (layNodeAroundParent M fuel c index st).bind fun st1 =>
      match (st1.node c).parent with
      | none => none
      | some p =>
        if (st1.node p).isStable = true then
          some (st1.setNode c { st1.node c with hasPosition := true })
        else some st1
  else some st

/-- The state `t` differs from `s` at most in the coordinates of nodes (`x`, `y`,
`adjustedX`, `adjustedY`, CSS `left`/`top`): also `hasPosition` is kept. -/
def LaidOnly (s t : NodeMap α) : Prop :=
  ForceKept s t ∧ ∀ m, (t.node m).hasPosition = (s.node m).hasPosition


/-- The x coordinate at which `layNodeAroundParent (index)` leaves the child `c` of `n`:
the radial point of that index around `n`, displaced by ten times the stored `dx`
(source lines 167-169 and 153-154). -/
def radialX (M : Builtins α) (s : NodeMap α) (n c index : Nat) : α :=
  (CHILD_PARENT_INIT_DISTANCE * M.cos ((index : α) *
    (M.PI * 2 / ((s.node n).children.length : α)))) + (s.node n).x + (s.node c).dx * 10

/-- The y coordinate at which `layNodeAroundParent (index)` leaves the child `c` of `n`
(source lines 167-170 and 155-156). -/
def radialY (M : Builtins α) (s : NodeMap α) (n c index : Nat) : α :=
  (CHILD_PARENT_INIT_DISTANCE * M.sin ((index : α) *
    (M.PI * 2 / ((s.node n).children.length : α)))) + (s.node n).y + (s.node c).dy * 10


/-! ## Map creation, node attachment and resize -/

/-- Source lines 484-517: `createNodeMap` with its options; the container's size stands
for a map area that is not given. No node, no line, no timer yet. -/
def createNodeMap (minimumForceThreshold width height : α) : Runtime α :=
  { map := { nodes := [], lines := [], selectedNode := none, rootNode := none,
             linesCanBeShown := false, dragActiveOnMap := false,
             minimumForceThreshold := minimumForceThreshold,
             mapAreaWidth := width, mapAreaHeight := height,
             canvasWidth := width, canvasHeight := height },
    timers := [], nextTimerId := 1, now := 0, connectorsFinalized := 0 }

/-- What the browser reports of the `<a>` element of a new node: `offsetWidth`,
`offsetHeight` and jQuery's `width()`, `height()`. -/
structure Element (α : Type) where
  offsetWidth : α
  offsetHeight : α
  width : α
  height : α

/-- Source lines 40-89: the constructor `new Node`. The new node takes the next index of
`$map.nodes` (where `addNode` stores it, line 584). A child starts at its parent's
position, is pushed to the parent's `children` and gets a line to the parent; a root is
centred, gets `hasPosition = true`, becomes `$map.rootNode` and takes its position. -/
def newNode (s : NodeMap α) (parent : Option Nat) (depthLevel : α) (el : Element α) :
    NodeMap α :=
  let k := s.nodes.length
  let nd : Node α :=
    { parent := parent, children := [], hasPosition := false, dx := 0, dy := 0,
      isStable := false, depthLevel := depthLevel, stabilityTimeout := 0,
      stopSubtreeMoving := false, elementWidth := el.offsetWidth,
      elementHeight := el.offsetHeight, x := 0, y := 0, adjustedX := 0, adjustedY := 0,
      dragging := false, cssLeft := 0, cssTop := 0, width := el.width,
      height := el.height }
  match parent with
  | some p =>
    let nd1 : Node α := { nd with x := (s.node p).x, y := (s.node p).y }
    let s1 : NodeMap α := { s with nodes := s.nodes ++ [nd1] }
    let s2 := s1.setNode p { s1.node p with children := (s1.node p).children ++ [k] }
    { s2 with lines := s2.lines ++ [{ startNode := k, endNode := p }] }
  | none =>
    let nd1 : Node α := { nd with x := s.mapAreaWidth / 2, y := s.mapAreaHeight / 2,
                                  hasPosition := true }
    let s1 : NodeMap α := { s with nodes := s.nodes ++ [nd1], rootNode := some k }
    takePosition s1 k

/-- Source lines 591-596: `setNeedsPositionRecursively`. -/
def setNeedsPositionRecursively : Nat → List Nat → NodeMap α → Option (NodeMap α)
  | 0, _, _ => none
  | fuel + 1, childrenNodes, s =>
    eachIndexed
      (fun _ c st =>
        let st1 := st.setNode c { st.node c with hasPosition := false }
        setNeedsPositionRecursively fuel (st1.node c).children st1)
      childrenNodes 0 s

/-- Source lines 578-604: `addNode`. `none` also when `$parent` is not a node of the
map. -/
def addNode (M : Builtins α) (fuel : Nat) (rt : Runtime α) (parent : Option Nat)
    (depthLevel : α) (el : Element α) : Option (Runtime α) :=
  match parent with
  | some p =>
    if p < rt.map.nodes.length then
      let s1 := newNode rt.map (some p) depthLevel el
      (setNeedsPositionRecursively fuel (s1.node p).children s1).bind fun s2 =>
        animateToStaticPosition M fuel { rt with map := s2 } p
    else none
  | none =>
    let s1 := newNode rt.map none depthLevel el
    some { rt with map := { s1 with selectedNode := some rt.map.nodes.length } }

/-- Source lines 525-537: the resize callback, the container now being `width` x
`height`. `none` when there is no root yet. -/
def resizeCallback (M : Builtins α) (fuel : Nat) (rt : Runtime α) (width height : α) :
    Option (Runtime α) :=
  let s1 : NodeMap α := { rt.map with mapAreaWidth := width, mapAreaHeight := height,
                                      canvasWidth := width, canvasHeight := height }
  match s1.rootNode with
  | none => none
  | some root =>
    let s2 := s1.setNode root { s1.node root with isStable := false }
    let s3 := s2.setNode root { s2.node root with hasPosition := false }
    animateToStaticPosition M fuel { rt with map := s3 } root

/-- The states reachable from a freshly created map through `addNode`, the resize
callback and passes of `subtreeSeekEquilibrium`. -/
inductive Reachable (M : Builtins α) : Runtime α → Prop where
  | fresh (minimumForceThreshold width height : α) :
      Reachable M (createNodeMap minimumForceThreshold width height)
  | attach {rt rt' : Runtime α} (fuel : Nat) (parent : Option Nat) (depthLevel : α)
      (el : Element α) : Reachable M rt →
      addNode M fuel rt parent depthLevel el = some rt' → Reachable M rt'
  | resize {rt rt' : Runtime α} (fuel : Nat) (width height : α) : Reachable M rt →
      resizeCallback M fuel rt width height = some rt' → Reachable M rt'
  | pass {rt : Runtime α} (fuel n : Nat) (r : NodeMap α × Bool) : Reachable M rt →
      subtreeSeekEquilibrium M fuel n rt.map = some r →
      Reachable M { rt with map := r.1 }


/-! ## A map with threshold 2: the root and one child attached -/

/-- The root `R` as `addNode` leaves it in a 200 x 100 map: centred and placed. -/
def rootAtCentre : Node α :=
  { (default : Node α) with
    hasPosition := true, x := 100, y := 50, adjustedX := 100, adjustedY := 50,
    cssLeft := 100, cssTop := 50 }

/-- The child `A` as its constructor leaves it: at the position of `R`, no position
granted. -/
def childAtParent : Node α :=
  { (default : Node α) with parent := some 0, depthLevel := 1, x := 100, y := 50 }

/-- The child `A` after `layNodeAroundParent (0)`: 50 to the right of `R`. -/
def childLaidOut : Node α :=
  { (default : Node α) with
    parent := some 0, depthLevel := 1, x := 150, y := 50, adjustedX := 150,
    adjustedY := 50, cssLeft := 150, cssTop := 50 }

/-- A map of 200 x 100 with `minimumForceThreshold = 2` and the given nodes and lines,
the root selected. -/
def thresholdTwoMap (nodes : List (Node α)) (lines : List Line) : NodeMap α :=
  { nodes := nodes, lines := lines, selectedNode := some 0, rootNode := some 0,
    linesCanBeShown := false, dragActiveOnMap := false, minimumForceThreshold := 2,
    mapAreaWidth := 200, mapAreaHeight := 100, canvasWidth := 200, canvasHeight := 100 }

/-- The state after `addNode` of the root `R` on a fresh 200 x 100 map with
`minimumForceThreshold = 2`. -/
def rootAttached : Runtime α :=
  { map := thresholdTwoMap [rootAtCentre] [],
    timers := [], nextTimerId := 1, now := 0, connectorsFinalized := 0 }

/-- The state inside `addNode` of the child `A` of `R`, when the first tick of the
animation loop of `R` begins: `A` is created and the timeout of `R` is armed. -/
def childArmed : Runtime α :=
  { map := thresholdTwoMap
      [{ (rootAtCentre : Node α) with children := [1], stabilityTimeout := 1 }, childAtParent]
      [{ startNode := 1, endNode := 0 }],
    timers := [{ id := 1, due := 4000, callback := Callback.stabilityExpired 0 }],
    nextTimerId := 2, now := 0, connectorsFinalized := 0 }

/-- The map after the placement step of that tick: `A` is laid out and, `R` being not
yet marked stable, has no position granted. -/
def childLaid : NodeMap α :=
  thresholdTwoMap
    [{ (rootAtCentre : Node α) with children := [1], stabilityTimeout := 1 }, childLaidOut]
    [{ startNode := 1, endNode := 0 }]

/-- The map after `R` asked `stabilityReached` in that tick: `R` is marked stable. -/
def rootSettled : NodeMap α :=
  thresholdTwoMap
    [{ (rootAtCentre : Node α) with children := [1], stabilityTimeout := 1,
                                     isStable := true }, childLaidOut]
    [{ startNode := 1, endNode := 0 }]

/-- The map after the pass of that tick: `A`, whose force `(2929/16000, 0)` scaled by 10
is below the threshold 2, is marked stable and still has no position. -/
def childSettled : NodeMap α :=
  thresholdTwoMap
    [{ (rootAtCentre : Node α) with children := [1], stabilityTimeout := 1,
                                     isStable := true },
     { (childLaidOut : Node α) with isStable := true }]
    [{ startNode := 1, endNode := 0 }]

/-- The state after `addNode` of the child `A`: the pass returned false and the next
tick of `R` is scheduled. -/
def childAttached : Runtime α :=
  { map := childSettled,
    timers := [{ id := 1, due := 4000, callback := Callback.stabilityExpired 0 },
               { id := 2, due := 10, callback := Callback.nextTick 0 }],
    nextTimerId := 3, now := 0, connectorsFinalized := 0 }


/-- The state `t` is `s` after steps that took no position away: nothing of
`Node.core` changed and every node that had `hasPosition = true` still has it. -/
def PositionsKept (s t : NodeMap α) : Prop :=
  CoreKept s t ∧ ∀ m, (s.node m).hasPosition = true → (t.node m).hasPosition = true

end Model

/-- The Euclidean distance between two points, over the reals. -/
noncomputable def euclid (p q : Point ℝ) : ℝ :=
  Real.sqrt ((q.x - p.x) ^ 2 + (q.y - p.y) ^ 2)

/-- The magnitude `sqrt(dx^2 + dy^2)` of a force vector, over the reals. -/
noncomputable def magnitude (f : ForceVector ℝ) : ℝ :=
  Real.sqrt (f.dx ^ 2 + f.dy ^ 2)

/-! ## Theorems -/

theorem euclid_eq (p q : Point ℝ) :
    Real.sqrt ((q.x - p.x) * (q.x - p.x) + (q.y - p.y) * (q.y - p.y)) = euclid p q := by
  unfold euclid
  congr 1
  ring

theorem magnitude_polar (f theta sgn : ℝ) (hs : sgn ^ 2 = 1) :
    magnitude ⟨f * Real.cos theta * sgn, f * Real.sin theta * sgn⟩ = |f| := by
  unfold magnitude
  have h : (f * Real.cos theta * sgn) ^ 2 + (f * Real.sin theta * sgn) ^ 2 = f ^ 2 := by
    have hcs := Real.cos_sq_add_sin_sq theta
    calc (f * Real.cos theta * sgn) ^ 2 + (f * Real.sin theta * sgn) ^ 2
        = f ^ 2 * (Real.cos theta ^ 2 + Real.sin theta ^ 2) * sgn ^ 2 := by ring
      _ = f ^ 2 := by rw [hcs, hs]; ring
  rw [h]
  exact Real.sqrt_sq_eq_abs f

theorem xsign_sq (x : ℝ) : (if x = 0 then (1 : ℝ) else x / |x|) ^ 2 = 1 := by
  split_ifs with h
  · norm_num
  · have hx : |x| ≠ 0 := abs_ne_zero.mpr h
    rw [div_pow, sq_abs]
    exact div_self (pow_ne_zero 2 h)

theorem euclid_nonneg (p q : Point ℝ) : 0 ≤ euclid p q := Real.sqrt_nonneg _

theorem euclid_pos_iff (p q : Point ℝ) : 0 < euclid p q ↔ ¬ (q.x = p.x ∧ q.y = p.y) := by
  unfold euclid
  rw [Real.sqrt_pos]
  constructor
  · rintro h ⟨hx, hy⟩
    rw [hx, hy] at h
    simp at h
  · intro h
    by_contra hne
    have h0 : (q.x - p.x) ^ 2 + (q.y - p.y) ^ 2 = 0 :=
      le_antisymm (not_lt.mp hne) (by positivity)
    have hx : (q.x - p.x) ^ 2 = 0 := by nlinarith [sq_nonneg (q.x - p.x), sq_nonneg (q.y - p.y)]
    have hy : (q.y - p.y) ^ 2 = 0 := by nlinarith [sq_nonneg (q.x - p.x), sq_nonneg (q.y - p.y)]
    exact h ⟨by nlinarith [pow_eq_zero_iff (two_ne_zero) |>.mp hx],
      by nlinarith [pow_eq_zero_iff (two_ne_zero) |>.mp hy]⟩

theorem repulsion_real (self other : Point ℝ) (dampFactor : Option ℝ) :
    calculateSingleRepulsionForceFromNode realBuiltins self other dampFactor =
      if euclid self other < 400 then
        { dx := -(460 / (euclid self other * euclid self other *
                  (orOne dampFactor * orOne dampFactor))) *
                Real.cos (if other.x - self.x = 0 then Real.pi / 2
                  else Real.arctan ((other.y - self.y) / (other.x - self.x))) *
                (if other.x - self.x = 0 then 1 else (other.x - self.x) / |other.x - self.x|),
          dy := -(460 / (euclid self other * euclid self other *
                  (orOne dampFactor * orOne dampFactor))) *
                Real.sin (if other.x - self.x = 0 then Real.pi / 2
                  else Real.arctan ((other.y - self.y) / (other.x - self.x))) *
                (if other.x - self.x = 0 then 1 else (other.x - self.x) / |other.x - self.x|) }
      else { dx := 0, dy := 0 } := by
  simp only [calculateSingleRepulsionForceFromNode, realBuiltins, euclid_eq,
    abs_of_nonneg (euclid_nonneg self other), NODES_REPULSIVE_FACTOR]

theorem attraction_real (self other : Point ℝ) (ampFactor : Option ℝ) :
    calculateSingleAttractiveForceTowardsNode realBuiltins self other ampFactor =
      if 0 < euclid self other then
        { dx := (15 * euclid self other * 0.01 * orOne ampFactor) / 8000 *
                Real.cos (if other.x - self.x = 0 then Real.pi / 2
                  else Real.arctan ((other.y - self.y) / (other.x - self.x))) *
                (if other.x - self.x = 0 then 1 else (other.x - self.x) / |other.x - self.x|),
          dy := (15 * euclid self other * 0.01 * orOne ampFactor) / 8000 *
                Real.sin (if other.x - self.x = 0 then Real.pi / 2
                  else Real.arctan ((other.y - self.y) / (other.x - self.x))) *
                (if other.x - self.x = 0 then 1 else (other.x - self.x) / |other.x - self.x|) }
      else { dx := 0, dy := 0 } := by
  simp only [calculateSingleAttractiveForceTowardsNode, realBuiltins, euclid_eq,
    abs_of_nonneg (euclid_nonneg self other), LINES_RESTORING_FACTOR, gt_iff_lt]

theorem orOne_ne_zero (factor : Option ℝ) : orOne factor ≠ 0 := by
  unfold orOne
  cases factor with
  | none => simp
  | some v => by_cases h : v = 0 <;> simp [h]

theorem euclid_of_sq (p q : Point ℝ) (r : ℝ) (hr : 0 ≤ r)
    (h : (q.x - p.x) ^ 2 + (q.y - p.y) ^ 2 = r ^ 2) : euclid p q = r := by
  unfold euclid
  rw [h]
  exact Real.sqrt_sq hr

theorem euclid_self (p : Point ℝ) : euclid p p = 0 := by
  unfold euclid
  simp

/-! ### Force model: magnitudes (C7, C8) -/

/-- C7. The repulsion vector of `calculateSingleRepulsionForceFromNode` is exactly
`(0, 0)` when the two points are 400 or more apart (whatever the damp factor), and
for a distance `r` with `0 < r < 400` its magnitude is `460 / (r^2 * d^2)`, for a
given damp factor `d` (non-zero, as the formula needs) and with `d = 1` when no
damp factor is given. -/
theorem repulsion_cutoff_and_magnitude (self other : Point ℝ) :
    (∀ dampFactor : Option ℝ, 400 ≤ euclid self other →
      calculateSingleRepulsionForceFromNode realBuiltins self other dampFactor = ⟨0, 0⟩) ∧
    (∀ d : ℝ, d ≠ 0 → 0 < euclid self other → euclid self other < 400 →
      magnitude (calculateSingleRepulsionForceFromNode realBuiltins self other (some d)) =
        460 / (euclid self other ^ 2 * d ^ 2)) ∧
    (0 < euclid self other → euclid self other < 400 →
      magnitude (calculateSingleRepulsionForceFromNode realBuiltins self other none) =
        460 / (euclid self other ^ 2 * 1 ^ 2)) := by
  have key : ∀ dampFactor : Option ℝ, 0 < euclid self other → euclid self other < 400 →
      magnitude (calculateSingleRepulsionForceFromNode realBuiltins self other dampFactor) =
        460 / (euclid self other ^ 2 * orOne dampFactor ^ 2) := by
    intro dampFactor hpos hlt
    rw [repulsion_real, if_pos hlt, magnitude_polar _ _ _ (xsign_sq _), abs_neg]
    have hd := orOne_ne_zero dampFactor
    have hd2 : 0 < orOne dampFactor * orOne dampFactor := mul_self_pos.mpr hd
    have hden : 0 < euclid self other * euclid self other *
        (orOne dampFactor * orOne dampFactor) := mul_pos (mul_pos hpos hpos) hd2
    rw [abs_of_pos (div_pos (by norm_num) hden)]
    congr 1
    ring
  refine ⟨?_, ?_, ?_⟩
  · intro dampFactor hge
    rw [repulsion_real, if_neg (not_lt.mpr hge)]
  · intro d hd hpos hlt
    have h := key (some d) hpos hlt
    simpa [orOne, hd] using h
  · intro hpos hlt
    have h := key none hpos hlt
    simpa [orOne] using h

/-- C7, at concrete points: two points 3 apart repel with magnitude `460 / (3^2 * 2^2)`
under damp factor 2 and `460 / 3^2` without one; at distance 400 the force is `(0, 0)`. -/
theorem repulsion_cutoff_and_magnitude_witness :
    calculateSingleRepulsionForceFromNode realBuiltins ⟨0, 0⟩ ⟨400, 0⟩ none = ⟨0, 0⟩ ∧
    magnitude (calculateSingleRepulsionForceFromNode realBuiltins ⟨0, 0⟩ ⟨3, 0⟩ (some 2)) =
      460 / (3 ^ 2 * 2 ^ 2) ∧
    magnitude (calculateSingleRepulsionForceFromNode realBuiltins ⟨0, 0⟩ ⟨3, 0⟩ none) =
      460 / (3 ^ 2 * 1 ^ 2) := by
  have e400 : euclid ⟨0, 0⟩ ⟨400, 0⟩ = 400 := euclid_of_sq _ _ 400 (by norm_num) (by norm_num)
  have e3 : euclid ⟨0, 0⟩ ⟨3, 0⟩ = 3 := euclid_of_sq _ _ 3 (by norm_num) (by norm_num)
  refine ⟨?_, ?_, ?_⟩
  · exact (repulsion_cutoff_and_magnitude ⟨0, 0⟩ ⟨400, 0⟩).1 none (by rw [e400])
  · have h := (repulsion_cutoff_and_magnitude ⟨0, 0⟩ ⟨3, 0⟩).2.1 2 (by norm_num)
      (by rw [e3]; norm_num) (by rw [e3]; norm_num)
    rw [e3] at h
    exact h
  · have h := (repulsion_cutoff_and_magnitude ⟨0, 0⟩ ⟨3, 0⟩).2.2
      (by rw [e3]; norm_num) (by rw [e3]; norm_num)
    rw [e3] at h
    exact h

theorem attraction_abs_formula (self other : Point ℝ) (ampFactor : Option ℝ) :
    magnitude (calculateSingleAttractiveForceTowardsNode realBuiltins self other ampFactor) =
      (15 * euclid self other * 0.01 * |orOne ampFactor|) / 8000 := by
  rw [attraction_real]
  by_cases hpos : 0 < euclid self other
  · rw [if_pos hpos, magnitude_polar _ _ _ (xsign_sq _), abs_div, abs_mul, abs_mul, abs_mul,
      abs_of_pos hpos]
    rw [abs_of_pos (by norm_num : (0 : ℝ) < 0.01)]
    norm_num
  · rw [if_neg hpos]
    have h0 : euclid self other = 0 := le_antisymm (not_lt.mp hpos) (euclid_nonneg _ _)
    rw [h0]
    simp [magnitude]

/-- C8, as stated, fails for a negative amplification factor: with `a = -1` and two
points 3 apart the attraction vector has magnitude `(15 * 3 * 0.01) / 8000`, which is
positive, while the claimed value `(15 * 3 * 0.01 * (-1)) / 8000` is negative. -/
theorem attraction_magnitude_negative_amp :
    euclid ⟨0, 0⟩ ⟨3, 0⟩ = 3 ∧ (-1 : ℝ) ≠ 0 ∧
    magnitude (calculateSingleAttractiveForceTowardsNode realBuiltins ⟨0, 0⟩ ⟨3, 0⟩ (some (-1))) ≠
      (15 * 3 * 0.01 * (-1)) / 8000 := by
  have e3 : euclid ⟨0, 0⟩ ⟨3, 0⟩ = 3 := euclid_of_sq _ _ 3 (by norm_num) (by norm_num)
  refine ⟨e3, by norm_num, ?_⟩
  rw [attraction_abs_formula, e3]
  norm_num [orOne]

/-- C8, amended. For every pair of points at distance `r` the attraction vector of
`calculateSingleAttractiveForceTowardsNode` has magnitude `(15 * r * 0.01 * |a|) / 8000`
for a given non-zero amplification factor `a` (so the claimed value whenever `a > 0`)
and `(15 * r * 0.01 * 1) / 8000` when none is given; the vector is exactly `(0, 0)`
when the two points coincide. -/
theorem attraction_magnitude (self other : Point ℝ) :
    (∀ a : ℝ, a ≠ 0 →
      magnitude (calculateSingleAttractiveForceTowardsNode realBuiltins self other (some a)) =
        (15 * euclid self other * 0.01 * |a|) / 8000) ∧
    (∀ a : ℝ, 0 < a →
      magnitude (calculateSingleAttractiveForceTowardsNode realBuiltins self other (some a)) =
        (15 * euclid self other * 0.01 * a) / 8000) ∧
    magnitude (calculateSingleAttractiveForceTowardsNode realBuiltins self other none) =
        (15 * euclid self other * 0.01 * 1) / 8000 ∧
    (∀ ampFactor : Option ℝ,
      calculateSingleAttractiveForceTowardsNode realBuiltins self self ampFactor = ⟨0, 0⟩) := by
  refine ⟨?_, ?_, ?_, ?_⟩
  · intro a ha
    simpa [orOne, ha] using attraction_abs_formula self other (some a)
  · intro a ha
    simpa [orOne, ha.ne', abs_of_pos ha] using attraction_abs_formula self other (some a)
  · simpa [orOne] using attraction_abs_formula self other none
  · intro ampFactor
    rw [attraction_real, euclid_self, if_neg (lt_irrefl 0)]

/-- C8 amended, at concrete points: towards a point 3 away the attraction has magnitude
`(15 * 3 * 0.01 * 10) / 8000` under amplification 10 and also under amplification -10. -/
theorem attraction_magnitude_witness :
    magnitude (calculateSingleAttractiveForceTowardsNode realBuiltins ⟨0, 0⟩ ⟨3, 0⟩ (some 10)) =
      (15 * 3 * 0.01 * 10) / 8000 ∧
    magnitude (calculateSingleAttractiveForceTowardsNode realBuiltins ⟨0, 0⟩ ⟨3, 0⟩ (some (-10))) =
      (15 * 3 * 0.01 * |(-10 : ℝ)|) / 8000 := by
  have e3 : euclid ⟨0, 0⟩ ⟨3, 0⟩ = 3 := euclid_of_sq _ _ 3 (by norm_num) (by norm_num)
  constructor
  · have h := (attraction_magnitude ⟨0, 0⟩ ⟨3, 0⟩).2.1 10 (by norm_num)
    rw [e3] at h
    exact h
  · have h := (attraction_magnitude ⟨0, 0⟩ ⟨3, 0⟩).1 (-10) (by norm_num)
    rw [e3] at h
    exact h

/-! ### Force model: directions (C9, C10) -/

theorem polar_of_ne_zero (x y : ℝ) (hx : x ≠ 0) :
    Real.cos (Real.arctan (y / x)) * (x / |x|) = x / Real.sqrt (x ^ 2 + y ^ 2) ∧
    Real.sin (Real.arctan (y / x)) * (x / |x|) = y / Real.sqrt (x ^ 2 + y ^ 2) := by
  have habs : 0 < |x| := abs_pos.mpr hx
  have hsum : 0 < x ^ 2 + y ^ 2 := by positivity
  have hr : 0 < Real.sqrt (x ^ 2 + y ^ 2) := Real.sqrt_pos.mpr hsum
  have hsq : Real.sqrt (1 + (y / x) ^ 2) = Real.sqrt (x ^ 2 + y ^ 2) / |x| := by
    have h1 : 1 + (y / x) ^ 2 = (x ^ 2 + y ^ 2) / x ^ 2 := by
      field_simp
    rw [h1, Real.sqrt_div (le_of_lt hsum), Real.sqrt_sq_eq_abs]
  have hxx : |x| * |x| = x * x := abs_mul_abs_self x
  constructor
  · rw [Real.cos_arctan, hsq]
    field_simp
    nlinarith [hxx]
  · rw [Real.sin_arctan, hsq]
    field_simp
    nlinarith [hxx]

/-- Away from the missed case (same x coordinate and the other point at the smaller y)
the repulsion vector is a positive multiple of the direction away from the other point. -/
theorem repulsion_direction (self other : Point ℝ) (dampFactor : Option ℝ)
    (hcase : other.x ≠ self.x ∨ self.y < other.y) (hlt : euclid self other < 400) :
    ∃ f : ℝ, 0 < f ∧
      calculateSingleRepulsionForceFromNode realBuiltins self other dampFactor =
        ⟨-f * (other.x - self.x) / euclid self other,
         -f * (other.y - self.y) / euclid self other⟩ := by
  have hpos : 0 < euclid self other := by
    rw [euclid_pos_iff]
    rintro ⟨hx, hy⟩
    rcases hcase with h | h
    · exact h hx
    · rw [hy] at h; exact lt_irrefl _ h
  have hd := orOne_ne_zero dampFactor
  have hf : 0 < 460 / (euclid self other * euclid self other *
      (orOne dampFactor * orOne dampFactor)) :=
    div_pos (by norm_num) (mul_pos (mul_pos hpos hpos) (mul_self_pos.mpr hd))
  refine ⟨_, hf, ?_⟩
  rw [repulsion_real, if_pos hlt]
  by_cases hx : other.x - self.x = 0
  · have hy : self.y < other.y := by
      rcases hcase with h | h
      · exact absurd (sub_eq_zero.mp hx) h
      · exact h
    have he : euclid self other = other.y - self.y :=
      euclid_of_sq _ _ _ (by linarith) (by rw [hx]; ring)
    simp only [hx, if_true, Real.cos_pi_div_two, Real.sin_pi_div_two, he]
    have hne : other.y - self.y ≠ 0 := by linarith
    congr 1
    · simp
    · field_simp
      ring
  · obtain ⟨hc, hs⟩ := polar_of_ne_zero (other.x - self.x) (other.y - self.y) hx
    simp only [hx, if_false, euclid]
    congr 1
    · rw [mul_assoc, hc]; ring
    · rw [mul_assoc, hs]; ring

/-- Away from the missed case (same x coordinate and the other point at the smaller y)
and for an amplification factor that is not negative, the attraction vector between two
distinct points is a positive multiple of the direction towards the other point. -/
theorem attraction_direction (self other : Point ℝ) (ampFactor : Option ℝ)
    (hcase : other.x ≠ self.x ∨ self.y < other.y) (hamp : 0 < orOne ampFactor) :
    ∃ f : ℝ, 0 < f ∧
      calculateSingleAttractiveForceTowardsNode realBuiltins self other ampFactor =
        ⟨f * (other.x - self.x) / euclid self other,
         f * (other.y - self.y) / euclid self other⟩ := by
  have hpos : 0 < euclid self other := by
    rw [euclid_pos_iff]
    rintro ⟨hx, hy⟩
    rcases hcase with h | h
    · exact h hx
    · rw [hy] at h; exact lt_irrefl _ h
  have hf : 0 < (15 * euclid self other * 0.01 * orOne ampFactor) / 8000 := by
    have h1 : (0 : ℝ) < 0.01 := by norm_num
    positivity
  refine ⟨_, hf, ?_⟩
  rw [attraction_real, if_pos hpos]
  by_cases hx : other.x - self.x = 0
  · have hy : self.y < other.y := by
      rcases hcase with h | h
      · exact absurd (sub_eq_zero.mp hx) h
      · exact h
    have he : euclid self other = other.y - self.y :=
      euclid_of_sq _ _ _ (by linarith) (by rw [hx]; ring)
    simp only [hx, if_true, Real.cos_pi_div_two, Real.sin_pi_div_two, he]
    have hne : other.y - self.y ≠ 0 := by linarith
    congr 1
    · simp
    · field_simp
      ring
  · obtain ⟨hc, hs⟩ := polar_of_ne_zero (other.x - self.x) (other.y - self.y) hx
    simp only [hx, if_false, euclid]
    congr 1
    · rw [mul_assoc, hc]; ring
    · rw [mul_assoc, hs]; ring

/-- C9, evaluated where it fails. Subject at `(0, 0)`, other point at `(0, -3)` (same
x coordinate, other point at the smaller y): the repulsion vector is `(0, -460/9)`,
which points from the subject towards the other point, so it is no positive multiple
`-f * (other - subject) / distance`, `f > 0`, of the direction away from it. -/
theorem repulsion_same_x_points_towards_other :
    euclid ⟨0, 0⟩ ⟨0, -3⟩ = 3 ∧
    calculateSingleRepulsionForceFromNode realBuiltins ⟨0, 0⟩ ⟨0, -3⟩ none = ⟨0, -(460 / 9)⟩ ∧
    ¬ ∃ f : ℝ, 0 < f ∧
      calculateSingleRepulsionForceFromNode realBuiltins ⟨0, 0⟩ ⟨0, -3⟩ none =
        ⟨-f * (0 - 0) / euclid ⟨0, 0⟩ ⟨0, -3⟩, -f * (-3 - 0) / euclid ⟨0, 0⟩ ⟨0, -3⟩⟩ := by
  have e3 : euclid ⟨0, 0⟩ ⟨0, -3⟩ = 3 := euclid_of_sq _ _ 3 (by norm_num) (by norm_num)
  have hval : calculateSingleRepulsionForceFromNode realBuiltins ⟨0, 0⟩ ⟨0, -3⟩ none =
      ⟨0, -(460 / 9)⟩ := by
    rw [repulsion_real, e3]
    norm_num [orOne]
  refine ⟨e3, hval, ?_⟩
  rintro ⟨f, hf, h⟩
  rw [hval, e3] at h
  have hdy := congrArg ForceVector.dy h
  simp only at hdy
  linarith

/-- C10, evaluated where it fails. Subject at `(0, 0)`, other point at `(0, -3)` (same
x coordinate, other point at the smaller y): the attraction vector is
`(0, (15 * 3 * 0.01 * 1) / 8000)`, which points from the subject away from the other
point, so it is no positive multiple `f * (other - subject) / distance`, `f > 0`, of
the direction towards it. -/
theorem attraction_same_x_points_away_from_other :
    euclid ⟨0, 0⟩ ⟨0, -3⟩ = 3 ∧
    calculateSingleAttractiveForceTowardsNode realBuiltins ⟨0, 0⟩ ⟨0, -3⟩ none =
      ⟨0, (15 * 3 * 0.01 * 1) / 8000⟩ ∧
    ¬ ∃ f : ℝ, 0 < f ∧
      calculateSingleAttractiveForceTowardsNode realBuiltins ⟨0, 0⟩ ⟨0, -3⟩ none =
        ⟨f * (0 - 0) / euclid ⟨0, 0⟩ ⟨0, -3⟩, f * (-3 - 0) / euclid ⟨0, 0⟩ ⟨0, -3⟩⟩ := by
  have e3 : euclid ⟨0, 0⟩ ⟨0, -3⟩ = 3 := euclid_of_sq _ _ 3 (by norm_num) (by norm_num)
  have hval : calculateSingleAttractiveForceTowardsNode realBuiltins ⟨0, 0⟩ ⟨0, -3⟩ none =
      ⟨0, (15 * 3 * 0.01 * 1) / 8000⟩ := by
    rw [attraction_real, e3]
    norm_num [orOne]
  refine ⟨e3, hval, ?_⟩
  rintro ⟨f, hf, h⟩
  rw [hval, e3] at h
  have hdy := congrArg ForceVector.dy h
  simp only at hdy
  norm_num at hdy
  linarith

/-! ### Node references -/

section Frame

variable {α : Type} [LinearOrderedField α]

theorem node_setNode_self (s : NodeMap α) (n : Nat) (nd : Node α) (h : n < s.nodes.length) :
    (s.setNode n nd).node n = nd := by
  simp [NodeMap.node, NodeMap.setNode, h]

theorem node_setNode_ne (s : NodeMap α) (n m : Nat) (nd : Node α) (h : m ≠ n) :
    (s.setNode n nd).node m = s.node m := by
  simp [NodeMap.node, NodeMap.setNode, List.getElem?_set_ne (Ne.symm h)]

theorem node_of_length_le (s : NodeMap α) (n : Nat) (h : s.nodes.length ≤ n) :
    s.node n = default := by
  simp [NodeMap.node, List.getElem?_eq_none h]

theorem setNode_of_length_le (s : NodeMap α) (n : Nat) (nd : Node α)
    (h : s.nodes.length ≤ n) : s.setNode n nd = s := by
  simp [NodeMap.setNode, List.set_eq_of_length_le h]

theorem list_set_getD_self {β : Type} (d : β) :
    ∀ (l : List β) (n : Nat), l.set n (l.getD n d) = l
  | [], _ => by simp
  | _ :: _, 0 => by simp
  | b :: l, n + 1 => by
    have ih := list_set_getD_self d l n
    simp only [List.getD_eq_getElem?_getD] at ih
    simp [ih]

theorem setNode_node_self (s : NodeMap α) (n : Nat) : s.setNode n (s.node n) = s := by
  by_cases h : n < s.nodes.length
  · have : s.nodes.set n (s.node n) = s.nodes := list_set_getD_self default s.nodes n
    simp [NodeMap.setNode, this]
  · exact setNode_of_length_le s n _ (not_lt.mp h)

theorem node_zero_force_self (nd : Node α) (hx : nd.dx = 0) (hy : nd.dy = 0) :
    ({ nd with dx := 0, dy := 0 } : Node α) = nd := by
  cases nd
  simp_all

theorem node_stable_self (nd : Node α) (h : nd.isStable = true) :
    ({ nd with isStable := true } : Node α) = nd := by
  cases nd
  simp_all

theorem length_setNode (s : NodeMap α) (n : Nat) (nd : Node α) :
    (s.setNode n nd).nodes.length = s.nodes.length := by
  simp [NodeMap.setNode]

/-- A projection of the node that the new object shares with the old one is kept
at every reference. -/
theorem proj_setNode {β : Type} (π : Node α → β) (s : NodeMap α) (n : Nat) (nd : Node α)
    (h : π nd = π (s.node n)) (m : Nat) : π ((s.setNode n nd).node m) = π (s.node m) := by
  by_cases hm : m = n
  · subst hm
    by_cases hl : m < s.nodes.length
    · rw [node_setNode_self s m nd hl, h]
    · rw [setNode_of_length_le s m nd (not_lt.mp hl)]
  · rw [node_setNode_ne s n m nd hm]

theorem CoreKept.ck_refl (s : NodeMap α) : CoreKept s s :=
  ⟨rfl, rfl, fun _ => rfl⟩

theorem CoreKept.ck_trans {s t u : NodeMap α} (h1 : CoreKept s t) (h2 : CoreKept t u) :
    CoreKept s u :=
  ⟨h2.globals.trans h1.globals, h2.length.trans h1.length,
    fun m => (h2.core m).trans (h1.core m)⟩

theorem ForceKept.fk_refl (s : NodeMap α) : ForceKept s s :=
  ⟨CoreKept.ck_refl s, fun _ => rfl⟩

theorem ForceKept.fk_trans {s t u : NodeMap α} (h1 : ForceKept s t) (h2 : ForceKept t u) :
    ForceKept s u :=
  ⟨h1.coreKept.ck_trans h2.coreKept, fun m => (h2.force m).trans (h1.force m)⟩

theorem coreKept_setNode (s : NodeMap α) (n : Nat) (nd : Node α)
    (h : nd.core = (s.node n).core) : CoreKept s (s.setNode n nd) :=
  ⟨rfl, length_setNode s n nd, proj_setNode Node.core s n nd h⟩

theorem forceKept_setNode (s : NodeMap α) (n : Nat) (nd : Node α)
    (h : nd.core = (s.node n).core) (hf : nd.forceState = (s.node n).forceState) :
    ForceKept s (s.setNode n nd) :=
  ⟨coreKept_setNode s n nd h, proj_setNode Node.forceState s n nd hf⟩

theorem CoreKept.parent {s t : NodeMap α} (h : CoreKept s t) (m : Nat) :
    (t.node m).parent = (s.node m).parent :=
  congrArg (fun c => c.1) (h.core m)

theorem CoreKept.children {s t : NodeMap α} (h : CoreKept s t) (m : Nat) :
    (t.node m).children = (s.node m).children :=
  congrArg (fun c => c.2.1) (h.core m)

theorem CoreKept.dragging {s t : NodeMap α} (h : CoreKept s t) (m : Nat) :
    (t.node m).dragging = (s.node m).dragging :=
  congrArg (fun c => c.2.2.1) (h.core m)

theorem CoreKept.stopSubtreeMoving {s t : NodeMap α} (h : CoreKept s t) (m : Nat) :
    (t.node m).stopSubtreeMoving = (s.node m).stopSubtreeMoving :=
  congrArg (fun c => c.2.2.2.1) (h.core m)

theorem CoreKept.mapAreaWidth {s t : NodeMap α} (h : CoreKept s t) :
    t.mapAreaWidth = s.mapAreaWidth :=
  have h1 := congrArg NodeMap.mapAreaWidth h.globals
  h1

theorem CoreKept.mapAreaHeight {s t : NodeMap α} (h : CoreKept s t) :
    t.mapAreaHeight = s.mapAreaHeight :=
  have h1 := congrArg NodeMap.mapAreaHeight h.globals
  h1

theorem CoreKept.dragActiveOnMap {s t : NodeMap α} (h : CoreKept s t) :
    t.dragActiveOnMap = s.dragActiveOnMap :=
  have h1 := congrArg NodeMap.dragActiveOnMap h.globals
  h1

theorem CoreKept.wellFormed {s t : NodeMap α} (h : CoreKept s t) (hwf : WellFormed s) :
    WellFormed t := by
  intro m hm c hc
  rw [h.length] at hm ⊢
  rw [h.children m] at hc
  rw [h.parent c]
  exact hwf m hm c hc

theorem CoreKept.inSubtree {s t : NodeMap α} (h : CoreKept s t) {n m : Nat}
    (hs : InSubtree s n m) : InSubtree t n m := by
  induction hs with
  | self n => exact InSubtree.self n
  | child hc _ ih => exact InSubtree.child (by rw [h.children]; exact hc) ih

theorem CoreKept.symm_inSubtree {s t : NodeMap α} (h : CoreKept s t) {n m : Nat}
    (hs : InSubtree t n m) : InSubtree s n m := by
  induction hs with
  | self n => exact InSubtree.self n
  | child hc _ ih => exact InSubtree.child (by rw [← h.children]; exact hc) ih

end Frame

/-! ### Bounding box growth (C6) -/

section BoundingBox

variable {α : Type} [LinearOrderedField α]

theorem gapStep_nonneg (bound gap pos size : α) (h : 0 ≤ gap) :
    0 ≤ gapStep bound gap pos size := by
  unfold gapStep
  split_ifs
  · exact abs_nonneg pos
  · exact abs_nonneg pos
  · exact h

theorem foldl_gapStep_nonneg (bound : α) (px sz : Node α → α) :
    ∀ (nodes : List (Node α)) (gap : α), 0 ≤ gap →
      0 ≤ nodes.foldl (fun gap nd => gapStep bound gap (px nd) (sz nd)) gap
  | [], gap, h => h
  | nd :: nodes, gap, h => by
    simp only [List.foldl_cons]
    exact foldl_gapStep_nonneg bound px sz nodes _ (gapStep_nonneg bound gap _ _ h)

theorem recalculateBoundingBox_grows (s : NodeMap α) :
    s.mapAreaWidth ≤ (recalculateBoundingBox s).mapAreaWidth ∧
    s.mapAreaHeight ≤ (recalculateBoundingBox s).mapAreaHeight := by
  have hx := foldl_gapStep_nonneg s.mapAreaWidth (fun nd => nd.x) (fun nd => nd.elementWidth)
    s.nodes 0 le_rfl
  have hy := foldl_gapStep_nonneg s.mapAreaHeight (fun nd => nd.y) (fun nd => nd.elementHeight)
    s.nodes 0 le_rfl
  unfold recalculateBoundingBox
  simp only
  split_ifs
  · exact ⟨le_add_of_nonneg_right hx, le_add_of_nonneg_right hy⟩
  · exact ⟨le_rfl, le_rfl⟩

theorem successiveRecalculations_grows :
    ∀ (frames : List (List (Node α))) (s : NodeMap α),
      s.mapAreaWidth ≤ (successiveRecalculations s frames).mapAreaWidth ∧
      s.mapAreaHeight ≤ (successiveRecalculations s frames).mapAreaHeight
  | [], s => ⟨le_rfl, le_rfl⟩
  | nodes :: frames, s => by
    have h1 := recalculateBoundingBox_grows { s with nodes := nodes }
    have h2 := successiveRecalculations_grows frames
      (recalculateBoundingBox { s with nodes := nodes })
    exact ⟨le_trans h1.1 h2.1, le_trans h1.2 h2.2⟩

/-- C6. Monotonic growth: for every map state, whatever the positions and sizes of its
nodes, the bounding box recalculation of a tick leaves `mapArea.width` and
`mapArea.height` greater than or equal to their values before; and over any sequence
of recalculations, the nodes taking arbitrary positions and sizes before each one, the
width and the height never fall below their initial values. -/
theorem boundingBox_monotonic_growth (s : NodeMap α) (frames : List (List (Node α))) :
    (s.mapAreaWidth ≤ (recalculateBoundingBox s).mapAreaWidth ∧
      s.mapAreaHeight ≤ (recalculateBoundingBox s).mapAreaHeight) ∧
    (s.mapAreaWidth ≤ (successiveRecalculations s frames).mapAreaWidth ∧
      s.mapAreaHeight ≤ (successiveRecalculations s frames).mapAreaHeight) :=
  ⟨recalculateBoundingBox_grows s, successiveRecalculations_grows frames s⟩

end BoundingBox

/-! ### Stability of a node (C2) -/

section Stability

variable {α : Type} [LinearOrderedField α]

theorem stabilityReached_of_scaled_below (M : Builtins α) (s : NodeMap α) (n : Nat)
    (hx : |(calculateForceVector M s n).dx * 10| < s.minimumForceThreshold)
    (hy : |(calculateForceVector M s n).dy * 10| < s.minimumForceThreshold) :
    stabilityReached M s n = (s.setNode n { s.node n with dx := 0, dy := 0 }, true) := by
  simp [stabilityReached, hx, hy]

/-- C2, amended. For every node of the map and every threshold: if both components
of the force vector returned by `calculateForceVector`, scaled by 10 as
`stabilityReached` stores them, have absolute value below `minimumForceThreshold`,
then `stabilityReached` returns true and leaves the stored force vector at
`(dx, dy) = (0, 0)`. -/
theorem stabilityReached_below_threshold (M : Builtins α) (s : NodeMap α) (n : Nat)
    (hn : n < s.nodes.length)
    (hx : |(calculateForceVector M s n).dx * 10| < s.minimumForceThreshold)
    (hy : |(calculateForceVector M s n).dy * 10| < s.minimumForceThreshold) :
    (stabilityReached M s n).2 = true ∧
    ((stabilityReached M s n).1.node n).dx = 0 ∧
    ((stabilityReached M s n).1.node n).dy = 0 := by
  rw [stabilityReached_of_scaled_below M s n hx hy]
  simp [node_setNode_self s n _ hn]

end Stability

theorem calculateForceVector_offCentreRoot :
    calculateForceVector realBuiltins (offCentreRoot : NodeMap ℝ) 0 = ⟨3 / 160, 0⟩ := by
  have e : euclid ⟨0, 50⟩ ⟨200 / 2, 100 / 2⟩ = 100 :=
    euclid_of_sq _ _ 100 (by norm_num) (by norm_num)
  simp only [calculateForceVector, attractionPart, repulsionPart, offCentreRoot, NodeMap.node,
    List.getD_cons_zero, List.foldl_nil, if_true, Node.point, attraction_real, e,
    ForceVector.add]
  norm_num [orOne]

/-- C2, as stated, fails: for the selected root at `(0, 50)` of a 200 x 100 map with
threshold 0.05 the force vector is `(3/160, 0)`, both components below the threshold,
yet `stabilityReached` returns false and stores `dx = 3/16`, because it compares the
components scaled by 10. -/
theorem stabilityReached_unscaled_below_threshold :
    (0 : ℝ) < (offCentreRoot : NodeMap ℝ).minimumForceThreshold ∧
    |(calculateForceVector realBuiltins (offCentreRoot : NodeMap ℝ) 0).dx| <
      (offCentreRoot : NodeMap ℝ).minimumForceThreshold ∧
    |(calculateForceVector realBuiltins (offCentreRoot : NodeMap ℝ) 0).dy| <
      (offCentreRoot : NodeMap ℝ).minimumForceThreshold ∧
    (stabilityReached realBuiltins (offCentreRoot : NodeMap ℝ) 0).2 = false ∧
    ((stabilityReached realBuiltins (offCentreRoot : NodeMap ℝ) 0).1.node 0).dx = 3 / 16 := by
  have hthr : (offCentreRoot : NodeMap ℝ).minimumForceThreshold = 0.05 := rfl
  have hlen : 0 < (offCentreRoot : NodeMap ℝ).nodes.length := by simp [offCentreRoot]
  refine ⟨by rw [hthr]; norm_num, ?_, ?_, ?_, ?_⟩
  · rw [calculateForceVector_offCentreRoot, hthr]
    norm_num [abs_of_pos]
  · rw [calculateForceVector_offCentreRoot, hthr]
    norm_num
  · simp only [stabilityReached, calculateForceVector_offCentreRoot, hthr]
    norm_num [abs_of_pos]
  · simp only [stabilityReached, calculateForceVector_offCentreRoot, hthr]
    norm_num [abs_of_pos, node_setNode_self _ _ _ hlen]

theorem calculateForceVector_nearCentreRoot :
    calculateForceVector realBuiltins (nearCentreRoot : NodeMap ℝ) 0 = ⟨-(3 / 1600), 0⟩ := by
  have e : euclid ⟨110, 50⟩ ⟨200 / 2, 100 / 2⟩ = 10 :=
    euclid_of_sq _ _ 10 (by norm_num) (by norm_num)
  simp only [calculateForceVector, attractionPart, repulsionPart, nearCentreRoot, NodeMap.node,
    List.getD_cons_zero, List.foldl_nil, if_true, Node.point, attraction_real, e,
    ForceVector.add]
  norm_num [orOne]

/-- C2 amended, at a concrete node: the selected root at `(110, 50)` of a 200 x 100 map
is pulled by `(-3/1600, 0)`; scaled by 10 this is below the threshold 0.05, and
`stabilityReached` returns true and stores `(0, 0)`. -/
theorem stabilityReached_below_threshold_witness :
    (stabilityReached realBuiltins (nearCentreRoot : NodeMap ℝ) 0).2 = true ∧
    ((stabilityReached realBuiltins (nearCentreRoot : NodeMap ℝ) 0).1.node 0).dx = 0 ∧
    ((stabilityReached realBuiltins (nearCentreRoot : NodeMap ℝ) 0).1.node 0).dy = 0 :=
  stabilityReached_below_threshold realBuiltins nearCentreRoot 0
    (by simp [nearCentreRoot])
    (by
      rw [calculateForceVector_nearCentreRoot]
      have hthr : (nearCentreRoot : NodeMap ℝ).minimumForceThreshold = 0.05 := rfl
      rw [hthr]
      norm_num [abs_of_pos])
    (by
      rw [calculateForceVector_nearCentreRoot]
      have hthr : (nearCentreRoot : NodeMap ℝ).minimumForceThreshold = 0.05 := rfl
      rw [hthr]
      norm_num)

/-! ### What a pass keeps -/

section Pass

variable {α : Type} [LinearOrderedField α]

theorem takePosition_forceKept (s : NodeMap α) (n : Nat) : ForceKept s (takePosition s n) :=
  forceKept_setNode s n _ (by rfl) (by rfl)

theorem eachIndexed_rel {σ : Type} (R : σ → σ → Prop) (hrefl : ∀ s, R s s)
    (htrans : ∀ s t u, R s t → R t u → R s u) (body : Nat → Nat → σ → Option σ) :
    ∀ (cs : List Nat), (∀ i c st st', c ∈ cs → body i c st = some st' → R st st') →
      ∀ i s s', eachIndexed body cs i s = some s' → R s s'
  | [], _, _, s, s', h => by
    simp only [eachIndexed, Option.some.injEq] at h
    exact h ▸ hrefl s
  | c :: cs, hbody, i, s, s', h => by
    simp only [eachIndexed, Option.bind_eq_some] at h
    obtain ⟨st, h1, h2⟩ := h
    have hR1 := hbody i c s st (List.mem_cons_self c cs) h1
    have hR2 := eachIndexed_rel R hrefl htrans body cs
      (fun i c st st' hc => hbody i c st st' (List.mem_cons_of_mem _ hc)) (i + 1) st s' h2
    exact htrans _ _ _ hR1 hR2

theorem placeRadially_forceKept (M : Builtins α) (s : NodeMap α) (n index p : Nat) :
    ForceKept s (placeRadially M s n index p) :=
  forceKept_setNode s n _ (by rfl) (by rfl)

theorem layNodeAroundParent_forceKept (M : Builtins α) :
    ∀ (fuel n index : Nat) (s s' : NodeMap α),
      layNodeAroundParent M fuel n index s = some s' → ForceKept s s'
  | 0, _, _, _, _, h => by simp [layNodeAroundParent] at h
  | fuel + 1, n, index, s, s', h => by
    rw [layNodeAroundParent] at h
    cases hp : (s.node n).parent with
    | none => simp [hp] at h
    | some p =>
      simp only [hp, Option.bind_eq_some, Option.some.injEq] at h
      obtain ⟨s2, h2, rfl⟩ := h
      have k2 := eachIndexed_rel ForceKept ForceKept.fk_refl (fun _ _ _ => ForceKept.fk_trans) _ _
        (fun i c st st' _ hb => layNodeAroundParent_forceKept M fuel c i st st' hb) _ _ _ h2
      exact ((placeRadially_forceKept M s n index p).fk_trans k2).fk_trans
        (takePosition_forceKept s2 n)

theorem foldl_setNode_forceKept (f : Node α → Node α)
    (hc : ∀ nd, (f nd).core = nd.core) (hf : ∀ nd, (f nd).forceState = nd.forceState) :
    ∀ (cs : List Nat) (s : NodeMap α),
      ForceKept s (cs.foldl (fun (st : NodeMap α) c => st.setNode c (f (st.node c))) s)
  | [], s => ForceKept.fk_refl s
  | c :: cs, s => by
    simp only [List.foldl_cons]
    exact (forceKept_setNode s c _ (hc _) (hf _)).fk_trans (foldl_setNode_forceKept f hc hf cs _)

theorem positionSelf_forceKept (s : NodeMap α) (n : Nat) : ForceKept s (positionSelf s n).1 := by
  unfold positionSelf
  split_ifs with h1 h2
  all_goals dsimp only
  · refine ForceKept.fk_trans ?_
      (foldl_setNode_forceKept (fun nd => { nd with hasPosition := false })
        (fun _ => rfl) (fun _ => rfl) _ _)
    exact forceKept_setNode s n _ (by rfl) (by rfl)
  · exact foldl_setNode_forceKept (fun nd => { nd with hasPosition := false })
        (fun _ => rfl) (fun _ => rfl) _ _
  · exact ForceKept.fk_refl s

theorem layChildren_forceKept (M : Builtins α) (fuel : Nat) (s s' : NodeMap α) (n : Nat)
    (h : layChildren M fuel s n = some s') : ForceKept s s' := by
  unfold layChildren at h
  refine eachIndexed_rel ForceKept ForceKept.fk_refl (fun _ _ _ => ForceKept.fk_trans) _ _ ?_ _ _ _ h
  intro i c st st' _ hb
  dsimp only at hb
  by_cases hpos : (st.node c).hasPosition = false
  · rw [if_pos hpos] at hb
    simp only [Option.bind_eq_some] at hb
    obtain ⟨st1, h1, h2⟩ := hb
    have k1 := layNodeAroundParent_forceKept M fuel c i st st1 h1
    cases hp : (st1.node c).parent with
    | none => simp [hp] at h2
    | some p =>
      simp only [hp] at h2
      split_ifs at h2
      · simp only [Option.some.injEq] at h2
        subst h2
        refine k1.fk_trans ?_
        exact forceKept_setNode st1 c _ (by simp [Node.core, hp]) (by rfl)
      · simp only [Option.some.injEq] at h2
        subst h2
        exact k1
  · rw [if_neg hpos] at hb
    simp only [Option.some.injEq] at hb
    subst hb
    exact ForceKept.fk_refl st

theorem stabilityReached_coreKept (M : Builtins α) (s : NodeMap α) (n : Nat) :
    CoreKept s (stabilityReached M s n).1 := by
  unfold stabilityReached
  simp only
  split_ifs <;> exact coreKept_setNode s n _ rfl

theorem stabilityReached_node_ne (M : Builtins α) (s : NodeMap α) (n m : Nat) (h : m ≠ n) :
    (stabilityReached M s n).1.node m = s.node m := by
  unfold stabilityReached
  simp only
  split_ifs <;> exact node_setNode_ne s n m _ h

theorem settleSelf_coreKept (M : Builtins α) (s : NodeMap α) (n : Nat) (b : Bool) :
    CoreKept s (settleSelf M s n b).1 := by
  have k1 := stabilityReached_coreKept M s n
  have k2 : CoreKept (stabilityReached M s n).1
      ((stabilityReached M s n).1.setNode n
        { (stabilityReached M s n).1.node n with isStable := (stabilityReached M s n).2 }) :=
    coreKept_setNode _ n _ rfl
  unfold settleSelf
  simp only
  split_ifs
  · exact coreKept_setNode s n _ rfl
  · exact (k1.ck_trans k2).ck_trans (takePosition_forceKept _ n).coreKept
  · exact k1.ck_trans k2

theorem settleSelf_forceState_ne (M : Builtins α) (s : NodeMap α) (n m : Nat) (b : Bool)
    (h : m ≠ n) : ((settleSelf M s n b).1.node m).forceState = (s.node m).forceState := by
  unfold settleSelf
  simp only
  split_ifs
  · rw [node_setNode_ne s n m _ h]
  · rw [(takePosition_forceKept _ n).force m, node_setNode_ne _ n m _ h,
      stabilityReached_node_ne M s n m h]
  · rw [node_setNode_ne _ n m _ h, stabilityReached_node_ne M s n m h]

theorem seekChildren_rel (R : NodeMap α → NodeMap α → Prop) (hrefl : ∀ s, R s s)
    (htrans : ∀ s t u, R s t → R t u → R s u)
    (seek : Nat → NodeMap α → Option (NodeMap α × Bool)) :
    ∀ (cs : List Nat), (∀ c st r, c ∈ cs → seek c st = some r → R st r.1) →
      ∀ s b r, seekChildren seek cs s b = some r → R s r.1
  | [], _, s, b, r, h => by
    simp only [seekChildren, Option.some.injEq] at h
    subst h
    exact hrefl s
  | c :: cs, hseek, s, b, r, h => by
    simp only [seekChildren, Option.bind_eq_some] at h
    obtain ⟨r1, h1, h2⟩ := h
    exact htrans _ _ _ (hseek c s r1 (List.mem_cons_self c cs) h1)
      (seekChildren_rel R hrefl htrans seek cs
        (fun c st r hc => hseek c st r (List.mem_cons_of_mem _ hc)) _ _ _ h2)

theorem subtreeSeekEquilibrium_coreKept (M : Builtins α) :
    ∀ (fuel n : Nat) (s : NodeMap α) (r : NodeMap α × Bool),
      subtreeSeekEquilibrium M fuel n s = some r → CoreKept s r.1
  | 0, _, _, _, h => by simp [subtreeSeekEquilibrium] at h
  | fuel + 1, n, s, r, h => by
    rw [subtreeSeekEquilibrium] at h
    simp only [Option.bind_eq_some] at h
    obtain ⟨s2, h2, h3⟩ := h
    have k1 := (positionSelf_forceKept s n).coreKept
    have k2 := (layChildren_forceKept M fuel _ s2 n h2).coreKept
    have k3 := settleSelf_coreKept M s2 n (positionSelf s n).2
    have k4 := seekChildren_rel CoreKept CoreKept.ck_refl (fun _ _ _ => CoreKept.ck_trans) _ _
      (fun c st r _ hb => subtreeSeekEquilibrium_coreKept M fuel c st r hb) _ _ _ h3
    exact ((k1.ck_trans k2).ck_trans k3).ck_trans k4

theorem eachIndexed_total {σ : Type} (R : σ → σ → Prop)
    (htrans : ∀ s t u, R s t → R t u → R s u) (body : Nat → Nat → σ → Option σ) (s0 : σ) :
    ∀ (cs : List Nat),
      (∀ i c st, c ∈ cs → R s0 st → ∃ st', body i c st = some st' ∧ R st st') →
      ∀ i st, R s0 st → ∃ s', eachIndexed body cs i st = some s' ∧ R s0 s'
  | [], _, _, st, h => ⟨st, rfl, h⟩
  | c :: cs, hbody, i, st, h => by
    obtain ⟨st1, h1, hR1⟩ := hbody i c st (List.mem_cons_self c cs) h
    obtain ⟨s', h2, hR2⟩ := eachIndexed_total R htrans body s0 cs
      (fun i c st hc => hbody i c st (List.mem_cons_of_mem _ hc)) (i + 1) st1
      (htrans _ _ _ h hR1)
    exact ⟨s', by simp [eachIndexed, h1, h2], hR2⟩

theorem node_lt_length_of_parent (s : NodeMap α) (n p : Nat)
    (hp : (s.node n).parent = some p) : n < s.nodes.length := by
  by_contra h
  rw [node_of_length_le s n (not_lt.mp h)] at hp
  exact Option.noConfusion hp

theorem LaidBehind.lb_trans {n : Nat} {s t u : NodeMap α} (h1 : LaidBehind n s t)
    (h2 : LaidBehind n t u) : LaidBehind n s u :=
  ⟨h1.1.fk_trans h2.1, fun m hm => (h2.2 m hm).trans (h1.2 m hm)⟩

/-- In a well-formed map with enough fuel `layNodeAroundParent` returns; it leaves
every node created before `n` as it was and puts `n` at the radial point displaced by
ten times its stored force vector. -/
theorem layNodeAroundParent_spec (M : Builtins α) :
    ∀ (fuel n index p : Nat) (s : NodeMap α), WellFormed s →
      (s.node n).parent = some p → s.nodes.length ≤ fuel + n →
      ∃ s', layNodeAroundParent M fuel n index s = some s' ∧
        (∀ m, m < n → s'.node m = s.node m) ∧
        (s'.node n).x = (CHILD_PARENT_INIT_DISTANCE * M.cos ((index : α) *
            (M.PI * 2 / ((s.node p).children.length : α)))) + (s.node p).x
            + (s.node n).dx * 10 ∧
        (s'.node n).y = (CHILD_PARENT_INIT_DISTANCE * M.sin ((index : α) *
            (M.PI * 2 / ((s.node p).children.length : α)))) + (s.node p).y
            + (s.node n).dy * 10
  | 0, n, _, p, s, _, hp, hfuel => by
    have := node_lt_length_of_parent s n p hp
    omega
  | fuel + 1, n, index, p, s, hwf, hp, hfuel => by
    have hn := node_lt_length_of_parent s n p hp
    rw [layNodeAroundParent]
    simp only [hp]
    generalize hs1 : placeRadially M s n index p = s1
    have hnode1 : s1.node n = { s.node n with
        x := (CHILD_PARENT_INIT_DISTANCE * M.cos ((index : α) *
            (M.PI * 2 / ((s.node p).children.length : α)))) + (s.node p).x,
        y := (CHILD_PARENT_INIT_DISTANCE * M.sin ((index : α) *
            (M.PI * 2 / ((s.node p).children.length : α)))) + (s.node p).y } := by
      rw [← hs1]; exact node_setNode_self s n _ hn
    have k1 : ForceKept s s1 := by
      rw [← hs1]; exact placeRadially_forceKept M s n index p
    have hch : (s1.node n).children = (s.node n).children := k1.coreKept.children n
    have hloop := eachIndexed_total (LaidBehind n) (fun _ _ _ => LaidBehind.lb_trans)
      (fun childIndex c st => layNodeAroundParent M fuel c childIndex st) s1
      (s1.node n).children
      (by
        intro i c st hc hR
        have kst : CoreKept s st := k1.coreKept.ck_trans hR.1.coreKept
        have hwfst := kst.wellFormed hwf
        rw [hch] at hc
        obtain ⟨hlt, hclen, hcp⟩ := hwf n hn c hc
        have hcp' : (st.node c).parent = some n := by rw [kst.parent c]; exact hcp
        obtain ⟨st', h1, h2, _⟩ := layNodeAroundParent_spec M fuel c i n st hwfst hcp'
          (by rw [kst.length]; omega)
        exact ⟨st', h1, layNodeAroundParent_forceKept M fuel c i st st' h1,
          fun m hm => h2 m (by omega)⟩)
      0 s1 ⟨ForceKept.fk_refl s1, fun _ _ => rfl⟩
    obtain ⟨s2, h2, hR2⟩ := hloop
    refine ⟨takePosition s2 n, by simp [h2], ?_, ?_, ?_⟩
    · intro m hm
      unfold takePosition
      rw [node_setNode_ne _ n m _ (by omega), hR2.2 m (by omega), ← hs1]
      exact node_setNode_ne _ n m _ (by omega)
    · have hlen2 : n < s2.nodes.length := by
        rw [hR2.1.coreKept.length, k1.coreKept.length]; exact hn
      unfold takePosition
      rw [node_setNode_self _ n _ hlen2, hR2.2 n le_rfl, hnode1]
      by_cases hdx : (s.node n).dx = 0 <;> simp [hdx]
    · have hlen2 : n < s2.nodes.length := by
        rw [hR2.1.coreKept.length, k1.coreKept.length]; exact hn
      unfold takePosition
      rw [node_setNode_self _ n _ hlen2, hR2.2 n le_rfl, hnode1]
      by_cases hdy : (s.node n).dy = 0 <;> simp [hdy]

end Pass

/-! ### Radial placement (C3) -/

theorem wellFormed_twoChildrenMap : WellFormed (twoChildrenMap : NodeMap ℝ) := by
  decide

theorem child_of_getElem? {α : Type} [LinearOrderedField α] (s : NodeMap α) (p k n : Nat)
    (hwf : WellFormed s) (hk : (s.node p).children[k]? = some n) :
    p < n ∧ n < s.nodes.length ∧ (s.node n).parent = some p := by
  have hmem : n ∈ (s.node p).children := List.getElem?_mem hk
  have hp : p < s.nodes.length := by
    by_contra h
    rw [node_of_length_le s p (not_lt.mp h)] at hmem
    simp [default] at hmem
  exact hwf p hp n hmem

/-- C3, as stated, fails: `A` is the child 0 of 2 of `R` in `twoChildrenMap` and still
carries the force `dx = 2929/1600` of the previous tick; `layNodeAroundParent(0)` leaves
it at `x = 150 + 2929/160`, not at the radial point `R.x + 50 * cos 0 = 150`, because
the final `takePosition` applies the stored force. -/
theorem layNodeAroundParent_applies_stored_force :
    ((twoChildrenMap : NodeMap ℝ).node 0).children[0]? = some 1 ∧
    ∃ s', layNodeAroundParent realBuiltins 2 1 0 (twoChildrenMap : NodeMap ℝ) = some s' ∧
      (s'.node 1).x = 150 + 2929 / 160 ∧
      (s'.node 1).x ≠ ((twoChildrenMap : NodeMap ℝ).node 0).x +
        50 * Real.cos (2 * Real.pi * (0 : ℕ) / (2 : ℕ)) := by
  refine ⟨rfl, ?_⟩
  obtain ⟨s', h1, _, hx, _⟩ := layNodeAroundParent_spec realBuiltins 2 1 0 0
    (twoChildrenMap : NodeMap ℝ) wellFormed_twoChildrenMap rfl (by simp [twoChildrenMap])
  have hx' : (s'.node 1).x = 150 + 2929 / 160 := by
    rw [hx]
    simp [twoChildrenMap, NodeMap.node, realBuiltins, CHILD_PARENT_INIT_DISTANCE]
    norm_num
  refine ⟨s', h1, hx', ?_⟩
  rw [hx']
  simp [twoChildrenMap, NodeMap.node]
  norm_num

/-- C3, amended. For every non-root node that is the `k`-th (0-based) of its parent's
`cnt` children, `layNodeAroundParent(k)` returns and leaves the parent where it was and
the node at `(parent.x + 50*cos(2*pi*k/cnt) + 10*dx, parent.y + 50*sin(2*pi*k/cnt) + 10*dy)`,
where `(dx, dy)` is the force vector stored on the node before the call; so whenever
that stored force vector is `(0, 0)`, as on a node that has not moved yet, the node lies
exactly at `(parent.x + 50*cos(2*pi*k/cnt), parent.y + 50*sin(2*pi*k/cnt))`, at distance
exactly 50 from the parent. -/
theorem layNodeAroundParent_radial (s : NodeMap ℝ) (fuel n p k : Nat) (hwf : WellFormed s)
    (hk : (s.node p).children[k]? = some n) (hfuel : s.nodes.length ≤ fuel + n) :
    ∃ s', layNodeAroundParent realBuiltins fuel n k s = some s' ∧
      s'.node p = s.node p ∧
      (s'.node n).x = (s.node p).x +
        50 * Real.cos (2 * Real.pi * k / (s.node p).children.length) + 10 * (s.node n).dx ∧
      (s'.node n).y = (s.node p).y +
        50 * Real.sin (2 * Real.pi * k / (s.node p).children.length) + 10 * (s.node n).dy ∧
      ((s.node n).dx = 0 → (s.node n).dy = 0 →
        (s'.node n).x = (s.node p).x +
          50 * Real.cos (2 * Real.pi * k / (s.node p).children.length) ∧
        (s'.node n).y = (s.node p).y +
          50 * Real.sin (2 * Real.pi * k / (s.node p).children.length) ∧
        euclid (s'.node p).point (s'.node n).point = 50) := by
  obtain ⟨hpn, hn, hp⟩ := child_of_getElem? s p k n hwf hk
  obtain ⟨s', h1, hbefore, hx, hy⟩ := layNodeAroundParent_spec realBuiltins fuel n k p s hwf hp hfuel
  have hangle : (k : ℝ) * (Real.pi * 2 / ((s.node p).children.length : ℝ)) =
      2 * Real.pi * k / (s.node p).children.length := by ring
  simp only [realBuiltins, CHILD_PARENT_INIT_DISTANCE, hangle] at hx hy
  have hx' : (s'.node n).x = (s.node p).x +
      50 * Real.cos (2 * Real.pi * k / (s.node p).children.length) + 10 * (s.node n).dx := by
    rw [hx]; ring
  have hy' : (s'.node n).y = (s.node p).y +
      50 * Real.sin (2 * Real.pi * k / (s.node p).children.length) + 10 * (s.node n).dy := by
    rw [hy]; ring
  refine ⟨s', h1, hbefore p hpn, hx', hy', ?_⟩
  intro hdx hdy
  rw [hdx] at hx'
  rw [hdy] at hy'
  simp only [mul_zero, add_zero] at hx' hy'
  refine ⟨hx', hy', ?_⟩
  apply euclid_of_sq _ _ 50 (by norm_num)
  simp only [Node.point, hbefore p hpn, hx', hy']
  have hcs := Real.cos_sq_add_sin_sq (2 * Real.pi * k / (s.node p).children.length)
  calc ((s.node p).x + 50 * Real.cos (2 * Real.pi * k / (s.node p).children.length)
          - (s.node p).x) ^ 2 +
        ((s.node p).y + 50 * Real.sin (2 * Real.pi * k / (s.node p).children.length)
          - (s.node p).y) ^ 2
      = 2500 * (Real.cos (2 * Real.pi * k / (s.node p).children.length) ^ 2 +
          Real.sin (2 * Real.pi * k / (s.node p).children.length) ^ 2) := by ring
    _ = 50 ^ 2 := by rw [hcs]; norm_num

/-- C3 amended, at a concrete node: `B`, the child 1 of 2 of `R` in `twoChildrenMap`,
has the stored force `(0, 0)`; `layNodeAroundParent(1)` puts it at
`(R.x - 50, R.y) = (50, 50)`, at distance 50 from `R`. -/
theorem layNodeAroundParent_radial_witness :
    ∃ s', layNodeAroundParent realBuiltins 1 2 1 (twoChildrenMap : NodeMap ℝ) = some s' ∧
      (s'.node 2).x = 50 ∧ (s'.node 2).y = 50 ∧
      euclid (s'.node 0).point (s'.node 2).point = 50 := by
  obtain ⟨s', h1, _, _, _, h⟩ := layNodeAroundParent_radial (twoChildrenMap : NodeMap ℝ) 1 2 0 1
    wellFormed_twoChildrenMap rfl (by simp [twoChildrenMap])
  obtain ⟨hx, hy, hd⟩ := h rfl rfl
  refine ⟨s', h1, ?_, ?_, hd⟩
  · rw [hx]
    simp [twoChildrenMap, NodeMap.node]
    norm_num
  · rw [hy]
    simp [twoChildrenMap, NodeMap.node]

/-! ### The equilibrium search (C4) -/

section Search

variable {α : Type} [LinearOrderedField α]

theorem seekChildrenTrace_erase
    (seekT : Nat → NodeMap α → Option (NodeMap α × Bool × List VisitReport))
    (seek : Nat → NodeMap α → Option (NodeMap α × Bool))
    (h : ∀ c st, (seekT c st).map (fun q => (q.1, q.2.1)) = seek c st) :
    ∀ (cs : List Nat) (s : NodeMap α) (b : Bool),
      (seekChildrenTrace seekT cs s b).map (fun q => (q.1, q.2.1)) = seekChildren seek cs s b
  | [], s, b => rfl
  | c :: cs, s, b => by
    rw [seekChildrenTrace, seekChildren, ← h c s]
    cases hc : seekT c s with
    | none => rfl
    | some r =>
      have ih := seekChildrenTrace_erase seekT seek h cs r.1 (r.2.1 && b)
      simp only [Option.map_some', Option.some_bind, Option.map_map]
      rw [← ih]
      cases seekChildrenTrace seekT cs r.1 (r.2.1 && b) <;> rfl

theorem subtreeSeekEquilibriumTrace_erase (M : Builtins α) :
    ∀ (fuel n : Nat) (s : NodeMap α),
      (subtreeSeekEquilibriumTrace M fuel n s).map (fun q => (q.1, q.2.1)) =
        subtreeSeekEquilibrium M fuel n s
  | 0, _, _ => rfl
  | fuel + 1, n, s => by
    rw [subtreeSeekEquilibriumTrace, subtreeSeekEquilibrium]
    cases hl : layChildren M fuel (positionSelf s n).1 n with
    | none => rfl
    | some s2 =>
      simp only [Option.some_bind, Option.map_map]
      rw [← seekChildrenTrace_erase _ _ (subtreeSeekEquilibriumTrace_erase M fuel)]
      cases seekChildrenTrace (fun c st => subtreeSeekEquilibriumTrace M fuel c st)
        ((settleSelf M s2 n (positionSelf s n).2).1.node n).children
        (settleSelf M s2 n (positionSelf s n).2).1 (settleSelf M s2 n (positionSelf s n).2).2 <;> rfl

theorem subtreeSeekEquilibrium_of_trace (M : Builtins α) (fuel n : Nat) (s s' : NodeMap α)
    (b : Bool) (log : List VisitReport)
    (h : subtreeSeekEquilibriumTrace M fuel n s = some (s', b, log)) :
    subtreeSeekEquilibrium M fuel n s = some (s', b) := by
  rw [← subtreeSeekEquilibriumTrace_erase, h]
  rfl

theorem trace_of_subtreeSeekEquilibrium (M : Builtins α) (fuel n : Nat) (s : NodeMap α)
    (r : NodeMap α × Bool) (h : subtreeSeekEquilibrium M fuel n s = some r) :
    ∃ log, subtreeSeekEquilibriumTrace M fuel n s = some (r.1, r.2, log) := by
  rw [← subtreeSeekEquilibriumTrace_erase] at h
  cases ht : subtreeSeekEquilibriumTrace M fuel n s with
  | none => rw [ht] at h; simp at h
  | some q =>
    rw [ht] at h
    simp only [Option.map_some', Option.some.injEq] at h
    exact ⟨q.2.2, by rw [← h]⟩

theorem positionSelf_snd (s : NodeMap α) (n : Nat) :
    (positionSelf s n).2 = (s.node n).hasPosition := by
  unfold positionSelf
  cases h : (s.node n).hasPosition <;> simp

theorem settleSelf_snd (M : Builtins α) (s : NodeMap α) (n : Nat) (b : Bool) :
    (settleSelf M s n b).2 = true ↔
      (s.node n).dragging = false ∧ (stabilityReached M s n).2 = true ∧ b = true := by
  unfold settleSelf
  by_cases hd : (s.node n).dragging = true
  · simp [hd]
  · rw [if_neg hd]
    have hd' : (s.node n).dragging = false := by simpa using hd
    dsimp only
    split_ifs with h1
    · simp only [hd', true_and]
      constructor
      · intro h2
        rw [h2] at h1
        exact absurd h1 (by simp)
      · rintro ⟨h2, h3⟩
        rw [h2, h3] at h1
        exact absurd h1 (by simp)
    · simp only [hd', true_and, Bool.and_eq_true]

theorem seekChildrenTrace_iff
    (seekT : Nat → NodeMap α → Option (NodeMap α × Bool × List VisitReport)) :
    ∀ (cs : List Nat),
      (∀ c st q, c ∈ cs → seekT c st = some q →
        (q.2.1 = true ↔ ∀ r ∈ q.2.2, VisitReport.stable r)) →
      ∀ s b q, seekChildrenTrace seekT cs s b = some q →
        (q.2.1 = true ↔ (b = true ∧ ∀ r ∈ q.2.2, VisitReport.stable r))
  | [], _, s, b, q, h => by
    simp only [seekChildrenTrace, Option.some.injEq] at h
    subst h
    simp
  | c :: cs, hseek, s, b, q, h => by
    simp only [seekChildrenTrace, Option.bind_eq_some, Option.map_eq_some'] at h
    obtain ⟨q1, h1, q2, h2, rfl⟩ := h
    have ih := seekChildrenTrace_iff seekT cs
      (fun c st q hc => hseek c st q (List.mem_cons_of_mem _ hc)) _ _ _ h2
    have hc := hseek c s q1 (List.mem_cons_self c cs) h1
    simp only [ih, Bool.and_eq_true, hc, List.mem_append]
    constructor
    · rintro ⟨⟨h3, h4⟩, h5⟩
      exact ⟨h4, fun r hr => hr.elim (h3 r) (h5 r)⟩
    · rintro ⟨h3, h4⟩
      exact ⟨⟨fun r hr => h4 r (Or.inl hr), h3⟩, fun r hr => h4 r (Or.inr hr)⟩

/-- The traced pass returns true exactly when every report of the pass is stable. -/
theorem subtreeSeekEquilibriumTrace_iff (M : Builtins α) :
    ∀ (fuel n : Nat) (s : NodeMap α) (q : NodeMap α × Bool × List VisitReport),
      subtreeSeekEquilibriumTrace M fuel n s = some q →
        (q.2.1 = true ↔ ∀ r ∈ q.2.2, VisitReport.stable r)
  | 0, _, _, _, h => by simp [subtreeSeekEquilibriumTrace] at h
  | fuel + 1, n, s, q, h => by
    rw [subtreeSeekEquilibriumTrace] at h
    simp only [Option.bind_eq_some, Option.map_eq_some'] at h
    obtain ⟨s2, _, q2, h2, rfl⟩ := h
    have ih := seekChildrenTrace_iff _ _
      (fun c st q _ => subtreeSeekEquilibriumTrace_iff M fuel c st q) _ _ _ h2
    simp only [ih, settleSelf_snd, positionSelf_snd, List.mem_cons, forall_eq_or_imp,
      VisitReport.stable]
    cases hd : (s2.node n).dragging <;> simp
    tauto

theorem inSubtree_iff (s : NodeMap α) (n m : Nat) :
    InSubtree s n m ↔ m = n ∨ ∃ c, c ∈ (s.node n).children ∧ InSubtree s c m := by
  constructor
  · intro h
    cases h with
    | self => exact Or.inl rfl
    | child hc hs => exact Or.inr ⟨_, hc, hs⟩
  · rintro (rfl | ⟨c, hc, hs⟩)
    · exact InSubtree.self _
    · exact InSubtree.child hc hs

theorem subtreeSeekEquilibriumTrace_coreKept (M : Builtins α) (fuel n : Nat) (s : NodeMap α)
    (q : NodeMap α × Bool × List VisitReport)
    (h : subtreeSeekEquilibriumTrace M fuel n s = some q) : CoreKept s q.1 :=
  subtreeSeekEquilibrium_coreKept M fuel n s (q.1, q.2.1)
    (subtreeSeekEquilibrium_of_trace M fuel n s q.1 q.2.1 q.2.2 h)

theorem seekChildrenTrace_nodes (s0 : NodeMap α)
    (seekT : Nat → NodeMap α → Option (NodeMap α × Bool × List VisitReport)) :
    ∀ (cs : List Nat),
      (∀ c st q, c ∈ cs → CoreKept s0 st → seekT c st = some q →
        CoreKept st q.1 ∧ ∀ m, (∃ r ∈ q.2.2, r.node = m) ↔ InSubtree s0 c m) →
      ∀ s b q, CoreKept s0 s → seekChildrenTrace seekT cs s b = some q →
        ∀ m, (∃ r ∈ q.2.2, r.node = m) ↔ ∃ c, c ∈ cs ∧ InSubtree s0 c m
  | [], _, s, b, q, _, h => by
    simp only [seekChildrenTrace, Option.some.injEq] at h
    subst h
    simp
  | c :: cs, hseek, s, b, q, hk, h => by
    simp only [seekChildrenTrace, Option.bind_eq_some, Option.map_eq_some'] at h
    obtain ⟨q1, h1, q2, h2, rfl⟩ := h
    obtain ⟨hk1, hn1⟩ := hseek c s q1 (List.mem_cons_self c cs) hk h1
    have ih := seekChildrenTrace_nodes s0 seekT cs
      (fun c st q hc => hseek c st q (List.mem_cons_of_mem _ hc)) _ _ _ (hk.ck_trans hk1) h2
    intro m
    simp only [List.mem_append, List.mem_cons, exists_eq_or_imp, ← ih m, ← hn1 m]
    constructor
    · rintro ⟨r, hr | hr, rfl⟩
      · exact Or.inl ⟨r, hr, rfl⟩
      · exact Or.inr ⟨r, hr, rfl⟩
    · rintro (⟨r, hr, rfl⟩ | ⟨r, hr, rfl⟩)
      · exact ⟨r, Or.inl hr, rfl⟩
      · exact ⟨r, Or.inr hr, rfl⟩

/-- The nodes that report in a traced pass on `n` are exactly the nodes of the
subtree of `n`. -/
theorem subtreeSeekEquilibriumTrace_nodes (M : Builtins α) :
    ∀ (fuel n : Nat) (s : NodeMap α) (q : NodeMap α × Bool × List VisitReport),
      subtreeSeekEquilibriumTrace M fuel n s = some q →
        ∀ m, (∃ r ∈ q.2.2, r.node = m) ↔ InSubtree s n m
  | 0, _, _, _, h => by simp [subtreeSeekEquilibriumTrace] at h
  | fuel + 1, n, s, q, h => by
    rw [subtreeSeekEquilibriumTrace] at h
    simp only [Option.bind_eq_some, Option.map_eq_some'] at h
    obtain ⟨s2, hl, q2, h2, rfl⟩ := h
    have k3 : CoreKept s (settleSelf M s2 n (positionSelf s n).2).1 :=
      ((positionSelf_forceKept s n).coreKept.ck_trans
        (layChildren_forceKept M fuel _ s2 n hl).coreKept).ck_trans
        (settleSelf_coreKept M s2 n _)
    have ih := seekChildrenTrace_nodes s _ _
      (fun c st q _ hk hq =>
        ⟨subtreeSeekEquilibriumTrace_coreKept M fuel c st q hq, fun m => by
          rw [subtreeSeekEquilibriumTrace_nodes M fuel c st q hq m]
          exact ⟨hk.symm_inSubtree, hk.inSubtree⟩⟩) _ _ _ k3 h2
    intro m
    rw [inSubtree_iff, ← k3.children n, ← ih m]
    simp only [List.mem_cons, exists_eq_or_imp]
    constructor
    · rintro (h | h)
      · exact Or.inl h.symm
      · exact Or.inr h
    · rintro (h | h)
      · exact Or.inl h.symm
      · exact Or.inr h

theorem marksKept_refl (s : NodeMap α) : MarksKept s s :=
  ⟨CoreKept.ck_refl s, fun _ h => h⟩

theorem marksKept_trans {s t u : NodeMap α} (h1 : MarksKept s t) (h2 : MarksKept t u) :
    MarksKept s u :=
  ⟨h1.1.ck_trans h2.1, fun m hm => h2.2 m (h1.2 m hm)⟩

theorem marked_of_forceState {s t : NodeMap α} {m : Nat}
    (h : (t.node m).forceState = (s.node m).forceState) (hm : Marked s m) : Marked t m := by
  simp only [Node.forceState, Prod.mk.injEq] at h
  obtain ⟨h1, h2, h3⟩ := h
  exact ⟨h1.trans hm.1, h2.trans hm.2.1, h3.trans hm.2.2⟩

theorem marksKept_of_forceKept {s t : NodeMap α} (h : ForceKept s t) : MarksKept s t :=
  ⟨h.coreKept, fun m hm => marked_of_forceState (h.force m) hm⟩

theorem stabilityReached_true (M : Builtins α) (s : NodeMap α) (n : Nat)
    (h : (stabilityReached M s n).2 = true) :
    (stabilityReached M s n).1 = s.setNode n { s.node n with dx := 0, dy := 0 } := by
  unfold stabilityReached at h ⊢
  dsimp only at h ⊢
  split_ifs at h ⊢
  all_goals rfl

theorem settleSelf_true_state (M : Builtins α) (s : NodeMap α) (n : Nat) (b : Bool)
    (h : (settleSelf M s n b).2 = true) :
    (settleSelf M s n b).1 =
      (s.setNode n { s.node n with dx := 0, dy := 0 }).setNode n
        { (s.setNode n { s.node n with dx := 0, dy := 0 }).node n with isStable := true } := by
  obtain ⟨hd, hr, hb⟩ := (settleSelf_snd M s n b).mp h
  unfold settleSelf
  rw [if_neg (by simp [hd])]
  dsimp only
  rw [if_neg (by simp [hr, hb]), stabilityReached_true M s n hr, hr]

theorem settleSelf_true_marked (M : Builtins α) (s : NodeMap α) (n : Nat) (b : Bool)
    (h : (settleSelf M s n b).2 = true) (hn : n < s.nodes.length) :
    Marked (settleSelf M s n b).1 n := by
  rw [settleSelf_true_state M s n b h]
  unfold Marked
  rw [node_setNode_self _ n _ (by rw [length_setNode]; exact hn), node_setNode_self _ n _ hn]
  exact ⟨rfl, rfl, rfl⟩

theorem settleSelf_marksKept (M : Builtins α) (s : NodeMap α) (n : Nat) (b : Bool)
    (h : (settleSelf M s n b).2 = true) : MarksKept s (settleSelf M s n b).1 := by
  refine ⟨settleSelf_coreKept M s n b, fun m hm => ?_⟩
  by_cases hmn : m = n
  · subst hmn
    by_cases hl : m < s.nodes.length
    · exact settleSelf_true_marked M s m b h hl
    · have h1 := hm.1
      rw [node_of_length_le s m (not_lt.mp hl)] at h1
      simp [default] at h1
  · exact marked_of_forceState (settleSelf_forceState_ne M s n m b hmn) hm

/-- A loop of `seekChildren` that ends true started true, and every child was asked in
some state of the loop and answered true. -/
theorem seekChildren_true (R : NodeMap α → NodeMap α → Prop) (hrefl : ∀ s, R s s)
    (htrans : ∀ s t u, R s t → R t u → R s u)
    (seek : Nat → NodeMap α → Option (NodeMap α × Bool)) :
    ∀ (cs : List Nat),
      (∀ c st r, c ∈ cs → seek c st = some r → r.2 = true → R st r.1) →
      ∀ s b r, seekChildren seek cs s b = some r → r.2 = true →
        b = true ∧ R s r.1 ∧
        ∀ c, c ∈ cs → ∃ st r1, R s st ∧ seek c st = some r1 ∧ r1.2 = true ∧ R r1.1 r.1
  | [], _, s, b, r, h, hr => by
    simp only [seekChildren, Option.some.injEq] at h
    subst h
    exact ⟨hr, hrefl s, fun c hc => absurd hc (List.not_mem_nil c)⟩
  | c :: cs, hseek, s, b, r, h, hr => by
    simp only [seekChildren, Option.bind_eq_some] at h
    obtain ⟨r1, h1, h2⟩ := h
    obtain ⟨hb, hR, hall⟩ := seekChildren_true R hrefl htrans seek cs
      (fun c st r hc => hseek c st r (List.mem_cons_of_mem _ hc)) _ _ _ h2 hr
    simp only [Bool.and_eq_true] at hb
    have hR1 := hseek c s r1 (List.mem_cons_self c cs) h1 hb.1
    refine ⟨hb.2, htrans _ _ _ hR1 hR, ?_⟩
    intro c' hc'
    rcases List.mem_cons.mp hc' with rfl | hc'
    · exact ⟨s, r1, hrefl s, h1, hb.1, hR⟩
    · obtain ⟨st, r2, k1, k2, k3, k4⟩ := hall c' hc'
      exact ⟨st, r2, htrans _ _ _ hR1 k1, k2, k3, k4⟩

/-- A pass that returns true leaves every node that was marked stable marked stable. -/
theorem subtreeSeekEquilibrium_marksKept (M : Builtins α) :
    ∀ (fuel n : Nat) (s : NodeMap α) (r : NodeMap α × Bool),
      subtreeSeekEquilibrium M fuel n s = some r → r.2 = true → MarksKept s r.1
  | 0, _, _, _, h, _ => by simp [subtreeSeekEquilibrium] at h
  | fuel + 1, n, s, r, h, hr => by
    rw [subtreeSeekEquilibrium] at h
    simp only [Option.bind_eq_some] at h
    obtain ⟨s2, hl, h3⟩ := h
    obtain ⟨hb, hR, _⟩ := seekChildren_true MarksKept marksKept_refl
      (fun _ _ _ => marksKept_trans) _ _
      (fun c st r _ hc hr => subtreeSeekEquilibrium_marksKept M fuel c st r hc hr) _ _ _ h3 hr
    exact marksKept_trans (marksKept_trans
      (marksKept_trans (marksKept_of_forceKept (positionSelf_forceKept s n))
        (marksKept_of_forceKept (layChildren_forceKept M fuel _ s2 n hl)))
      (settleSelf_marksKept M s2 n _ hb)) hR

/-- A pass that returns true leaves every node of the subtree marked stable. -/
theorem subtreeSeekEquilibrium_true_marked (M : Builtins α) :
    ∀ (fuel n : Nat) (s : NodeMap α) (r : NodeMap α × Bool),
      subtreeSeekEquilibrium M fuel n s = some r → r.2 = true → WellFormed s →
      n < s.nodes.length → ∀ m, InSubtree s n m → Marked r.1 m
  | 0, _, _, _, h, _, _, _ => by simp [subtreeSeekEquilibrium] at h
  | fuel + 1, n, s, r, h, hr, hwf, hn => by
    rw [subtreeSeekEquilibrium] at h
    simp only [Option.bind_eq_some] at h
    obtain ⟨s2, hl, h3⟩ := h
    obtain ⟨hb, hR, hall⟩ := seekChildren_true MarksKept marksKept_refl
      (fun _ _ _ => marksKept_trans) _ _
      (fun c st r _ hc hr => subtreeSeekEquilibrium_marksKept M fuel c st r hc hr) _ _ _ h3 hr
    have k2 : CoreKept s s2 := (positionSelf_forceKept s n).coreKept.ck_trans
      (layChildren_forceKept M fuel _ s2 n hl).coreKept
    have k3 : CoreKept s (settleSelf M s2 n (positionSelf s n).2).1 :=
      k2.ck_trans (settleSelf_coreKept M s2 n _)
    intro m hm
    rcases (inSubtree_iff s n m).mp hm with rfl | ⟨c, hc, hcm⟩
    · exact hR.2 m (settleSelf_true_marked M s2 m _ hb (by rw [k2.length]; exact hn))
    · obtain ⟨st, r1, k4, k5, k6, k7⟩ := hall c (by rw [k3.children n]; exact hc)
      have kst : CoreKept s st := k3.ck_trans k4.1
      have hclen : c < st.nodes.length := by
        rw [kst.length]; exact (hwf n hn c hc).2.1
      exact k7.2 m (subtreeSeekEquilibrium_true_marked M fuel c st r1 k5 k6
        (kst.wellFormed hwf) hclen m (kst.inSubtree hcm))

theorem seekChildren_false (seek : Nat → NodeMap α → Option (NodeMap α × Bool)) :
    ∀ (cs : List Nat) (s : NodeMap α) (r : NodeMap α × Bool),
      seekChildren seek cs s false = some r → r.2 = false
  | [], s, r, h => by
    simp only [seekChildren, Option.some.injEq] at h
    subst h
    rfl
  | c :: cs, s, r, h => by
    simp only [seekChildren, Option.bind_eq_some, Bool.and_false] at h
    obtain ⟨r1, _, h2⟩ := h
    exact seekChildren_false seek cs _ _ h2

/-- A pass over a subtree in which some node is being dragged returns false. -/
theorem subtreeSeekEquilibrium_dragged (M : Builtins α) :
    ∀ (fuel n : Nat) (s : NodeMap α) (r : NodeMap α × Bool),
      subtreeSeekEquilibrium M fuel n s = some r →
      ∀ m, InSubtree s n m → (s.node m).dragging = true → r.2 = false
  | 0, _, _, _, h => by simp [subtreeSeekEquilibrium] at h
  | fuel + 1, n, s, r, h => by
    intro m hm hdrag
    by_contra hne
    have hr : r.2 = true := by simpa using hne
    rw [subtreeSeekEquilibrium] at h
    simp only [Option.bind_eq_some] at h
    obtain ⟨s2, hl, h3⟩ := h
    obtain ⟨hb, _, hall⟩ := seekChildren_true CoreKept CoreKept.ck_refl
      (fun _ _ _ => CoreKept.ck_trans) _ _
      (fun c st r _ hc _ => subtreeSeekEquilibrium_coreKept M fuel c st r hc) _ _ _ h3 hr
    have k2 : CoreKept s s2 := (positionSelf_forceKept s n).coreKept.ck_trans
      (layChildren_forceKept M fuel _ s2 n hl).coreKept
    have k3 : CoreKept s (settleSelf M s2 n (positionSelf s n).2).1 :=
      k2.ck_trans (settleSelf_coreKept M s2 n _)
    rcases (inSubtree_iff s n m).mp hm with rfl | ⟨c, hc, hcm⟩
    · have hd := ((settleSelf_snd M s2 m _).mp hb).1
      rw [k2.dragging m, hdrag] at hd
      exact absurd hd (by simp)
    · obtain ⟨st, r1, k4, k5, k6, _⟩ := hall c (by rw [k3.children n]; exact hc)
      have kst : CoreKept s st := k3.ck_trans k4
      have := subtreeSeekEquilibrium_dragged M fuel c st r1 k5 m (kst.inSubtree hcm)
        (by rw [kst.dragging m]; exact hdrag)
      rw [k6] at this
      exact absurd this (by simp)

theorem layChildren_total (M : Builtins α) (fuel n : Nat) (s : NodeMap α)
    (hwf : WellFormed s) (hn : n < s.nodes.length) (hfuel : s.nodes.length ≤ fuel + n + 1) :
    ∃ s', layChildren M fuel s n = some s' := by
  unfold layChildren
  obtain ⟨s', h, _⟩ := eachIndexed_total ForceKept (fun _ _ _ => ForceKept.fk_trans)
    (fun index c st =>
      if (st.node c).hasPosition = false then
        (layNodeAroundParent M fuel c index st).bind fun st1 =>
          match (st1.node c).parent with
          | none => none
          | some p =>
            if (st1.node p).isStable = true then
              some (st1.setNode c { st1.node c with hasPosition := true })
            else some st1
      else some st) s (s.node n).children
    (by
      intro i c st hc hR
      obtain ⟨hlt, hclen, hcp⟩ := hwf n hn c hc
      dsimp only
      by_cases hpos : (st.node c).hasPosition = false
      · rw [if_pos hpos]
        have hcp' : (st.node c).parent = some n := by rw [hR.coreKept.parent c]; exact hcp
        obtain ⟨st1, h1, _⟩ := layNodeAroundParent_spec M fuel c i n st
          (hR.coreKept.wellFormed hwf) hcp' (by rw [hR.coreKept.length]; omega)
        have k1 := layNodeAroundParent_forceKept M fuel c i st st1 h1
        have hcp1 : (st1.node c).parent = some n := by rw [k1.coreKept.parent c]; exact hcp'
        rw [h1]
        simp only [Option.some_bind, hcp1]
        split_ifs
        · refine ⟨_, rfl, k1.fk_trans ?_⟩
          exact forceKept_setNode st1 c _ (by simp [Node.core, hcp1]) (by rfl)
        · exact ⟨_, rfl, k1⟩
      · rw [if_neg hpos]
        exact ⟨st, rfl, ForceKept.fk_refl st⟩)
    0 s (ForceKept.fk_refl s)
  exact ⟨s', h⟩

theorem seekChildren_total (R : NodeMap α → NodeMap α → Prop)
    (htrans : ∀ s t u, R s t → R t u → R s u)
    (seek : Nat → NodeMap α → Option (NodeMap α × Bool)) (s0 : NodeMap α) :
    ∀ (cs : List Nat),
      (∀ c st, c ∈ cs → R s0 st → ∃ r, seek c st = some r ∧ R st r.1) →
      ∀ st b, R s0 st → ∃ r, seekChildren seek cs st b = some r ∧ R s0 r.1
  | [], _, st, b, h => ⟨(st, b), rfl, h⟩
  | c :: cs, hseek, st, b, h => by
    obtain ⟨r1, h1, hR1⟩ := hseek c st (List.mem_cons_self c cs) h
    obtain ⟨r, h2, hR2⟩ := seekChildren_total R htrans seek s0 cs
      (fun c st hc => hseek c st (List.mem_cons_of_mem _ hc)) r1.1 (r1.2 && b)
      (htrans _ _ _ h hR1)
    exact ⟨r, by simp [seekChildren, h1, h2], hR2⟩

/-- In a well-formed map with enough fuel the pass returns. -/
theorem subtreeSeekEquilibrium_total (M : Builtins α) :
    ∀ (fuel n : Nat) (s : NodeMap α), WellFormed s → n < s.nodes.length →
      s.nodes.length ≤ fuel + n → ∃ r, subtreeSeekEquilibrium M fuel n s = some r
  | 0, n, s, _, hn, hfuel => by omega
  | fuel + 1, n, s, hwf, hn, hfuel => by
    rw [subtreeSeekEquilibrium]
    have k1 := (positionSelf_forceKept s n).coreKept
    obtain ⟨s2, hl⟩ := layChildren_total M fuel n (positionSelf s n).1 (k1.wellFormed hwf)
      (by rw [k1.length]; exact hn) (by rw [k1.length]; omega)
    have k2 := k1.ck_trans (layChildren_forceKept M fuel _ s2 n hl).coreKept
    have k3 := k2.ck_trans (settleSelf_coreKept M s2 n (positionSelf s n).2)
    obtain ⟨r, h, _⟩ := seekChildren_total CoreKept (fun _ _ _ => CoreKept.ck_trans)
      (fun c st => subtreeSeekEquilibrium M fuel c st) s
      ((settleSelf M s2 n (positionSelf s n).2).1.node n).children
      (by
        intro c st hc hR
        rw [k3.children n] at hc
        obtain ⟨hlt, hclen, _⟩ := hwf n hn c hc
        obtain ⟨r, hr⟩ := subtreeSeekEquilibrium_total M fuel c st (hR.wellFormed hwf)
          (by rw [hR.length]; exact hclen) (by rw [hR.length]; omega)
        exact ⟨r, hr, subtreeSeekEquilibrium_coreKept M fuel c st r hr⟩)
      _ (settleSelf M s2 n (positionSelf s n).2).2 k3
    exact ⟨r, by simp [hl, h]⟩

/-- C4. In a well-formed map with enough fuel, `subtreeSeekEquilibrium` on a node `n`
returns a state `s'` and a boolean `b`, and the nodes that report in that pass are
exactly the nodes of the subtree of `n` (the node itself and all its descendants);
`b` is true if and only if every one of them reports stable when it is visited: it had
`hasPosition = true` when its visit began, it is not being dragged, and its
`stabilityReached` call returned true. In particular, whenever `b` is true, afterwards
every node of the subtree has `isStable = true` and `dx = dy = 0`, and whenever any
node of the subtree is being dragged `b` is false. -/
theorem subtreeSeekEquilibrium_true_iff (M : Builtins α) (s : NodeMap α) (fuel n : Nat)
    (hwf : WellFormed s) (hn : n < s.nodes.length) (hfuel : s.nodes.length ≤ fuel + n) :
    ∃ s' b log,
      subtreeSeekEquilibrium M fuel n s = some (s', b) ∧
      subtreeSeekEquilibriumTrace M fuel n s = some (s', b, log) ∧
      (∀ m, InSubtree s n m ↔ ∃ r ∈ log, r.node = m) ∧
      (b = true ↔ ∀ r ∈ log,
        r.hadPosition = true ∧ r.dragged = false ∧ r.reached = some true) ∧
      (b = true → ∀ m, InSubtree s n m →
        (s'.node m).isStable = true ∧ (s'.node m).dx = 0 ∧ (s'.node m).dy = 0) ∧
      ((∃ m, InSubtree s n m ∧ (s.node m).dragging = true) → b = false) := by
  obtain ⟨r, hr⟩ := subtreeSeekEquilibrium_total M fuel n s hwf hn hfuel
  obtain ⟨log, hlog⟩ := trace_of_subtreeSeekEquilibrium M fuel n s r hr
  refine ⟨r.1, r.2, log, hr, hlog, ?_, ?_, ?_, ?_⟩
  · intro m
    exact (subtreeSeekEquilibriumTrace_nodes M fuel n s _ hlog m).symm
  · exact subtreeSeekEquilibriumTrace_iff M fuel n s _ hlog
  · intro hb m hm
    exact subtreeSeekEquilibrium_true_marked M fuel n s r hr hb hwf hn m hm
  · rintro ⟨m, hm, hd⟩
    exact subtreeSeekEquilibrium_dragged M fuel n s r hr m hm hd

/-- On a fully stable subtree of a well-formed map the pass returns true and the very
same state. -/
theorem subtreeSeekEquilibrium_of_fullyStable (M : Builtins α) (s : NodeMap α)
    (hwf : WellFormed s) :
    ∀ (fuel n : Nat), n < s.nodes.length → s.nodes.length ≤ fuel + n →
      FullyStable M s n → subtreeSeekEquilibrium M fuel n s = some (s, true) := by
  intro fuel
  induction fuel with
  | zero => intro n hn hfuel; omega
  | succ fuel ih =>
    intro n hn hfuel hst
    obtain ⟨hpos, hst1, hdx, hdy, hdrag, hreach⟩ := hst n (InSubtree.self n)
    have hchild : ∀ c, c ∈ (s.node n).children → FullyStable M s c :=
      fun c hc m hm => hst m (InSubtree.child hc hm)
    have h1 : positionSelf s n = (s, true) := by
      unfold positionSelf
      rw [if_neg (by simp [hpos])]
    have h2 : layChildren M fuel s n = some s := by
      unfold layChildren
      have hbody : ∀ (cs : List Nat), (∀ c, c ∈ cs → (s.node c).hasPosition = true) →
          ∀ i, eachIndexed
            (fun index c st =>
              if (st.node c).hasPosition = false then
                (layNodeAroundParent M fuel c index st).bind fun st1 =>
                  match (st1.node c).parent with
                  | none => none
                  | some p =>
                    if (st1.node p).isStable = true then
                      some (st1.setNode c { st1.node c with hasPosition := true })
                    else some st1
              else some st) cs i s = some s := by
        intro cs
        induction cs with
        | nil => intro _ i; rfl
        | cons c cs ihc =>
          intro hcs i
          rw [eachIndexed]
          dsimp only
          rw [if_neg (by simp [hcs c (List.mem_cons_self c cs)]), Option.some_bind]
          exact ihc (fun c hc => hcs c (List.mem_cons_of_mem _ hc)) (i + 1)
      exact hbody _ (fun c hc => (hchild c hc c (InSubtree.self c)).1) 0
    have hnd0 : ({ s.node n with dx := 0, dy := 0 } : Node α) = s.node n :=
      node_zero_force_self (s.node n) hdx hdy
    have h3b : (settleSelf M s n true).2 = true :=
      (settleSelf_snd M s n true).mpr ⟨hdrag, hreach, rfl⟩
    have h3 : settleSelf M s n true = (s, true) := by
      have hstate := settleSelf_true_state M s n true h3b
      rw [hnd0, setNode_node_self] at hstate
      have hnd1 : ({ s.node n with isStable := true } : Node α) = s.node n :=
        node_stable_self (s.node n) hst1
      rw [hnd1, setNode_node_self] at hstate
      exact Prod.ext hstate h3b
    have h4 : ∀ (cs : List Nat), (∀ c, c ∈ cs → c ∈ (s.node n).children) →
        seekChildren (fun c st => subtreeSeekEquilibrium M fuel c st) cs s true =
          some (s, true) := by
      intro cs
      induction cs with
      | nil => intro _; rfl
      | cons c cs ihc =>
        intro hcs
        have hc := hcs c (List.mem_cons_self c cs)
        obtain ⟨hlt, hclen, _⟩ := hwf n hn c hc
        rw [seekChildren, ih c hclen (by omega) (hchild c hc), Option.some_bind]
        exact ihc (fun c hc => hcs c (List.mem_cons_of_mem _ hc))
    rw [subtreeSeekEquilibrium, h1]
    dsimp only
    rw [h2, Option.some_bind, h3]
    exact h4 _ (fun c hc => hc)

/-- C5. Idempotence of the equilibrium search: on a subtree that is already fully stable
(every node has a position, `isStable = true`, `dx = dy = 0`, is not being dragged, and
its current force vector thresholds to zero) `subtreeSeekEquilibrium` returns true and
the very same state, so every position, force vector, `isStable` and `hasPosition` is
unchanged; hence calling it twice gives the same state as calling it once. -/
theorem subtreeSeekEquilibrium_idempotent (M : Builtins α) (s : NodeMap α) (fuel n : Nat)
    (hwf : WellFormed s) (hn : n < s.nodes.length) (hfuel : s.nodes.length ≤ fuel + n)
    (hstable : FullyStable M s n) :
    subtreeSeekEquilibrium M fuel n s = some (s, true) ∧
    (subtreeSeekEquilibrium M fuel n s).bind
      (fun r => subtreeSeekEquilibrium M fuel n r.1) = some (s, true) := by
  have key := subtreeSeekEquilibrium_of_fullyStable M s hwf
  have h := key fuel n hn hfuel hstable
  exact ⟨h, by rw [h, Option.some_bind, h]⟩

end Search

/-! ### Concrete passes -/

theorem wellFormed_draggedGrandchildMap : WellFormed (draggedGrandchildMap : NodeMap ℝ) := by
  decide

/-- C4, at a concrete map: in `draggedGrandchildMap` the grandchild `C` of the root is
being dragged; the pass on the root returns, `C` is among the nodes that report, and
the result is false. -/
theorem subtreeSeekEquilibrium_true_iff_witness :
    ∃ s' log,
      subtreeSeekEquilibrium realBuiltins 3 0 (draggedGrandchildMap : NodeMap ℝ) =
        some (s', false) ∧
      subtreeSeekEquilibriumTrace realBuiltins 3 0 (draggedGrandchildMap : NodeMap ℝ) =
        some (s', false, log) ∧
      ∃ r ∈ log, r.node = 2 := by
  have hsub : InSubtree (draggedGrandchildMap : NodeMap ℝ) 0 2 :=
    InSubtree.child (c := 1) (by simp [draggedGrandchildMap, NodeMap.node])
      (InSubtree.child (c := 2) (by simp [draggedGrandchildMap, NodeMap.node])
        (InSubtree.self 2))
  obtain ⟨s', b, log, h1, h2, h3, _, _, h6⟩ :=
    subtreeSeekEquilibrium_true_iff realBuiltins (draggedGrandchildMap : NodeMap ℝ) 3 0
      wellFormed_draggedGrandchildMap (by simp [draggedGrandchildMap])
      (by simp [draggedGrandchildMap])
  have hb : b = false := h6 ⟨2, hsub, by simp [draggedGrandchildMap, NodeMap.node]⟩
  subst hb
  exact ⟨s', log, h1, h2, (h3 2).mp hsub⟩

theorem default_children : (default : Node ℝ).children = [] := rfl

theorem wellFormed_settledFamily : WellFormed (settledFamily : NodeMap ℝ) := by
  decide

theorem calculateForceVector_settledFamily_root :
    calculateForceVector realBuiltins (settledFamily : NodeMap ℝ) 0 = ⟨0, 0⟩ := by
  have e : euclid ⟨500, 500⟩ ⟨1000 / 2, 1000 / 2⟩ = 0 :=
    euclid_of_sq _ _ 0 le_rfl (by norm_num)
  simp [calculateForceVector, attractionPart, repulsionPart, settledFamily, NodeMap.node,
    Node.point, attraction_real, e, ForceVector.add]

theorem calculateForceVector_settledFamily_A :
    calculateForceVector realBuiltins (settledFamily : NodeMap ℝ) 1 = ⟨-(37 / 72000), 0⟩ := by
  have e1 : euclid ⟨800, 500⟩ ⟨200, 500⟩ = 600 :=
    euclid_of_sq _ _ 600 (by norm_num) (by norm_num)
  have e2 : euclid ⟨800, 500⟩ ⟨500, 500⟩ = 300 :=
    euclid_of_sq _ _ 300 (by norm_num) (by norm_num)
  simp [calculateForceVector, attractionPart, repulsionPart, settledFamily, NodeMap.node,
    Node.point, attraction_real, repulsion_real, e1, e2, ForceVector.add, orOne,
    default_children]
  norm_num

theorem calculateForceVector_settledFamily_B :
    calculateForceVector realBuiltins (settledFamily : NodeMap ℝ) 2 = ⟨37 / 72000, 0⟩ := by
  have e1 : euclid ⟨200, 500⟩ ⟨800, 500⟩ = 600 :=
    euclid_of_sq _ _ 600 (by norm_num) (by norm_num)
  have e2 : euclid ⟨200, 500⟩ ⟨500, 500⟩ = 300 :=
    euclid_of_sq _ _ 300 (by norm_num) (by norm_num)
  simp [calculateForceVector, attractionPart, repulsionPart, settledFamily, NodeMap.node,
    Node.point, attraction_real, repulsion_real, e1, e2, ForceVector.add, orOne,
    default_children]
  norm_num

theorem inSubtree_settledFamily (m : Nat)
    (hm : InSubtree (settledFamily : NodeMap ℝ) 0 m) : m = 0 ∨ m = 1 ∨ m = 2 := by
  rcases (inSubtree_iff _ 0 m).mp hm with h | ⟨c, hc, hcm⟩
  · exact Or.inl h
  · have hc' : c = 1 ∨ c = 2 := by
      simpa [settledFamily, NodeMap.node] using hc
    rcases hc' with rfl | rfl
    · rcases (inSubtree_iff _ 1 m).mp hcm with h | ⟨c, hc, _⟩
      · exact Or.inr (Or.inl h)
      · simp [settledFamily, NodeMap.node, default_children] at hc
    · rcases (inSubtree_iff _ 2 m).mp hcm with h | ⟨c, hc, _⟩
      · exact Or.inr (Or.inr h)
      · simp [settledFamily, NodeMap.node, default_children] at hc

theorem fullyStable_settledFamily :
    FullyStable realBuiltins (settledFamily : NodeMap ℝ) 0 := by
  have hthr : (settledFamily : NodeMap ℝ).minimumForceThreshold = 0.05 := rfl
  intro m hm
  rcases inSubtree_settledFamily m hm with rfl | rfl | rfl
  · refine ⟨rfl, rfl, rfl, rfl, rfl, ?_⟩
    rw [stabilityReached_of_scaled_below realBuiltins _ 0
      (by rw [calculateForceVector_settledFamily_root, hthr]; norm_num)
      (by rw [calculateForceVector_settledFamily_root, hthr]; norm_num)]
  · refine ⟨rfl, rfl, rfl, rfl, rfl, ?_⟩
    rw [stabilityReached_of_scaled_below realBuiltins _ 1
      (by rw [calculateForceVector_settledFamily_A, hthr]; norm_num [abs_lt])
      (by rw [calculateForceVector_settledFamily_A, hthr]; norm_num)]
  · refine ⟨rfl, rfl, rfl, rfl, rfl, ?_⟩
    rw [stabilityReached_of_scaled_below realBuiltins _ 2
      (by rw [calculateForceVector_settledFamily_B, hthr]; norm_num [abs_lt])
      (by rw [calculateForceVector_settledFamily_B, hthr]; norm_num)]

/-- C5, at a concrete map: the family of `settledFamily` (root at the centre, two
children 300 away on either side) is fully stable; a pass on the root returns true and
the same state, and so does a second pass. -/
theorem subtreeSeekEquilibrium_idempotent_witness :
    subtreeSeekEquilibrium realBuiltins 3 0 (settledFamily : NodeMap ℝ) =
      some (settledFamily, true) ∧
    (subtreeSeekEquilibrium realBuiltins 3 0 (settledFamily : NodeMap ℝ)).bind
      (fun r => subtreeSeekEquilibrium realBuiltins 3 0 r.1) = some (settledFamily, true) :=
  subtreeSeekEquilibrium_idempotent realBuiltins (settledFamily : NodeMap ℝ) 3 0
    wellFormed_settledFamily (by simp [settledFamily]) (by simp [settledFamily])
    fullyStable_settledFamily

/-! ### The stability timeout (C1) -/

section Timeout

variable {α : Type} [LinearOrderedField α]

theorem sameTree_refl (s : NodeMap α) : SameTree s s :=
  ⟨rfl, rfl, fun _ => ⟨rfl, rfl, rfl⟩⟩

theorem sameTree_trans {s t u : NodeMap α} (h1 : SameTree s t) (h2 : SameTree t u) :
    SameTree s u :=
  ⟨h2.1.trans h1.1, h2.2.1.trans h1.2.1, fun m =>
    ⟨((h2.2.2 m).1).trans ((h1.2.2 m).1), ((h2.2.2 m).2.1).trans ((h1.2.2 m).2.1),
      ((h2.2.2 m).2.2).trans ((h1.2.2 m).2.2)⟩⟩

theorem sameTree_of_coreKept {s t : NodeMap α} (h : CoreKept s t) : SameTree s t :=
  ⟨h.length, by have h1 := congrArg NodeMap.rootNode h.globals; exact h1,
    fun m => ⟨h.parent m, h.children m, h.dragging m⟩⟩

theorem sameTree_setNode (s : NodeMap α) (n : Nat) (nd : Node α)
    (h : (nd.parent, nd.children, nd.dragging) =
      ((s.node n).parent, (s.node n).children, (s.node n).dragging)) :
    SameTree s (s.setNode n nd) := by
  refine ⟨length_setNode s n nd, rfl, fun m => ?_⟩
  have h1 := proj_setNode (fun x => (x.parent, x.children, x.dragging)) s n nd h m
  simp only [Prod.mk.injEq] at h1
  exact h1

theorem sameTree_recalculateBoundingBox (s : NodeMap α) :
    SameTree s (recalculateBoundingBox s) ∧
    ∀ m, (recalculateBoundingBox s).node m = s.node m := by
  unfold recalculateBoundingBox
  dsimp only
  split_ifs
  · exact ⟨⟨rfl, rfl, fun _ => ⟨rfl, rfl, rfl⟩⟩, fun _ => rfl⟩
  · exact ⟨sameTree_refl s, fun _ => rfl⟩

theorem sameTree_wellFormed {s t : NodeMap α} (h : SameTree s t) (hwf : WellFormed s) :
    WellFormed t := by
  intro m hm c hc
  rw [h.1] at hm ⊢
  rw [(h.2.2 m).2.1] at hc
  rw [(h.2.2 c).1]
  exact hwf m hm c hc

theorem sameTree_inSubtree {s t : NodeMap α} (h : SameTree s t) {n m : Nat}
    (hs : InSubtree s n m) : InSubtree t n m := by
  induction hs with
  | self n => exact InSubtree.self n
  | child hc _ ih => exact InSubtree.child (by rw [(h.2.2 _).2.1]; exact hc) ih

/-- A tick of the loop of `n` while a node of its subtree is dragged and the flag
`stopSubtreeMoving` of `n` is false: the tick schedules the next tick. -/
theorem animationLoop_reschedules (M : Builtins α) (fuel n : Nat) (s0 : NodeMap α)
    (rt : Runtime α) (hwf : WellFormed s0) (hn : n < s0.nodes.length)
    (hfuel : s0.nodes.length ≤ fuel + n)
    (hdrag : ∃ m, InSubtree s0 n m ∧ (s0.node m).dragging = true)
    (hsame : SameTree s0 rt.map) (hflag : (rt.map.node n).stopSubtreeMoving = false) :
    ∃ rt', animationLoop M fuel rt n = some rt' ∧ SameTree s0 rt'.map ∧
      (∀ m, (rt'.map.node m).stopSubtreeMoving = (rt.map.node m).stopSubtreeMoving) ∧
      rt'.timers = rt.timers ++
        [{ id := rt.nextTimerId, due := rt.now + 10, callback := Callback.nextTick n }] ∧
      rt'.nextTimerId = rt.nextTimerId + 1 ∧ rt'.now = rt.now := by
  obtain ⟨r, hr⟩ := subtreeSeekEquilibrium_total M fuel n rt.map (sameTree_wellFormed hsame hwf)
    (by rw [hsame.1]; exact hn) (by rw [hsame.1]; exact hfuel)
  obtain ⟨m, hm, hd⟩ := hdrag
  have hfalse : r.2 = false := subtreeSeekEquilibrium_dragged M fuel n rt.map r hr m
    (sameTree_inSubtree hsame hm) (by rw [(hsame.2.2 m).2.2]; exact hd)
  have hk := subtreeSeekEquilibrium_coreKept M fuel n rt.map r hr
  have hstop : (r.1.node n).stopSubtreeMoving = false := by
    rw [hk.stopSubtreeMoving n]; exact hflag
  unfold animationLoop
  rw [hr, Option.some_bind]
  simp only [hfalse, Bool.false_eq_true, false_and, if_false, hstop, or_self]
  refine ⟨_, rfl, ?_, ?_, rfl, rfl, rfl⟩
  · simp only [setTimeout]
    split_ifs
    · exact sameTree_trans (sameTree_trans hsame (sameTree_of_coreKept hk))
        (sameTree_recalculateBoundingBox r.1).1
    · exact sameTree_trans hsame (sameTree_of_coreKept hk)
  · intro m
    simp only [setTimeout]
    split_ifs
    · rw [(sameTree_recalculateBoundingBox r.1).2 m, hk.stopSubtreeMoving m]
    · rw [hk.stopSubtreeMoving m]

theorem ticks_reschedule (M : Builtins α) (fuel n : Nat) (s0 : NodeMap α)
    (hwf : WellFormed s0) (hn : n < s0.nodes.length) (hfuel : s0.nodes.length ≤ fuel + n)
    (hdrag : ∃ m, InSubtree s0 n m ∧ (s0.node m).dragging = true) :
    ∀ (k : Nat) (rt : Runtime α), SameTree s0 rt.map →
      (rt.map.node n).stopSubtreeMoving = false →
      ∃ rt', ticks M fuel n k rt = some rt' ∧ SameTree s0 rt'.map ∧
        (∀ m, (rt'.map.node m).stopSubtreeMoving = (rt.map.node m).stopSubtreeMoving)
  | 0, rt, hsame, _ => ⟨rt, rfl, hsame, fun _ => rfl⟩
  | k + 1, rt, hsame, hflag => by
    obtain ⟨rt1, h1, hs1, hf1, _⟩ :=
      animationLoop_reschedules M fuel n s0 rt hwf hn hfuel hdrag hsame hflag
    obtain ⟨rt2, h2, hs2, hf2⟩ := ticks_reschedule M fuel n s0 hwf hn hfuel hdrag k rt1 hs1
      (by rw [hf1 n]; exact hflag)
    exact ⟨rt2, by simp [ticks, h1, h2], hs2, fun m => (hf2 m).trans (hf1 m)⟩

theorem stabilityTimeoutCallback_sets_root (s0 : NodeMap α) (rt : Runtime α)
    (n root : Nat) (hroot : s0.rootNode = some root) (hr : root < s0.nodes.length)
    (hsame : SameTree s0 rt.map) :
    ∃ rt', stabilityTimeoutCallback rt n = some rt' ∧ SameTree s0 rt'.map ∧
      (rt'.map.node root).stopSubtreeMoving = true ∧
      (∀ m, m ≠ root →
        (rt'.map.node m).stopSubtreeMoving = (rt.map.node m).stopSubtreeMoving) ∧
      rt'.timers = rt.timers ∧ rt'.nextTimerId = rt.nextTimerId ∧ rt'.now = rt.now := by
  unfold stabilityTimeoutCallback
  rw [hsame.2.1, hroot]
  refine ⟨_, rfl, ?_, ?_, ?_, rfl, rfl, rfl⟩
  · exact sameTree_trans hsame (sameTree_setNode rt.map root _ (by rfl))
  · simp only [finalizeConnectors]
    rw [node_setNode_self _ root _ (by rw [hsame.1]; exact hr)]
  · intro m hm
    simp only [finalizeConnectors]
    rw [node_setNode_ne _ root m _ hm]

theorem animateToStaticPosition_starts (M : Builtins α) (fuel n : Nat) (s0 : NodeMap α)
    (rt : Runtime α) (hwf : WellFormed s0) (hn : n < s0.nodes.length)
    (hfuel : s0.nodes.length ≤ fuel + n)
    (hdrag : ∃ m, InSubtree s0 n m ∧ (s0.node m).dragging = true)
    (hsame : SameTree s0 rt.map) :
    ∃ rt', animateToStaticPosition M fuel rt n = some rt' ∧ SameTree s0 rt'.map ∧
      (rt'.map.node n).stopSubtreeMoving = false ∧
      { id := rt.nextTimerId, due := rt.now + MOVEMENT_TIMEOUT * 1000,
        callback := Callback.stabilityExpired n } ∈ rt'.timers := by
  unfold animateToStaticPosition
  dsimp only
  have hlen : n < rt.map.nodes.length := by rw [hsame.1]; exact hn
  obtain ⟨rt', h1, h2, h3, h4, _⟩ := animationLoop_reschedules M fuel n s0
    { (setTimeout { clearTimeout rt (rt.map.node n).stabilityTimeout with
          map := (clearTimeout rt (rt.map.node n).stabilityTimeout).map.setNode n
            { (clearTimeout rt (rt.map.node n).stabilityTimeout).map.node n with
              stopSubtreeMoving := false } }
        (Callback.stabilityExpired n) (MOVEMENT_TIMEOUT * 1000)).1 with
      map := (setTimeout { clearTimeout rt (rt.map.node n).stabilityTimeout with
          map := (clearTimeout rt (rt.map.node n).stabilityTimeout).map.setNode n
            { (clearTimeout rt (rt.map.node n).stabilityTimeout).map.node n with
              stopSubtreeMoving := false } }
        (Callback.stabilityExpired n) (MOVEMENT_TIMEOUT * 1000)).1.map.setNode n
          { (setTimeout { clearTimeout rt (rt.map.node n).stabilityTimeout with
              map := (clearTimeout rt (rt.map.node n).stabilityTimeout).map.setNode n
                { (clearTimeout rt (rt.map.node n).stabilityTimeout).map.node n with
                  stopSubtreeMoving := false } }
            (Callback.stabilityExpired n) (MOVEMENT_TIMEOUT * 1000)).1.map.node n with
            stabilityTimeout := (setTimeout
              { clearTimeout rt (rt.map.node n).stabilityTimeout with
                map := (clearTimeout rt (rt.map.node n).stabilityTimeout).map.setNode n
                  { (clearTimeout rt (rt.map.node n).stabilityTimeout).map.node n with
                    stopSubtreeMoving := false } }
              (Callback.stabilityExpired n) (MOVEMENT_TIMEOUT * 1000)).2 } }
    hwf hn hfuel hdrag
    (by
      simp only [setTimeout, clearTimeout]
      exact sameTree_trans (sameTree_trans hsame (sameTree_setNode rt.map n _ (by rfl)))
        (sameTree_setNode _ n _ (by rfl)))
    (by
      simp only [setTimeout, clearTimeout]
      rw [node_setNode_self _ n _ (by rw [length_setNode]; exact hlen),
        node_setNode_self _ n _ hlen])
  refine ⟨rt', h1, h2, ?_, ?_⟩
  · rw [h3 n]
    simp only [setTimeout, clearTimeout]
    rw [node_setNode_self _ n _ (by rw [length_setNode]; exact hlen),
      node_setNode_self _ n _ hlen]
  · rw [h4]
    simp [setTimeout, clearTimeout]

/-- A tick of the loop of a node whose flag `stopSubtreeMoving` is set takes the
terminal branch: no timer is added. -/
theorem animationLoop_terminal_of_flag (M : Builtins α) (fuel n : Nat) (rt rt' : Runtime α)
    (hflag : (rt.map.node n).stopSubtreeMoving = true)
    (h : animationLoop M fuel rt n = some rt') : rt'.timers = rt.timers := by
  unfold animationLoop at h
  simp only [Option.bind_eq_some] at h
  obtain ⟨r, hr, h2⟩ := h
  have hk := subtreeSeekEquilibrium_coreKept M fuel n rt.map r hr
  have hstop : (r.1.node n).stopSubtreeMoving = true := by
    rw [hk.stopSubtreeMoving n]; exact hflag
  have hstop' : ((if r.2 = true ∧ (r.1.node n).parent = none ∧ r.1.dragActiveOnMap = true
      then { r.1 with dragActiveOnMap := false } else r.1).node n).stopSubtreeMoving = true := by
    split_ifs
    · exact hstop
    · exact hstop
  rw [if_pos (Or.inr hstop')] at h2
  split_ifs at h2 <;> simp only [Option.some.injEq] at h2 <;> rw [← h2] <;> rfl

end Timeout

/-- C1, evaluated where it fails. In `draggedGrandchildMap` the node `N` (node 1) is not
the root and the child `C` of `N` is held in a drag, so the subtree of `N` never reaches
stability. `animateToStaticPosition` is called on `N`: it arms the timeout of `N`, due
after 4000 ms, and the loop of `N` ticks any number `k` of times. Then the timeout
callback of `N` fires: it sets `stopSubtreeMoving` on the root (node 0) and leaves the
flag of `N` false, so the next tick of the loop of `N` does not take the terminal
branch: it schedules a further tick. -/
theorem timeout_leaves_non_root_loop_running (k : Nat) :
    ∃ rt1 rt2 rt3 rt4 : Runtime ℝ,
      animateToStaticPosition realBuiltins 3 draggedRuntime 1 = some rt1 ∧
      { id := 1, due := 4000, callback := Callback.stabilityExpired 1 } ∈ rt1.timers ∧
      ticks realBuiltins 3 1 k rt1 = some rt2 ∧
      stabilityTimeoutCallback rt2 1 = some rt3 ∧
      (rt3.map.node 0).stopSubtreeMoving = true ∧
      (rt3.map.node 1).stopSubtreeMoving = false ∧
      animationLoop realBuiltins 3 rt3 1 = some rt4 ∧
      rt4.timers = rt3.timers ++
        [{ id := rt3.nextTimerId, due := rt3.now + 10, callback := Callback.nextTick 1 }] := by
  have hwf := wellFormed_draggedGrandchildMap
  have hn : 1 < (draggedGrandchildMap : NodeMap ℝ).nodes.length := by
    simp [draggedGrandchildMap]
  have hfuel : (draggedGrandchildMap : NodeMap ℝ).nodes.length ≤ 3 + 1 := by
    simp [draggedGrandchildMap]
  have hdrag : ∃ m, InSubtree (draggedGrandchildMap : NodeMap ℝ) 1 m ∧
      ((draggedGrandchildMap : NodeMap ℝ).node m).dragging = true :=
    ⟨2, InSubtree.child (c := 2) (by simp [draggedGrandchildMap, NodeMap.node])
      (InSubtree.self 2), by simp [draggedGrandchildMap, NodeMap.node]⟩
  obtain ⟨rt1, h1, hs1, hf1, ht1⟩ := animateToStaticPosition_starts realBuiltins 3 1
    (draggedGrandchildMap : NodeMap ℝ) draggedRuntime hwf hn hfuel hdrag
    (sameTree_refl _)
  obtain ⟨rt2, h2, hs2, hf2⟩ := ticks_reschedule realBuiltins 3 1
    (draggedGrandchildMap : NodeMap ℝ) hwf hn hfuel hdrag k rt1 hs1 hf1
  obtain ⟨rt3, h3, hs3, hroot3, hf3, _⟩ := stabilityTimeoutCallback_sets_root
    (draggedGrandchildMap : NodeMap ℝ) rt2 1 0 rfl (by simp [draggedGrandchildMap]) hs2
  have hflag3 : (rt3.map.node 1).stopSubtreeMoving = false := by
    rw [hf3 1 (by decide), hf2 1]; exact hf1
  obtain ⟨rt4, h4, _, _, ht4, _⟩ := animationLoop_reschedules realBuiltins 3 1
    (draggedGrandchildMap : NodeMap ℝ) rt3 hwf hn hfuel hdrag hs3 hflag3
  exact ⟨rt1, rt2, rt3, rt4, h1, by simpa [draggedRuntime, MOVEMENT_TIMEOUT] using ht1,
    h2, h3, hroot3, hflag3, h4, ht4⟩

/-! ### What the bounding box scan records (C13) -/

section Gap

variable {α : Type} [LinearOrderedField α]

theorem gapStep_eq (bound gap pos size : α) :
    gapStep bound gap pos size =
      if protrudes bound pos size ∧ |pos| > gap then |pos| else gap := by
  unfold gapStep protrudes
  by_cases h1 : pos - size / 2 < 0 <;> by_cases h2 : pos + size / 2 > bound <;>
    by_cases h3 : |pos| > gap <;> simp [h1, h2, h3]

/-- The scan of one axis returns the greatest `|pos|` among the start value and the
nodes that protrude on that axis. -/
theorem foldl_gapStep_max (bound : α) (px sz : Node α → α) :
    ∀ (nodes : List (Node α)) (gap : α),
      gap ≤ nodes.foldl (fun gap nd => gapStep bound gap (px nd) (sz nd)) gap ∧
      (∀ nd, nd ∈ nodes → protrudes bound (px nd) (sz nd) →
        |px nd| ≤ nodes.foldl (fun gap nd => gapStep bound gap (px nd) (sz nd)) gap) ∧
      (nodes.foldl (fun gap nd => gapStep bound gap (px nd) (sz nd)) gap = gap ∨
        ∃ nd, nd ∈ nodes ∧ protrudes bound (px nd) (sz nd) ∧
          |px nd| = nodes.foldl (fun gap nd => gapStep bound gap (px nd) (sz nd)) gap)
  | [], gap => ⟨le_rfl, fun _ h => absurd h (List.not_mem_nil _), Or.inl rfl⟩
  | nd :: nodes, gap => by
    obtain ⟨h1, h2, h3⟩ := foldl_gapStep_max bound px sz nodes
      (gapStep bound gap (px nd) (sz nd))
    simp only [List.foldl_cons]
    have hstep : gap ≤ gapStep bound gap (px nd) (sz nd) := by
      rw [gapStep_eq]
      split_ifs with h
      · exact le_of_lt h.2
      · exact le_rfl
    refine ⟨le_trans hstep h1, ?_, ?_⟩
    · intro nd' hnd' hp
      rcases List.mem_cons.mp hnd' with rfl | hmem
      · refine le_trans ?_ h1
        rw [gapStep_eq]
        split_ifs with h
        · exact le_rfl
        · exact not_lt.mp (fun hlt => h ⟨hp, hlt⟩)
      · exact h2 nd' hmem hp
    · rcases h3 with h3 | ⟨nd', hmem, hp, he⟩
      · rw [h3, gapStep_eq]
        split_ifs with h
        · exact Or.inr ⟨nd, List.mem_cons_self _ _, h.1, rfl⟩
        · exact Or.inl rfl
      · exact Or.inr ⟨nd', List.mem_cons_of_mem _ hmem, hp, he⟩

theorem recalculateBoundingBox_eq (s : NodeMap α) :
    recalculateBoundingBox s =
      if recordedXgap s ≠ 0 ∨ recordedYgap s ≠ 0 then
        { s with mapAreaWidth := s.mapAreaWidth + recordedXgap s,
                 mapAreaHeight := s.mapAreaHeight + recordedYgap s,
                 canvasWidth := s.mapAreaWidth + recordedXgap s,
                 canvasHeight := s.mapAreaHeight + recordedYgap s }
      else s := rfl

theorem recalculateBoundingBox_size (s : NodeMap α) :
    (recalculateBoundingBox s).mapAreaWidth = s.mapAreaWidth + recordedXgap s ∧
    (recalculateBoundingBox s).mapAreaHeight = s.mapAreaHeight + recordedYgap s := by
  rw [recalculateBoundingBox_eq]
  split_ifs with h
  · exact ⟨rfl, rfl⟩
  · rw [not_or, not_not, not_not] at h
    rw [h.1, h.2]
    simp

/-- C13, amended. In the bounding box recalculation of a tick the amount recorded per
axis is the greatest absolute coordinate `|x|`, resp. `|y|`, of the centres of the nodes
whose extent `x ± elementWidth/2`, resp. `y ± elementHeight/2`, lies partly outside
`[0, width]`, resp. `[0, height]` (0 when no node protrudes on that axis): it bounds
`|x|` of every protruding node and is 0 or `|x|` of one of them. `mapArea.width` grows by
exactly the amount recorded for x and `mapArea.height` by exactly the amount recorded for
y. -/
theorem boundingBox_records_max_abs (s : NodeMap α) :
    ((∀ nd, nd ∈ s.nodes → protrudes s.mapAreaWidth nd.x nd.elementWidth →
        |nd.x| ≤ recordedXgap s) ∧
      (recordedXgap s = 0 ∨ ∃ nd, nd ∈ s.nodes ∧
        protrudes s.mapAreaWidth nd.x nd.elementWidth ∧ |nd.x| = recordedXgap s)) ∧
    ((∀ nd, nd ∈ s.nodes → protrudes s.mapAreaHeight nd.y nd.elementHeight →
        |nd.y| ≤ recordedYgap s) ∧
      (recordedYgap s = 0 ∨ ∃ nd, nd ∈ s.nodes ∧
        protrudes s.mapAreaHeight nd.y nd.elementHeight ∧ |nd.y| = recordedYgap s)) ∧
    (recalculateBoundingBox s).mapAreaWidth = s.mapAreaWidth + recordedXgap s ∧
    (recalculateBoundingBox s).mapAreaHeight = s.mapAreaHeight + recordedYgap s := by
  obtain ⟨_, hx2, hx3⟩ := foldl_gapStep_max s.mapAreaWidth (fun nd => nd.x)
    (fun nd => nd.elementWidth) s.nodes 0
  obtain ⟨_, hy2, hy3⟩ := foldl_gapStep_max s.mapAreaHeight (fun nd => nd.y)
    (fun nd => nd.elementHeight) s.nodes 0
  exact ⟨⟨hx2, hx3⟩, ⟨hy2, hy3⟩, recalculateBoundingBox_size s⟩

end Gap

theorem recordedXgap_offscreenMap : recordedXgap (offscreenMap : NodeMap ℝ) = 210 := by
  simp only [recordedXgap, offscreenMap, List.foldl_cons, List.foldl_nil, gapStep_eq,
    protrudes]
  norm_num [default]

theorem recordedYgap_offscreenMap : recordedYgap (offscreenMap : NodeMap ℝ) = 0 := by
  simp only [recordedYgap, offscreenMap, List.foldl_cons, List.foldl_nil, gapStep_eq,
    protrudes]
  norm_num [default]

/-- C13, as stated, fails: the one node of `offscreenMap` lies at `x = 210` with size 0
in a map of width 200, so its horizontal protrusion magnitude is 10 (and its vertical
one 0); the scan records `Xgap = |x| = 210` and the recalculation makes
`mapArea.width = 410`, a growth by 210, not by 10. -/
theorem boundingBox_grows_by_abs_coordinate :
    protrudes (200 : ℝ) 210 0 ∧
    protrusionMagnitude (200 : ℝ) 210 0 = 10 ∧
    recordedXgap (offscreenMap : NodeMap ℝ) = 210 ∧
    (recalculateBoundingBox (offscreenMap : NodeMap ℝ)).mapAreaWidth = 410 ∧
    (recalculateBoundingBox (offscreenMap : NodeMap ℝ)).mapAreaWidth ≠
      (offscreenMap : NodeMap ℝ).mapAreaWidth + protrusionMagnitude (200 : ℝ) 210 0 := by
  have hw : (offscreenMap : NodeMap ℝ).mapAreaWidth = 200 := rfl
  have hp : protrusionMagnitude (200 : ℝ) 210 0 = 10 := by
    unfold protrusionMagnitude
    norm_num
  have hsize := (recalculateBoundingBox_size (offscreenMap : NodeMap ℝ)).1
  rw [recordedXgap_offscreenMap, hw] at hsize
  refine ⟨Or.inr (by norm_num), hp, recordedXgap_offscreenMap, ?_, ?_⟩
  · rw [hsize]; norm_num
  · rw [hsize, hw, hp]; norm_num

/-- C13 amended, at a concrete map: in `offscreenMap` the node at `x = 210` protrudes
past the width 200, so the amount recorded for x is at least `|210|`; the map grows to
width `200 + Xgap` and height `100 + Ygap`. -/
theorem boundingBox_records_max_abs_witness :
    |(210 : ℝ)| ≤ recordedXgap (offscreenMap : NodeMap ℝ) ∧
    (recalculateBoundingBox (offscreenMap : NodeMap ℝ)).mapAreaWidth =
      200 + recordedXgap (offscreenMap : NodeMap ℝ) ∧
    (recalculateBoundingBox (offscreenMap : NodeMap ℝ)).mapAreaHeight =
      100 + recordedYgap (offscreenMap : NodeMap ℝ) := by
  obtain ⟨⟨hx, _⟩, _, hw, hh⟩ := boundingBox_records_max_abs (offscreenMap : NodeMap ℝ)
  refine ⟨?_, hw, hh⟩
  exact hx { (default : Node ℝ) with hasPosition := true, x := 210, y := 50 }
    (by simp [offscreenMap]) (Or.inr (by simp [offscreenMap, default]; norm_num))

/-! ### Divisions of the repulsion (C14) -/

theorem repulsionDivisors_real (self other : Point ℝ) (dampFactor : Option ℝ) :
    repulsionDivisors realBuiltins self other dampFactor =
      if euclid self other < 400 then
        (if other.x - self.x = 0 then [2] else [other.x - self.x, |other.x - self.x|]) ++
          [euclid self other * euclid self other * (orOne dampFactor * orOne dampFactor)]
      else [] := by
  simp only [repulsionDivisors, realBuiltins, euclid_eq,
    abs_of_nonneg (euclid_nonneg self other)]

/-- Between two distinct points every division of the repulsion has a non-zero divisor. -/
theorem repulsionDivisors_ne_zero (self other : Point ℝ) (dampFactor : Option ℝ)
    (hpos : 0 < euclid self other) :
    ∀ d, d ∈ repulsionDivisors realBuiltins self other dampFactor → d ≠ 0 := by
  intro d hd
  rw [repulsionDivisors_real] at hd
  have hdamp := orOne_ne_zero dampFactor
  split_ifs at hd with h1 h2
  · simp only [List.cons_append, List.nil_append, List.mem_cons, List.mem_singleton,
      List.not_mem_nil, or_false] at hd
    rcases hd with rfl | rfl
    · norm_num
    · exact mul_ne_zero (mul_ne_zero hpos.ne' hpos.ne') (mul_ne_zero hdamp hdamp)
  · simp only [List.cons_append, List.nil_append, List.mem_cons, List.mem_singleton,
      List.not_mem_nil, or_false] at hd
    rcases hd with rfl | rfl | rfl
    · exact h2
    · exact abs_ne_zero.mpr h2
    · exact mul_ne_zero (mul_ne_zero hpos.ne' hpos.ne') (mul_ne_zero hdamp hdamp)
  · exact absurd hd (List.not_mem_nil d)

/-- C14, evaluated where it fails. When the subject and the other point coincide, at any
point `p` and with any damp factor, the distance is 0 and lies below the cutoff; the
branch `x === 0` avoids the divisions `y / x` and `x / Math.abs (x)`, but the function
goes on to evaluate `NODES_REPULSIVE_FACTOR / (distance * distance * (dampFactor *
dampFactor))`: the divisors it meets are 2 (of `Math.PI / 2`) and 0. -/
theorem repulsion_divides_by_zero_when_coincident (p : Point ℝ) (dampFactor : Option ℝ) :
    euclid p p = 0 ∧
    repulsionDivisors realBuiltins p p dampFactor = [2, 0] ∧
    (0 : ℝ) ∈ repulsionDivisors realBuiltins p p dampFactor := by
  have h : repulsionDivisors realBuiltins p p dampFactor = [2, 0] := by
    rw [repulsionDivisors_real, euclid_self]
    simp
  exact ⟨euclid_self p, h, by rw [h]; simp⟩

/-! ### The depth factor of the attraction (C15) -/

theorem calculateForceVector_farChildMap (d : ℝ) (hd : d ≠ 0) :
    calculateForceVector realBuiltins (farChildMap d) 1 = ⟨-(3 / 400 * d ^ 4), 0⟩ := by
  have e : euclid ⟨500, 50⟩ ⟨100, 50⟩ = 400 :=
    euclid_of_sq _ _ 400 (by norm_num) (by norm_num)
  have h4 : d ^ 4 ≠ 0 := pow_ne_zero 4 hd
  simp [calculateForceVector, attractionPart, repulsionPart, farChildMap, NodeMap.node,
    Node.point, attraction_real, repulsion_real, e, ForceVector.add, orOne, h4,
    default_children]
  norm_num
  ring

theorem magnitude_farChildMap (d : ℝ) (hd : d ≠ 0) :
    magnitude (calculateForceVector realBuiltins (farChildMap d) 1) = 3 / 400 * d ^ 4 := by
  have hnn : (0 : ℝ) ≤ 3 / 400 * d ^ 4 := by positivity
  rw [calculateForceVector_farChildMap d hd]
  unfold magnitude
  have h : (-(3 / 400 * d ^ 4)) ^ 2 + (0 : ℝ) ^ 2 = (3 / 400 * d ^ 4) ^ 2 := by ring
  rw [h]
  exact Real.sqrt_sq hnn

/-- C15: the code does the opposite of what the claim (and the comment at the call,
"Powerful damping if we're deeply nested") says. In `farChildMap d` the subject (node 1,
depth level `d`) stands at `(500, 50)`, 400 away from its parent (node 0) at `(100, 50)`,
to which its only line leads and which is not one of its children; the repulsion is cut
off at that distance and the subject is not the selected node, so `calculateForceVector`
returns the attraction of that edge alone. It is `(-3/400, 0)` at depth level 1 and
`(-3/25, 0)`, sixteen times as much, at depth level 2; and for all whole depth levels
`d1 = k + 1 >= 1` and `d2 = d1 + (j + 1) > d1` the magnitude at `d2` is not
`<=` the magnitude at `d1`. -/
theorem calculateForceVector_pulls_deeper_node_harder (k j : ℕ) :
    (∀ d : ℝ, (farChildMap d).lines = [⟨1, 0⟩] ∧
      0 ∉ ((farChildMap d).node 1).children ∧
      ((farChildMap d).node 1).depthLevel = d ∧
      ((farChildMap d).node 1).point = ⟨500, 50⟩ ∧
      ((farChildMap d).node 0).point = ⟨100, 50⟩) ∧
    euclid ⟨500, 50⟩ ⟨100, 50⟩ = 400 ∧
    calculateForceVector realBuiltins (farChildMap 1) 1 = ⟨-(3 / 400), 0⟩ ∧
    calculateForceVector realBuiltins (farChildMap 2) 1 = ⟨-(3 / 25), 0⟩ ∧
    ¬ (magnitude (calculateForceVector realBuiltins
          (farChildMap ((k : ℝ) + 1 + ((j : ℝ) + 1))) 1) ≤
        magnitude (calculateForceVector realBuiltins (farChildMap ((k : ℝ) + 1)) 1)) := by
  have hk : (0 : ℝ) ≤ k := Nat.cast_nonneg k
  have hj : (0 : ℝ) ≤ j := Nat.cast_nonneg j
  have h1 : (0 : ℝ) < (k : ℝ) + 1 := by linarith
  have h2 : (k : ℝ) + 1 < (k : ℝ) + 1 + ((j : ℝ) + 1) := by linarith
  have hpow : ((k : ℝ) + 1) ^ 4 < ((k : ℝ) + 1 + ((j : ℝ) + 1)) ^ 4 :=
    pow_lt_pow_left₀ h2 h1.le (by norm_num)
  refine ⟨fun d => ⟨rfl, by simp [farChildMap, NodeMap.node, default_children], rfl, rfl,
    rfl⟩, euclid_of_sq _ _ 400 (by norm_num) (by norm_num), ?_, ?_, ?_⟩
  · rw [calculateForceVector_farChildMap 1 (by norm_num)]
    norm_num
  · rw [calculateForceVector_farChildMap 2 (by norm_num)]
    norm_num
  · rw [magnitude_farChildMap _ (h1.trans h2).ne', magnitude_farChildMap _ h1.ne']
    intro hle
    linarith

/-! ### The placement step (C12) -/

section Placement

variable {α : Type} [LinearOrderedField α]

theorem eachIndexed_inv {σ : Type} (P : σ → Prop) (body : Nat → Nat → σ → Option σ) :
    ∀ (cs : List Nat), (∀ i c st st', c ∈ cs → P st → body i c st = some st' → P st') →
      ∀ i s s', P s → eachIndexed body cs i s = some s' → P s'
  | [], _, _, s, s', hP, h => by
    simp only [eachIndexed, Option.some.injEq] at h
    exact h ▸ hP
  | c :: cs, hbody, i, s, s', hP, h => by
    simp only [eachIndexed, Option.bind_eq_some] at h
    obtain ⟨st, h1, h2⟩ := h
    exact eachIndexed_inv P body cs
      (fun i c st st' hc => hbody i c st st' (List.mem_cons_of_mem _ hc)) (i + 1) st s'
      (hbody i c s st (List.mem_cons_self c cs) hP h1) h2

theorem laidOnly_refl (s : NodeMap α) : LaidOnly s s :=
  ⟨ForceKept.fk_refl s, fun _ => rfl⟩

theorem laidOnly_trans {s t u : NodeMap α} (h1 : LaidOnly s t) (h2 : LaidOnly t u) :
    LaidOnly s u :=
  ⟨h1.1.fk_trans h2.1, fun m => (h2.2 m).trans (h1.2 m)⟩

theorem laidOnly_setNode (s : NodeMap α) (n : Nat) (nd : Node α)
    (h : nd.core = (s.node n).core) (hf : nd.forceState = (s.node n).forceState)
    (hp : nd.hasPosition = (s.node n).hasPosition) : LaidOnly s (s.setNode n nd) :=
  ⟨forceKept_setNode s n nd h hf, proj_setNode Node.hasPosition s n nd hp⟩

/-- The radial placement of `n` changes only coordinates, and only in the subtree
of `n`. -/
theorem layNodeAroundParent_laidOnly (M : Builtins α) :
    ∀ (fuel n index : Nat) (s s' : NodeMap α),
      layNodeAroundParent M fuel n index s = some s' →
      LaidOnly s s' ∧ ∀ m, ¬ InSubtree s n m → s'.node m = s.node m
  | 0, _, _, _, _, h => by simp [layNodeAroundParent] at h
  | fuel + 1, n, index, s, s', h => by
    rw [layNodeAroundParent] at h
    cases hp : (s.node n).parent with
    | none => simp [hp] at h
    | some p =>
      simp only [hp, Option.bind_eq_some, Option.some.injEq] at h
      obtain ⟨s2, h2, rfl⟩ := h
      have k1 : LaidOnly s (placeRadially M s n index p) :=
        laidOnly_setNode s n _ (by rfl) (by rfl) (by rfl)
      have o1 : ∀ m, ¬ InSubtree s n m → (placeRadially M s n index p).node m = s.node m := by
        intro m hm
        exact node_setNode_ne s n m _ (fun e => hm (by rw [e]; exact InSubtree.self n))
      have hch : ((placeRadially M s n index p).node n).children = (s.node n).children :=
        k1.1.coreKept.children n
      have hloop := eachIndexed_inv
        (fun st => LaidOnly s st ∧ ∀ m, ¬ InSubtree s n m → st.node m = s.node m)
        (fun childIndex c st => layNodeAroundParent M fuel c childIndex st)
        ((placeRadially M s n index p).node n).children
        (by
          intro i c st st' hc hP hb
          obtain ⟨ih1, ih2⟩ := layNodeAroundParent_laidOnly M fuel c i st st' hb
          refine ⟨laidOnly_trans hP.1 ih1, fun m hm => ?_⟩
          rw [ih2 m (fun hsub => hm (InSubtree.child (by rw [← hch]; exact hc)
            (hP.1.1.coreKept.symm_inSubtree hsub))), hP.2 m hm])
        0 _ s2 ⟨k1, o1⟩ h2
      refine ⟨laidOnly_trans hloop.1 (laidOnly_setNode s2 n _ (by rfl) (by rfl) (by rfl)),
        fun m hm => ?_⟩
      unfold takePosition
      rw [node_setNode_ne s2 n m _ (fun e => hm (by rw [e]; exact InSubtree.self n)), hloop.2 m hm]

theorem inSubtree_bounds (s : NodeMap α) (hwf : WellFormed s) {n m : Nat}
    (h : InSubtree s n m) : n < s.nodes.length → n ≤ m ∧ m < s.nodes.length := by
  induction h with
  | self n => exact fun hn => ⟨le_rfl, hn⟩
  | child hc _ ih =>
    intro hn
    obtain ⟨h1, h2, _⟩ := hwf _ hn _ hc
    obtain ⟨h3, h4⟩ := ih h2
    exact ⟨by omega, h4⟩

theorem inSubtree_last (s : NodeMap α) {n m : Nat} (h : InSubtree s n m) :
    m = n ∨ ∃ d, InSubtree s n d ∧ m ∈ (s.node d).children := by
  induction h with
  | self n => exact Or.inl rfl
  | @child n c m hc hs ih =>
    rcases ih with rfl | ⟨d, hd, hm⟩
    · exact Or.inr ⟨n, InSubtree.self n, hc⟩
    · exact Or.inr ⟨d, InSubtree.child hc hd, hm⟩

/-- In a well-formed map a child of `p` lies in the subtree of no other child of `p`,
and `p` lies in the subtree of none of its children. -/
theorem not_inSubtree_sibling (s : NodeMap α) (hwf : WellFormed s) (p c c' : Nat)
    (hp : p < s.nodes.length) (hc : c ∈ (s.node p).children)
    (hc' : c' ∈ (s.node p).children) (hne : c ≠ c') :
    ¬ InSubtree s c' c ∧ ¬ InSubtree s c' p := by
  obtain ⟨h1, h2, h3⟩ := hwf p hp c hc
  obtain ⟨h1', h2', _⟩ := hwf p hp c' hc'
  constructor
  · intro hsub
    rcases inSubtree_last s hsub with e | ⟨d, hd, hm⟩
    · exact hne e
    · obtain ⟨hd1, hd2⟩ := inSubtree_bounds s hwf hd h2'
      obtain ⟨_, _, hpar⟩ := hwf d hd2 c hm
      rw [h3] at hpar
      have : p = d := Option.some.inj hpar
      omega
  · intro hsub
    have := (inSubtree_bounds s hwf hsub h2').1
    omega

theorem layChildren_eq (M : Builtins α) (fuel : Nat) (s : NodeMap α) (n : Nat) :
    layChildren M fuel s n = eachIndexed (layChild M fuel) (s.node n).children 0 s := rfl

/-- The loop body on a child without position: the child is laid with the given index
and is granted `hasPosition` exactly when its parent is marked stable. -/
theorem layChild_spec (M : Builtins α) (fuel i c p : Nat) (st : NodeMap α)
    (hwf : WellFormed st) (hp : p < st.nodes.length) (hc : c ∈ (st.node p).children)
    (hfuel : st.nodes.length ≤ fuel + c) (hpos : (st.node c).hasPosition = false) :
    ∃ st', layChild M fuel i c st = some st' ∧ ForceKept st st' ∧
      (∀ m, ¬ InSubtree st c m → st'.node m = st.node m) ∧
      (st'.node c).hasPosition = (st.node p).isStable ∧
      (st'.node c).x = radialX M st p c i ∧ (st'.node c).y = radialY M st p c i := by
  obtain ⟨hpc, hclen, hcp⟩ := hwf p hp c hc
  obtain ⟨st1, h1, _, hx, hy⟩ := layNodeAroundParent_spec M fuel c i p st hwf hcp hfuel
  obtain ⟨k1, o1⟩ := layNodeAroundParent_laidOnly M fuel c i st st1 h1
  have hcp1 : (st1.node c).parent = some p := by rw [k1.1.coreKept.parent c]; exact hcp
  have hst1 : (st1.node p).isStable = (st.node p).isStable :=
    congrArg (fun f => f.1) (k1.1.force p)
  have hpos1 : (st1.node c).hasPosition = false := by rw [k1.2 c]; exact hpos
  have hclen1 : c < st1.nodes.length := by rw [k1.1.coreKept.length]; exact hclen
  unfold layChild
  rw [if_pos hpos, h1]
  simp only [Option.some_bind, hcp1]
  by_cases hst : (st1.node p).isStable = true
  · rw [if_pos hst]
    refine ⟨_, rfl, k1.1.fk_trans
      (forceKept_setNode st1 c _ (by simp [Node.core, hcp1]) (by rfl)), ?_, ?_, ?_, ?_⟩
    · intro m hm
      rw [node_setNode_ne st1 c m _ (fun e => hm (by rw [e]; exact InSubtree.self c)), o1 m hm]
    · rw [node_setNode_self st1 c _ hclen1, ← hst1, hst]
    · rw [node_setNode_self st1 c _ hclen1]
      exact hx
    · rw [node_setNode_self st1 c _ hclen1]
      exact hy
  · rw [if_neg hst]
    refine ⟨st1, rfl, k1.1, o1, ?_, hx, hy⟩
    rw [hpos1, ← hst1]
    simpa using hst

theorem layChildren_loop (M : Builtins α) (fuel n : Nat) (s : NodeMap α)
    (hwf : WellFormed s) (hn : n < s.nodes.length)
    (hfuel : s.nodes.length ≤ fuel + n + 1) :
    ∀ (cs : List Nat) (k : Nat) (st : NodeMap α),
      (∀ c, c ∈ cs → c ∈ (s.node n).children) → cs.Nodup → ForceKept s st →
      (∀ c, c ∈ cs → st.node c = s.node c) → st.node n = s.node n →
      ∃ s', eachIndexed (layChild M fuel) cs k st = some s' ∧ ForceKept s s' ∧
        (∀ m, (∀ c, c ∈ cs → ¬ InSubtree s c m) → s'.node m = st.node m) ∧
        ∀ j c, cs[j]? = some c →
          ((s.node c).hasPosition = false →
            (s'.node c).hasPosition = (s.node n).isStable ∧
            (s'.node c).x = radialX M s n c (k + j) ∧
            (s'.node c).y = radialY M s n c (k + j)) ∧
          ((s.node c).hasPosition = true → s'.node c = s.node c)
  | [], k, st, _, _, hk, _, _ =>
    ⟨st, rfl, hk, fun _ _ => rfl, fun j c hj => by simp at hj⟩
  | c :: rest, k, st, hsub, hnd, hk, hsame, hsn => by
    have hc := hsub c (List.mem_cons_self c rest)
    obtain ⟨hnotin, hndrest⟩ := List.nodup_cons.mp hnd
    have hsibling : ∀ c', c' ∈ rest → ¬ InSubtree s c' c := fun c' hc' =>
      (not_inSubtree_sibling s hwf n c c' hn hc (hsub c' (List.mem_cons_of_mem _ hc'))
        (fun e => hnotin (e ▸ hc'))).1
    have hstep : ∃ st1, layChild M fuel k c st = some st1 ∧ ForceKept s st1 ∧
        (∀ m, ¬ InSubtree s c m → st1.node m = st.node m) ∧
        ((s.node c).hasPosition = false →
          (st1.node c).hasPosition = (s.node n).isStable ∧
          (st1.node c).x = radialX M s n c k ∧ (st1.node c).y = radialY M s n c k) ∧
        ((s.node c).hasPosition = true → st1.node c = s.node c) := by
      by_cases hpos : (s.node c).hasPosition = false
      · have hwfst := hk.coreKept.wellFormed hwf
        obtain ⟨_, hclen, _⟩ := hwf n hn c hc
        obtain ⟨st1, h1, k1, o1, hp1, hx1, hy1⟩ := layChild_spec M fuel k c n st hwfst
          (by rw [hk.coreKept.length]; exact hn) (by rw [hsn]; exact hc)
          (by rw [hk.coreKept.length]; have := (hwf n hn c hc).1; omega)
          (by rw [hsame c (List.mem_cons_self c rest)]; exact hpos)
        refine ⟨st1, h1, hk.fk_trans k1,
          fun m hm => o1 m (fun h => hm (hk.coreKept.symm_inSubtree h)), ?_, ?_⟩
        · intro _
          refine ⟨by rw [hp1, hsn], ?_, ?_⟩
          · rw [hx1]
            simp only [radialX, hsn, hsame c (List.mem_cons_self c rest)]
          · rw [hy1]
            simp only [radialY, hsn, hsame c (List.mem_cons_self c rest)]
        · intro h
          rw [h] at hpos
          exact absurd hpos (by simp)
      · have hpos' : (st.node c).hasPosition ≠ false := by
          rw [hsame c (List.mem_cons_self c rest)]; exact hpos
        refine ⟨st, by unfold layChild; rw [if_neg hpos'], hk, fun _ _ => rfl, ?_, ?_⟩
        · intro h
          exact absurd h hpos
        · intro _
          exact hsame c (List.mem_cons_self c rest)
    obtain ⟨st1, h1, k1, o1, hfalse, htrue⟩ := hstep
    have hsame1 : ∀ c', c' ∈ rest → st1.node c' = s.node c' := by
      intro c' hc'
      have hne : c' ≠ c := fun e => hnotin (e ▸ hc')
      rw [o1 c' (not_inSubtree_sibling s hwf n c' c hn
        (hsub c' (List.mem_cons_of_mem _ hc')) hc hne).1]
      exact hsame c' (List.mem_cons_of_mem _ hc')
    have hsn1 : st1.node n = s.node n := by
      have hnp : ¬ InSubtree s c n := by
        intro hsubn
        have hb := (inSubtree_bounds s hwf hsubn (hwf n hn c hc).2.1).1
        have := (hwf n hn c hc).1
        omega
      rw [o1 n hnp, hsn]
    obtain ⟨s', h2, k2, o2, hel⟩ := layChildren_loop M fuel n s hwf hn hfuel rest (k + 1) st1
      (fun c' hc' => hsub c' (List.mem_cons_of_mem _ hc')) hndrest k1 hsame1 hsn1
    refine ⟨s', by simp [eachIndexed, h1, h2], k2, ?_, ?_⟩
    · intro m hm
      rw [o2 m (fun c' hc' => hm c' (List.mem_cons_of_mem _ hc')),
        o1 m (hm c (List.mem_cons_self c rest))]
    · intro j c' hj
      cases j with
      | zero =>
        simp only [List.getElem?_cons_zero, Option.some.injEq] at hj
        subst hj
        have hfinal : s'.node c = st1.node c := o2 c hsibling
        rw [hfinal]
        exact ⟨hfalse, htrue⟩
      | succ j =>
        simp only [List.getElem?_cons_succ] at hj
        have h := hel j c' hj
        have hidx : k + 1 + j = k + (j + 1) := by omega
        rw [hidx] at h
        exact h

/-- C12. In the placement step of a `subtreeSeekEquilibrium` pass on a node `n` of a
well-formed map (`layChildren`, the second step of the pass), every child `c` of `n`
that lacks a position is placed by `layNodeAroundParent` with its index `i` among the
children of `n` (it ends at the radial point of index `i`, displaced by ten times its
stored force), and it is granted `hasPosition = true` if and only if the `isStable` flag
of `n` is true at that moment; a child whose parent is not stable keeps `hasPosition =
false` after the placement step. A child that has a position is left as it is. -/
theorem layChildren_places_children (M : Builtins α) (s : NodeMap α) (fuel n : Nat)
    (hwf : WellFormed s) (hn : n < s.nodes.length)
    (hfuel : s.nodes.length ≤ fuel + n + 1) (hnodup : (s.node n).children.Nodup) :
    ∃ s', layChildren M fuel s n = some s' ∧
      (s'.node n).isStable = (s.node n).isStable ∧
      ∀ i c, (s.node n).children[i]? = some c →
        ((s.node c).hasPosition = false →
          ((s'.node c).hasPosition = true ↔ (s.node n).isStable = true) ∧
          ((s.node n).isStable = false → (s'.node c).hasPosition = false) ∧
          (s'.node c).x = radialX M s n c i ∧ (s'.node c).y = radialY M s n c i) ∧
        ((s.node c).hasPosition = true → s'.node c = s.node c) := by
  obtain ⟨s', h1, k1, _, hel⟩ := layChildren_loop M fuel n s hwf hn hfuel
    (s.node n).children 0 s (fun _ h => h) hnodup (ForceKept.fk_refl s) (fun _ _ => rfl) rfl
  refine ⟨s', by rw [layChildren_eq]; exact h1, congrArg (fun f => f.1) (k1.force n), ?_⟩
  intro i c hi
  obtain ⟨hfalse, htrue⟩ := hel i c hi
  rw [Nat.zero_add] at hfalse
  refine ⟨fun hpos => ?_, htrue⟩
  obtain ⟨hp, hx, hy⟩ := hfalse hpos
  exact ⟨by rw [hp], fun hns => by rw [hp, hns], hx, hy⟩

end Placement

theorem twoChildrenMap_children_nodup :
    ((twoChildrenMap : NodeMap ℝ).node 0).children.Nodup := by
  decide

/-- C12, at a concrete map: in `twoChildrenMap` the root is marked stable and its two
children lack a position; the placement step of a pass on the root returns and grants
both of them `hasPosition = true`. -/
theorem layChildren_places_children_witness :
    ∃ s', layChildren realBuiltins 2 (twoChildrenMap : NodeMap ℝ) 0 = some s' ∧
      (s'.node 1).hasPosition = true ∧ (s'.node 2).hasPosition = true := by
  obtain ⟨s', h1, _, hel⟩ := layChildren_places_children realBuiltins
    (twoChildrenMap : NodeMap ℝ) 2 0 wellFormed_twoChildrenMap
    (by simp [twoChildrenMap]) (by simp [twoChildrenMap]) twoChildrenMap_children_nodup
  exact ⟨s', h1, ((hel 0 1 rfl).1 rfl).1.mpr rfl, ((hel 1 2 rfl).1 rfl).1.mpr rfl⟩

/-! ### Stable without a position (C11) -/

theorem addNode_root :
    addNode realBuiltins 2 (createNodeMap (2 : ℝ) 200 100) none 0 ⟨0, 0, 0, 0⟩ =
      some rootAttached := by
  simp [addNode, newNode, createNodeMap, takePosition, NodeMap.node, NodeMap.setNode,
    rootAttached, thresholdTwoMap, rootAtCentre, default]
  norm_num

theorem addNode_child_begins :
    addNode realBuiltins 2 (rootAttached : Runtime ℝ) (some 0) 1 ⟨0, 0, 0, 0⟩ =
      animationLoop realBuiltins 2 childArmed 0 := by
  rfl

theorem layNodeAroundParent_leaf {α : Type} [LinearOrderedField α] (M : Builtins α)
    (fuel n index p : Nat) (s : NodeMap α) (hp : (s.node n).parent = some p)
    (hc : (s.node n).children = []) :
    layNodeAroundParent M (fuel + 1) n index s =
      some (takePosition (placeRadially M s n index p) n) := by
  have hch : ((placeRadially M s n index p).node n).children = [] := by
    rw [(placeRadially_forceKept M s n index p).coreKept.children n, hc]
  rw [layNodeAroundParent]
  simp only [hp, hch, eachIndexed, Option.some_bind]

theorem positionSelf_of_hasPosition {α : Type} [LinearOrderedField α] (s : NodeMap α)
    (n : Nat) (h : (s.node n).hasPosition = true) : positionSelf s n = (s, true) := by
  unfold positionSelf
  rw [if_neg (by simp [h])]

theorem subtreeSeekEquilibrium_leaf {α : Type} [LinearOrderedField α] (M : Builtins α)
    (fuel n : Nat) (s : NodeMap α) (hc : (s.node n).children = []) :
    subtreeSeekEquilibrium M (fuel + 1) n s =
      some (settleSelf M (positionSelf s n).1 n (positionSelf s n).2) := by
  have k1 := (positionSelf_forceKept s n).coreKept
  have hc1 : ((positionSelf s n).1.node n).children = [] := by rw [k1.children n, hc]
  have hc3 : ((settleSelf M (positionSelf s n).1 n (positionSelf s n).2).1.node n).children
      = [] := by
    rw [(settleSelf_coreKept M _ n _).children n, hc1]
  rw [subtreeSeekEquilibrium, layChildren_eq, hc1]
  simp only [eachIndexed, Option.some_bind, hc3, seekChildren]

theorem layChildren_childArmed :
    layChildren realBuiltins 1 (childArmed : Runtime ℝ).map 0 = some childLaid := by
  have hlay : layNodeAroundParent realBuiltins 1 1 0 (childArmed : Runtime ℝ).map =
      some (takePosition (placeRadially realBuiltins (childArmed : Runtime ℝ).map 1 0 0) 1) :=
    layNodeAroundParent_leaf realBuiltins 0 1 0 0 (childArmed : Runtime ℝ).map rfl rfl
  have hplaced : takePosition (placeRadially realBuiltins (childArmed : Runtime ℝ).map 1 0 0) 1
      = childLaid := by
    simp [takePosition, placeRadially, childArmed, thresholdTwoMap, NodeMap.node,
      NodeMap.setNode, realBuiltins, CHILD_PARENT_INIT_DISTANCE, childLaid, childLaidOut,
      childAtParent, rootAtCentre, default]
    norm_num
  rw [hplaced] at hlay
  have hchild : layChild realBuiltins 1 0 1 (childArmed : Runtime ℝ).map = some childLaid := by
    unfold layChild
    rw [if_pos (show ((childArmed : Runtime ℝ).map.node 1).hasPosition = false from rfl), hlay]
    rfl
  rw [layChildren_eq]
  show eachIndexed (layChild realBuiltins 1) [1] 0 (childArmed : Runtime ℝ).map = some childLaid
  simp only [eachIndexed, hchild, Option.some_bind]

theorem calculateForceVector_childLaid_root :
    calculateForceVector realBuiltins (childLaid : NodeMap ℝ) 0 = ⟨0, 0⟩ := by
  have e : euclid ⟨100, 50⟩ ⟨200 / 2, 100 / 2⟩ = 0 :=
    euclid_of_sq _ _ 0 le_rfl (by norm_num)
  simp [calculateForceVector, attractionPart, repulsionPart, childLaid, thresholdTwoMap,
    rootAtCentre, childLaidOut, NodeMap.node, Node.point, attraction_real, e,
    ForceVector.add, default]

theorem settleSelf_childLaid_root :
    settleSelf realBuiltins (childLaid : NodeMap ℝ) 0 true = (rootSettled, true) := by
  have hthr : (childLaid : NodeMap ℝ).minimumForceThreshold = 2 := rfl
  have hreach : (stabilityReached realBuiltins (childLaid : NodeMap ℝ) 0).2 = true := by
    rw [stabilityReached_of_scaled_below realBuiltins _ 0
      (by rw [calculateForceVector_childLaid_root, hthr]; norm_num)
      (by rw [calculateForceVector_childLaid_root, hthr]; norm_num)]
  have hb : (settleSelf realBuiltins (childLaid : NodeMap ℝ) 0 true).2 = true :=
    (settleSelf_snd realBuiltins _ 0 true).mpr ⟨rfl, hreach, rfl⟩
  have hstate := settleSelf_true_state realBuiltins (childLaid : NodeMap ℝ) 0 true hb
  exact Prod.ext (hstate.trans rfl) hb

theorem calculateForceVector_rootSettled_child :
    calculateForceVector realBuiltins (rootSettled : NodeMap ℝ) 1 = ⟨2929 / 16000, 0⟩ := by
  have e : euclid ⟨150, 50⟩ ⟨100, 50⟩ = 50 :=
    euclid_of_sq _ _ 50 (by norm_num) (by norm_num)
  simp [calculateForceVector, attractionPart, repulsionPart, rootSettled, thresholdTwoMap,
    rootAtCentre, childLaidOut, NodeMap.node, Node.point, attraction_real, repulsion_real, e,
    ForceVector.add, orOne, default]
  norm_num

theorem subtreeSeekEquilibrium_rootSettled_child :
    subtreeSeekEquilibrium realBuiltins 1 1 (rootSettled : NodeMap ℝ) =
      some (childSettled, false) := by
  have hthr : (rootSettled : NodeMap ℝ).minimumForceThreshold = 2 := rfl
  have hpos : positionSelf (rootSettled : NodeMap ℝ) 1 = (rootSettled, false) := rfl
  have hstab : stabilityReached realBuiltins (rootSettled : NodeMap ℝ) 1 =
      ((rootSettled : NodeMap ℝ).setNode 1
        { (rootSettled : NodeMap ℝ).node 1 with dx := 0, dy := 0 }, true) :=
    stabilityReached_of_scaled_below realBuiltins _ 1
      (by rw [calculateForceVector_rootSettled_child, hthr]; norm_num [abs_lt])
      (by rw [calculateForceVector_rootSettled_child, hthr]; norm_num)
  rw [show subtreeSeekEquilibrium realBuiltins 1 1 (rootSettled : NodeMap ℝ) = _ from
    subtreeSeekEquilibrium_leaf realBuiltins 0 1 (rootSettled : NodeMap ℝ) rfl, hpos]
  unfold settleSelf
  rw [if_neg (by decide), hstab]
  simp [takePosition, rootSettled, childSettled, thresholdTwoMap, NodeMap.node,
    NodeMap.setNode, rootAtCentre, childLaidOut, default]

theorem subtreeSeekEquilibrium_childArmed :
    subtreeSeekEquilibrium realBuiltins 2 0 (childArmed : Runtime ℝ).map =
      some (childSettled, false) := by
  rw [subtreeSeekEquilibrium, positionSelf_of_hasPosition (childArmed : Runtime ℝ).map 0 rfl]
  simp only [layChildren_childArmed, Option.some_bind, settleSelf_childLaid_root]
  show seekChildren (fun c st => subtreeSeekEquilibrium realBuiltins 1 c st) [1]
    (rootSettled : NodeMap ℝ) true = some (childSettled, false)
  simp only [seekChildren, subtreeSeekEquilibrium_rootSettled_child, Option.some_bind]
  rfl

theorem recalculateBoundingBox_childSettled :
    recalculateBoundingBox (childSettled : NodeMap ℝ) = childSettled := by
  have hx : recordedXgap (childSettled : NodeMap ℝ) = 0 := by
    simp only [recordedXgap, childSettled, thresholdTwoMap, List.foldl_cons, List.foldl_nil,
      gapStep_eq, protrudes, rootAtCentre, childLaidOut]
    norm_num [default]
  have hy : recordedYgap (childSettled : NodeMap ℝ) = 0 := by
    simp only [recordedYgap, childSettled, thresholdTwoMap, List.foldl_cons, List.foldl_nil,
      gapStep_eq, protrudes, rootAtCentre, childLaidOut]
    norm_num [default]
  rw [recalculateBoundingBox_eq, if_neg (by simp [hx, hy])]

theorem addNode_child :
    addNode realBuiltins 2 (rootAttached : Runtime ℝ) (some 0) 1 ⟨0, 0, 0, 0⟩ =
      some childAttached := by
  rw [addNode_child_begins]
  unfold animationLoop
  rw [subtreeSeekEquilibrium_childArmed]
  simp only [Option.some_bind, Bool.false_eq_true, false_and, if_false, false_or]
  rw [if_pos (show (childSettled : NodeMap ℝ).dragActiveOnMap = false from rfl),
    recalculateBoundingBox_childSettled]
  rfl

section Positions

variable {α : Type} [LinearOrderedField α]

theorem positionsKept_refl (s : NodeMap α) : PositionsKept s s :=
  ⟨CoreKept.ck_refl s, fun _ h => h⟩

theorem positionsKept_trans {s t u : NodeMap α} (h1 : PositionsKept s t)
    (h2 : PositionsKept t u) : PositionsKept s u :=
  ⟨h1.1.ck_trans h2.1, fun m hm => h2.2 m (h1.2 m hm)⟩

theorem positionsKept_of_laidOnly {s t : NodeMap α} (h : LaidOnly s t) : PositionsKept s t :=
  ⟨h.1.coreKept, fun m hm => by rw [h.2 m]; exact hm⟩

theorem positionsKept_of_hasPosition_eq {s t : NodeMap α} (hk : CoreKept s t)
    (h : ∀ m, (t.node m).hasPosition = (s.node m).hasPosition) : PositionsKept s t :=
  ⟨hk, fun m hm => by rw [h m]; exact hm⟩

theorem positionsKept_setNode_true (s : NodeMap α) (n : Nat) (nd : Node α)
    (hcore : nd.core = (s.node n).core) (hp : nd.hasPosition = true) :
    PositionsKept s (s.setNode n nd) := by
  refine ⟨coreKept_setNode s n nd hcore, fun m hm => ?_⟩
  by_cases hmn : m = n
  · subst hmn
    by_cases hl : m < s.nodes.length
    · rw [node_setNode_self s m nd hl]; exact hp
    · rw [setNode_of_length_le s m nd (not_lt.mp hl)]; exact hm
  · rw [node_setNode_ne s n m nd hmn]; exact hm

theorem layChild_positionsKept (M : Builtins α) (fuel i c : Nat) (st st' : NodeMap α)
    (h : layChild M fuel i c st = some st') : PositionsKept st st' := by
  unfold layChild at h
  by_cases hpos : (st.node c).hasPosition = false
  · rw [if_pos hpos] at h
    simp only [Option.bind_eq_some] at h
    obtain ⟨st1, h1, h2⟩ := h
    have k1 := positionsKept_of_laidOnly (layNodeAroundParent_laidOnly M fuel c i st st1 h1).1
    cases hp : (st1.node c).parent with
    | none => simp [hp] at h2
    | some p =>
      simp only [hp] at h2
      split_ifs at h2
      · simp only [Option.some.injEq] at h2
        subst h2
        exact positionsKept_trans k1
          (positionsKept_setNode_true st1 c _ (by simp [Node.core, hp]) rfl)
      · simp only [Option.some.injEq] at h2
        subst h2
        exact k1
  · rw [if_neg hpos] at h
    simp only [Option.some.injEq] at h
    subst h
    exact positionsKept_refl st

theorem layChildren_positionsKept (M : Builtins α) (fuel : Nat) (s s' : NodeMap α) (n : Nat)
    (h : layChildren M fuel s n = some s') : PositionsKept s s' := by
  rw [layChildren_eq] at h
  exact eachIndexed_rel PositionsKept positionsKept_refl (fun _ _ _ => positionsKept_trans)
    _ _ (fun i c st st' _ hb => layChild_positionsKept M fuel i c st st' hb) _ _ _ h

theorem stabilityReached_hasPosition (M : Builtins α) (s : NodeMap α) (n m : Nat) :
    ((stabilityReached M s n).1.node m).hasPosition = (s.node m).hasPosition := by
  unfold stabilityReached
  dsimp only
  split_ifs <;> exact proj_setNode Node.hasPosition s n _ (by rfl) m

theorem settleSelf_hasPosition (M : Builtins α) (s : NodeMap α) (n : Nat) (b : Bool)
    (m : Nat) : ((settleSelf M s n b).1.node m).hasPosition = (s.node m).hasPosition := by
  have h1 : ∀ m, (((stabilityReached M s n).1.setNode n
      { (stabilityReached M s n).1.node n with isStable := (stabilityReached M s n).2 }).node
        m).hasPosition = (s.node m).hasPosition := fun m => by
    rw [proj_setNode Node.hasPosition _ n _ (by rfl) m, stabilityReached_hasPosition]
  unfold settleSelf
  dsimp only
  split_ifs
  · exact proj_setNode Node.hasPosition s n _ (by rfl) m
  · unfold takePosition
    rw [proj_setNode Node.hasPosition _ n _ (by rfl) m]
    exact h1 m
  · exact h1 m

/-- A pass that returns true took no position away. -/
theorem subtreeSeekEquilibrium_positionsKept (M : Builtins α) :
    ∀ (fuel n : Nat) (s : NodeMap α) (r : NodeMap α × Bool),
      subtreeSeekEquilibrium M fuel n s = some r → r.2 = true →
      PositionsKept s r.1 ∧ (s.node n).hasPosition = true
  | 0, _, _, _, h, _ => by simp [subtreeSeekEquilibrium] at h
  | fuel + 1, n, s, r, h, hr => by
    rw [subtreeSeekEquilibrium] at h
    simp only [Option.bind_eq_some] at h
    obtain ⟨s2, hl, h3⟩ := h
    obtain ⟨hb, hR, _⟩ := seekChildren_true PositionsKept positionsKept_refl
      (fun _ _ _ => positionsKept_trans) _ _
      (fun c st r _ hc hr => (subtreeSeekEquilibrium_positionsKept M fuel c st r hc hr).1)
      _ _ _ h3 hr
    have hself : (s.node n).hasPosition = true := by
      rw [← positionSelf_snd]
      exact ((settleSelf_snd M s2 n _).mp hb).2.2
    rw [positionSelf_of_hasPosition s n hself] at hl
    exact ⟨positionsKept_trans (positionsKept_trans (layChildren_positionsKept M fuel s s2 n hl)
      (positionsKept_of_hasPosition_eq (settleSelf_coreKept M s2 n _)
        (settleSelf_hasPosition M s2 n _))) hR, hself⟩

/-- After a pass that returns true every node of the subtree has a position. -/
theorem subtreeSeekEquilibrium_true_positioned (M : Builtins α) :
    ∀ (fuel n : Nat) (s : NodeMap α) (r : NodeMap α × Bool),
      subtreeSeekEquilibrium M fuel n s = some r → r.2 = true →
      ∀ m, InSubtree s n m → (r.1.node m).hasPosition = true
  | 0, _, _, _, h, _ => by simp [subtreeSeekEquilibrium] at h
  | fuel + 1, n, s, r, h, hr => by
    obtain ⟨hkept, hself⟩ := subtreeSeekEquilibrium_positionsKept M (fuel + 1) n s r h hr
    rw [subtreeSeekEquilibrium] at h
    simp only [Option.bind_eq_some] at h
    obtain ⟨s2, hl, h3⟩ := h
    obtain ⟨_, _, hall⟩ := seekChildren_true PositionsKept positionsKept_refl
      (fun _ _ _ => positionsKept_trans) _ _
      (fun c st r _ hc hr => (subtreeSeekEquilibrium_positionsKept M fuel c st r hc hr).1)
      _ _ _ h3 hr
    have k3 : CoreKept s (settleSelf M s2 n (positionSelf s n).2).1 :=
      ((positionSelf_forceKept s n).coreKept.ck_trans
        (layChildren_forceKept M fuel _ s2 n hl).coreKept).ck_trans
        (settleSelf_coreKept M s2 n _)
    intro m hm
    rcases (inSubtree_iff s n m).mp hm with rfl | ⟨c, hc, hcm⟩
    · exact hkept.2 m hself
    · obtain ⟨st, r1, k4, k5, k6, k7⟩ := hall c (by rw [k3.children n]; exact hc)
      exact k7.2 m (subtreeSeekEquilibrium_true_positioned M fuel c st r1 k5 k6 m
        ((k3.ck_trans k4.1).inSubtree hcm))

end Positions

section StableWithoutPosition

variable {α : Type} [LinearOrderedField α]

/-- C11, as stated, fails: a node can be stable without a position in a reachable state.
On a 200 × 100 map created with the option `minimumForceThreshold = 2`, `addNode` attaches
a root and then a child of it, both with elements of size 0.  The pass that `addNode`
starts at the root lays the child at the root's centre, and its visit of the child finds
`hasPosition` false, so it places nothing, but still stores
`isStable = stabilityReached()`: the child, 50 away from the root, feels the repulsion
`23/125` of the root and the attraction `3/3200` of its edge, `2929/16000` together, and
ten times that is below the threshold 2, so the force counts as zero.  The state after the
second `addNode` holds node 1 with `isStable = true` and `hasPosition = false`. -/
theorem stable_without_position_reachable :
    Reachable realBuiltins (childAttached : Runtime ℝ) ∧
    ((childAttached : Runtime ℝ).map.node 1).isStable = true ∧
    ((childAttached : Runtime ℝ).map.node 1).hasPosition = false :=
  ⟨Reachable.attach 2 (some 0) 1 ⟨0, 0, 0, 0⟩
    (Reachable.attach 2 none 0 ⟨0, 0, 0, 0⟩ (Reachable.fresh 2 200 100) addNode_root)
    addNode_child, rfl, rfl⟩

/-- C11, amended: what the code guarantees is tied to a pass that answers true.  When
`subtreeSeekEquilibrium` on node `n` returns true, the node `n` had a position before the
pass, and in the state it leaves every node `m` of the subtree of `n` has
`hasPosition = true`; so no node of that subtree is marked stable while lacking a
position.  (A pass that visits a node without a position answers false.) -/
theorem subtreeSeekEquilibrium_true_leaves_positions (M : Builtins α) (fuel n : Nat)
    (s : NodeMap α) (r : NodeMap α × Bool)
    (h : subtreeSeekEquilibrium M fuel n s = some r) (hr : r.2 = true) :
    (s.node n).hasPosition = true ∧
    ∀ m, InSubtree s n m →
      (r.1.node m).hasPosition = true ∧
      ¬ ((r.1.node m).isStable = true ∧ (r.1.node m).hasPosition = false) := by
  refine ⟨(subtreeSeekEquilibrium_positionsKept M fuel n s r h hr).2, fun m hm => ?_⟩
  have hp := subtreeSeekEquilibrium_true_positioned M fuel n s r h hr m hm
  exact ⟨hp, fun hc => by rw [hp] at hc; exact Bool.noConfusion hc.2⟩

/-- C11, amended, at a concrete map: the pass over `settledFamily` from its root answers
true, and the child 1 of the root has a position afterwards. -/
theorem subtreeSeekEquilibrium_true_leaves_positions_witness :
    subtreeSeekEquilibrium realBuiltins 3 0 (settledFamily : NodeMap ℝ) =
      some (settledFamily, true) ∧
    InSubtree (settledFamily : NodeMap ℝ) 0 1 ∧
    (((settledFamily : NodeMap ℝ).node 1).hasPosition = true ∧
      ¬ (((settledFamily : NodeMap ℝ).node 1).isStable = true ∧
        ((settledFamily : NodeMap ℝ).node 1).hasPosition = false)) :=
  have hpass : subtreeSeekEquilibrium realBuiltins 3 0 (settledFamily : NodeMap ℝ) =
      some (settledFamily, true) :=
    subtreeSeekEquilibrium_of_fullyStable realBuiltins (settledFamily : NodeMap ℝ)
      wellFormed_settledFamily 3 0 (by simp [settledFamily]) (by simp [settledFamily])
      fullyStable_settledFamily
  have hin : InSubtree (settledFamily : NodeMap ℝ) 0 1 :=
    InSubtree.child (by simp [settledFamily, NodeMap.node]) (InSubtree.self 1)
  ⟨hpass, hin,
    (subtreeSeekEquilibrium_true_leaves_positions realBuiltins 3 0
      (settledFamily : NodeMap ℝ) (settledFamily, true) hpass rfl).2 1 hin⟩

end StableWithoutPosition

end Knode
